import Mathlib

/-!
Shallow embedding of the concentrated-liquidity batch position engine of the
kuru-sdk repository: the `PositionViewer` class (grid generation, liquidity
allocation, fixed-point helpers) and `getLPSummaryForMinSize` (minimum-size
normalization).

JavaScript `bigint` values are modelled as `ℤ`; JavaScript bigint division and
remainder truncate toward zero, which is `Int.tdiv` / `Int.tmod`, and throw a
RangeError on a zero divisor, which is modelled with `Except`.  `number`
values appear only in `Math.min(Number(bestAskPrice), Number(endPrice))`; the
conversion of a bigint to the nearest IEEE-754 double is modelled exactly by
`intToDouble` (53-bit mantissa, round to nearest, ties to even), and the
mixed bigint/number comparisons in the loop headers compare exact values,
as JavaScript does.
-/

namespace Kuru

/-- The distinct synchronous failures the engine can raise (each `throw new
Error(...)` site and each bigint RangeError gets one constructor). -/
inductive JsErr where
  | rangeTooWide
  | missingLiquidity
  | divisionByZero
  | mulDivZero
  | mulDivOverflow
  | degenerateRange
  | typeError
  deriving DecidableEq, Repr

/-- One resting order: `{ price, flipPrice, liquidity }`, all bigint. -/
structure Position where
  price : ℤ
  flipPrice : ℤ
  liquidity : ℤ
  deriving DecidableEq, Repr

/-- The engine's raw output record. -/
structure BatchLPDetails where
  bids : List Position
  asks : List Position
  quoteLiquidity : ℤ
  baseLiquidity : ℤ
  minSizeError : Bool
  deriving DecidableEq, Repr

/-- The normalized summary computed by `getLPSummaryForMinSize`. -/
structure LPSummary where
  bids : List Position
  asks : List Position
  quoteLiquidity : ℤ
  baseLiquidity : ℤ
  deriving DecidableEq, Repr

/-- `{ batchLPDetails, lpSummary }`. -/
structure BatchLPResult where
  batchLPDetails : BatchLPDetails
  lpSummary : LPSummary
  deriving DecidableEq, Repr

instance {ε α : Type _} [DecidableEq ε] [DecidableEq α] :
    DecidableEq (Except ε α) := fun
  | .ok a, .ok b =>
    if h : a = b then .isTrue (by rw [h]) else .isFalse (by simp [h])
  | .ok _, .error _ => .isFalse (by simp)
  | .error _, .ok _ => .isFalse (by simp)
  | .error e, .error f =>
    if h : e = f then .isTrue (by rw [h]) else .isFalse (by simp [h])

def FEE_DENOMINATOR : ℤ := 10000

/-- JavaScript bigint division: truncation toward zero; RangeError on zero. -/
def jsDiv (a b : ℤ) : Except JsErr ℤ :=
  if b = 0 then .error .divisionByZero else .ok (a.tdiv b)

/-- JavaScript bigint remainder: sign of the dividend; RangeError on zero. -/
def jsMod (a b : ℤ) : Except JsErr ℤ :=
  if b = 0 then .error .divisionByZero else .ok (a.tmod b)

/-- `PositionViewer.mulDivUp`: ceiling-rounded `(x*y)/d` with the zero-denominator
and overflow guards of the source. -/
def mulDivUp (x y d : ℤ) : Except JsErr ℤ :=
  if d = 0 then .error .mulDivZero
  else
    let z := x * y
    if y ≠ 0 ∧ z.tdiv y ≠ x then .error .mulDivOverflow
    else if z.tmod d = 0 then .ok (z.tdiv d) else .ok (z.tdiv d + 1)

/-- `PositionViewer.normalizeBidSize`. -/
def normalizeBidSize (price sizePrecision bidSize : ℤ) : Except JsErr ℤ := do
  let up ← mulDivUp price bidSize sizePrecision
  let fl ← jsDiv (price * bidSize) sizePrecision
  if fl < up then
    let adj ← mulDivUp 1 sizePrecision price
    pure (bidSize - adj)
  else
    pure bidSize

/-- The number of halvings needed to bring `n` below `2^53` (the binary
exponent of the rounding unit of the nearest double).  The first argument is
recursion fuel; any fuel of at least `log2 n - 52` (so in particular `n`
itself) gives the exact count. -/
def ulpExp : ℕ → ℕ → ℕ
  | 0, _ => 0
  | fuel + 1, n => if n < 2 ^ 53 then 0 else ulpExp fuel (n / 2) + 1

/-- Round `n` to a multiple of the rounding unit `p`: to the nearer multiple,
ties to the even quotient. -/
def natRound (n p : ℕ) : ℕ :=
  if 2 * (n % p) < p then n / p * p
  else if p < 2 * (n % p) then (n / p + 1) * p
  else if (n / p) % 2 = 0 then n / p * p else (n / p + 1) * p

/-- Exact value of the IEEE-754 double nearest to a natural number: below `2^53`
the number itself, above it the 53-bit-mantissa rounding, ties to even. -/
def natToDouble (n : ℕ) : ℕ :=
  if n < 2 ^ 53 then n
  else natRound n (2 ^ ulpExp n n)

/-- JavaScript `Number(bigint)`: the exact value of the resulting double. -/
def intToDouble (n : ℤ) : ℤ :=
  if n < 0 then -(natToDouble n.natAbs) else natToDouble n.natAbs

/-- `x - (x % tickSize)` as it appears inside the grid loops (the top-level
occurrence on the raw `startPrice` goes through `jsMod` because `tickSize`
may still be zero there; by loop time a zero tick has already thrown). -/
def tickAlign (tick x : ℤ) : ℤ := x - x.tmod tick

/-- One step of the shared price walk:
`next = floorTick(cur * (FEE_DENOMINATOR + minFeesBps) / FEE_DENOMINATOR)`,
bumped a tick if the rounding collapsed it onto `cur`. -/
def gridNext (minFeesBps tick cur : ℤ) : ℤ :=
  let n := (cur * (FEE_DENOMINATOR + minFeesBps)).tdiv FEE_DENOMINATOR
  let n2 := tickAlign tick n
  if n2 = cur then cur + tick else n2

/-- Flip price attached to a bid: one fee-compounded, tick-aligned step past the
bid's own next price. -/
def bidFlip (minFeesBps tick nextPrice : ℤ) : ℤ :=
  let f := (nextPrice * (FEE_DENOMINATOR + minFeesBps)).tdiv FEE_DENOMINATOR
  let f2 := tickAlign tick f
  if f2 = nextPrice then nextPrice + tick else f2

/-- Flip price attached to an ask: two downward fee steps, forced strictly
below by a tick when rounding collapses, then tick-aligned. -/
def askFlip (minFeesBps tick cur : ℤ) : ℤ :=
  let f := (cur * (FEE_DENOMINATOR - minFeesBps) * (FEE_DENOMINATOR - minFeesBps)).tdiv
    (FEE_DENOMINATOR * FEE_DENOMINATOR)
  let f2 := if f = cur then cur - tick else f
  tickAlign tick f2

/-- The bid-generation `while` loop: walks from `cur` while `cur < maxPrice`,
emitting a zero-liquidity position per visited price, and returns the final
walk price (from which the ask loop continues).  `fuel` is a recursion bound;
the callers pass more fuel than the loop can consume. -/
def bidLoop (minFeesBps tick maxPrice : ℤ) : ℕ → ℤ → List Position × ℤ
  | 0, cur => ([], cur)
  | fuel + 1, cur =>
    if cur < maxPrice then
      let nextPrice := gridNext minFeesBps tick cur
      let rest := bidLoop minFeesBps tick maxPrice fuel nextPrice
      (⟨cur, bidFlip minFeesBps tick nextPrice, 0⟩ :: rest.1, rest.2)
    else ([], cur)

/-- The ask-generation `while` loop: walks from `cur` while `cur < endPrice`. -/
def askLoop (minFeesBps tick endPrice : ℤ) : ℕ → ℤ → List Position
  | 0, _ => []
  | fuel + 1, cur =>
    if cur < endPrice then
      ⟨cur, askFlip minFeesBps tick cur, 0⟩ ::
        askLoop minFeesBps tick endPrice fuel (gridNext minFeesBps tick cur)
    else []

/-- `startPrice * (FEE_DENOMINATOR + minFeesBps)^n / FEE_DENOMINATOR^n`, the
powers built by the source's repeated-multiplication loop. -/
def maxReachablePrice (minFeesBps startPrice : ℤ) (n : ℕ) : ℤ :=
  (startPrice * (FEE_DENOMINATOR + minFeesBps) ^ n).tdiv (FEE_DENOMINATOR ^ n)

/-- The `maxPricePoints` pre-check shared by the three entry points. -/
def priceRangeCheck (minFeesBps startPrice endPrice : ℤ) :
    Option ℕ → Except JsErr Unit
  | none => .ok ()
  | some n =>
    if maxReachablePrice minFeesBps startPrice n ≤ endPrice then
      .error .rangeTooWide
    else .ok ()

/-- Comparator order of `sort((a, b) => Number(b.price - a.price))`. -/
def priceDesc (a b : Position) : Prop := b.price ≤ a.price

instance : DecidableRel priceDesc := fun a b => Int.decLe _ _

instance : IsTotal Position priceDesc := ⟨fun a b => le_total b.price a.price⟩

instance : IsTrans Position priceDesc := ⟨fun _ _ _ h1 h2 => le_trans h2 h1⟩

/-- Comparator order of `sort((a, b) => Number(a.price - b.price))`. -/
def priceAsc (a b : Position) : Prop := a.price ≤ b.price

instance : DecidableRel priceAsc := fun a b => Int.decLe _ _

instance : IsTotal Position priceAsc := ⟨fun a b => le_total a.price b.price⟩

instance : IsTrans Position priceAsc := ⟨fun _ _ _ h1 h2 => le_trans h1 h2⟩

/-- `positions.sort((a, b) => Number(b.price - a.price))` — highest price first.
The generated ladders have pairwise distinct prices, so any comparison sort
produces this unique order. -/
def sortByPriceDesc (l : List Position) : List Position :=
  List.insertionSort priceDesc l

/-- `positions.sort((a, b) => Number(a.price - b.price))` — lowest price first. -/
def sortByPriceAsc (l : List Position) : List Position :=
  List.insertionSort priceAsc l

/-- The running minimum of the `liquidity` fields, `none` on an empty side
(the JavaScript `null`). -/
def smallestLiquidity : List Position → Option ℤ
  | [] => none
  | p :: rest =>
    match smallestLiquidity rest with
    | none => some p.liquidity
    | some s => some (if p.liquidity < s then p.liquidity else s)

/-- Bid scaling step of `getLPSummaryForMinSize` (the `.map` over the bids):
each bid is rescaled by `minSizeAtPrice / smallest`, where `minSizeAtPrice`
converts `minSize` to the bid's own price. -/
def scaleBids (minSize sizePrecision pricePrecision : ℤ) (quoteAssetDecimals : ℕ)
    (smallest : Option ℤ) : List Position → Except JsErr (List Position)
  | [] => .ok []
  | position :: rest => do
    let scaled ←
      match smallest with
      | none => pure position
      | some s =>
        if s = 0 then pure position
        else do
          let minSizeAtPrice ← jsDiv
            (minSize * position.price * 10 ^ quoteAssetDecimals)
            (pricePrecision * sizePrecision)
          let liq ← jsDiv (position.liquidity * minSizeAtPrice) s
          pure { position with liquidity := liq }
    let tail ← scaleBids minSize sizePrecision pricePrecision quoteAssetDecimals
      smallest rest
    pure (scaled :: tail)

/-- Ask scaling step of `getLPSummaryForMinSize` (the `.map` over the asks):
plain `liquidity * minSize / smallest`. -/
def scaleAsks (minSize : ℤ) (smallest : Option ℤ) :
    List Position → Except JsErr (List Position)
  | [] => .ok []
  | position :: rest => do
    let scaled ←
      match smallest with
      | none => pure position
      | some s =>
        if s = 0 then pure position
        else do
          let liq ← jsDiv (position.liquidity * minSize) s
          pure { position with liquidity := liq }
    let tail ← scaleAsks minSize smallest rest
    pure (scaled :: tail)

/-- `getLPSummaryForMinSize` from `lpSummary.ts`. -/
def getLPSummaryForMinSize (batch : BatchLPDetails)
    (minSize sizePrecision pricePrecision : ℤ) (quoteAssetDecimals : ℕ) :
    Except JsErr LPSummary := do
  let smallestBidSize := smallestLiquidity batch.bids
  let smallestAskSize := smallestLiquidity batch.asks
  let scaledBids ← scaleBids minSize sizePrecision pricePrecision quoteAssetDecimals
    smallestBidSize batch.bids
  let scaledAsks ← scaleAsks minSize smallestAskSize batch.asks
  pure ⟨scaledBids, scaledAsks,
    scaledBids.foldl (fun sum bid => sum + bid.liquidity) 0,
    scaledAsks.foldl (fun sum ask => sum + ask.liquidity) 0⟩

/-- Spot, quote-liquidity-only branch, bid loop: even `quotePerTick` per bid,
floor-converted to a size and passed through `normalizeBidSize`; the
under-minimum flag tests the raw (pre-normalization) `bidSize`. -/
def spotQuoteBids (quotePerTick sizePrecision pricePrecision : ℤ)
    (quoteAssetDecimals : ℕ) (minSize : ℤ) :
    List Position → Except JsErr (List Position × Bool)
  | [] => .ok ([], false)
  | bid :: rest => do
    let bidSize ← jsDiv (quotePerTick * sizePrecision * pricePrecision)
      (bid.price * 10 ^ quoteAssetDecimals)
    let liq ← normalizeBidSize bid.price sizePrecision bidSize
    let tail ← spotQuoteBids quotePerTick sizePrecision pricePrecision
      quoteAssetDecimals minSize rest
    .ok ({ bid with liquidity := liq } :: tail.1,
      decide (bidSize < minSize) || tail.2)

/-- Spot, quote-liquidity-only branch, ask loop: same per-tick conversion, and
the implied base liquidity of each ask is accumulated. -/
def spotQuoteAsks (quotePerTick sizePrecision pricePrecision : ℤ)
    (quoteAssetDecimals baseAssetDecimals : ℕ) (minSize : ℤ) :
    List Position → Except JsErr (List Position × ℤ × Bool)
  | [] => .ok ([], 0, false)
  | ask :: rest => do
    let liq ← jsDiv (quotePerTick * sizePrecision * pricePrecision)
      (ask.price * 10 ^ quoteAssetDecimals)
    let contrib ← jsDiv (liq * 10 ^ baseAssetDecimals) sizePrecision
    let tail ← spotQuoteAsks quotePerTick sizePrecision pricePrecision
      quoteAssetDecimals baseAssetDecimals minSize rest
    .ok ({ ask with liquidity := liq } :: tail.1, contrib + tail.2.1,
      decide (liq < minSize) || tail.2.2)

/-- Spot, base-liquidity-only branch: the scaled reciprocal sum
`Σ mulDivUp(pricePrecision, pricePrecision, price)` over the asks. -/
def reciprocalSumScaled (pricePrecision : ℤ) (asks : List Position) :
    Except JsErr ℤ :=
  asks.foldlM (fun sum ask => do
    let t ← mulDivUp pricePrecision pricePrecision ask.price
    pure (sum + t)) 0

/-- Spot, base-liquidity-only branch, ask loop. -/
def spotBaseAsks (baseLiquidity sizePrecision pricePrecision recipSum : ℤ)
    (baseAssetDecimals : ℕ) (minSize : ℤ) :
    List Position → Except JsErr (List Position × Bool)
  | [] => .ok ([], false)
  | ask :: rest => do
    let liq ← jsDiv (baseLiquidity * sizePrecision * pricePrecision * pricePrecision)
      (recipSum * ask.price * 10 ^ baseAssetDecimals)
    let tail ← spotBaseAsks baseLiquidity sizePrecision pricePrecision recipSum
      baseAssetDecimals minSize rest
    .ok ({ ask with liquidity := liq } :: tail.1,
      decide (liq < minSize) || tail.2)

/-- Spot, base-liquidity-only branch, bid loop: one `quotePerTick` of inferred
quote per bid; the flag tests the raw `bidSize`. -/
def spotBaseBids (quotePerTick sizePrecision pricePrecision : ℤ)
    (quoteAssetDecimals : ℕ) (minSize : ℤ) :
    List Position → Except JsErr (List Position × ℤ × Bool)
  | [] => .ok ([], 0, false)
  | bid :: rest => do
    let bidSize ← jsDiv (quotePerTick * sizePrecision * pricePrecision)
      (bid.price * 10 ^ quoteAssetDecimals)
    let liq ← normalizeBidSize bid.price sizePrecision bidSize
    let tail ← spotBaseBids quotePerTick sizePrecision pricePrecision
      quoteAssetDecimals minSize rest
    .ok ({ bid with liquidity := liq } :: tail.1, quotePerTick + tail.2.1,
      decide (bidSize < minSize) || tail.2.2)

/-- Spot, both-totals branch, ask loop: flat split of the base total. -/
def spotBothAsks (baseLiquidity sizePrecision numAsks : ℤ)
    (baseAssetDecimals : ℕ) (minSize : ℤ) :
    List Position → Except JsErr (List Position × Bool)
  | [] => .ok ([], false)
  | ask :: rest => do
    let liq ← jsDiv (baseLiquidity * sizePrecision)
      (numAsks * 10 ^ baseAssetDecimals)
    let tail ← spotBothAsks baseLiquidity sizePrecision numAsks
      baseAssetDecimals minSize rest
    .ok ({ ask with liquidity := liq } :: tail.1,
      decide (liq < minSize) || tail.2)

/-- Spot, both-totals branch, bid loop: flat split of the quote total. -/
def spotBothBids (quoteLiquidity sizePrecision pricePrecision numBids : ℤ)
    (quoteAssetDecimals : ℕ) (minSize : ℤ) :
    List Position → Except JsErr (List Position × Bool)
  | [] => .ok ([], false)
  | bid :: rest => do
    let bidSize ← jsDiv (quoteLiquidity * sizePrecision * pricePrecision)
      (numBids * bid.price * 10 ^ quoteAssetDecimals)
    let liq ← normalizeBidSize bid.price sizePrecision bidSize
    let tail ← spotBothBids quoteLiquidity sizePrecision pricePrecision numBids
      quoteAssetDecimals minSize rest
    .ok ({ bid with liquidity := liq } :: tail.1,
      decide (bidSize < minSize) || tail.2)

/-- Modelled from the spec: the reference grid walk against which the source's
floating-point bid bound is compared — identical step function, but the bid
loop is bounded by the exact integer minimum of `bestAskPrice` and
`endPrice`, with no conversion through doubles. -/
def referenceBidBound (bestAskPrice endPrice : ℤ) : ℤ := min bestAskPrice endPrice

/-- The bid bound the source actually computes:
`Math.min(Number(bestAskPrice), Number(endPrice))`. -/
def codeBidBound (bestAskPrice endPrice : ℤ) : ℤ :=
  min (intToDouble bestAskPrice) (intToDouble endPrice)

/-- Loop fuel used by the entry points: strictly more iterations than any of
the `while` loops can make, since every step advances the walk by at least
one tick and the walk stays below the (double-rounded, hence at most doubled)
price bounds. -/
def gridFuel (bestAskPrice endPrice : ℤ) : ℕ :=
  (bestAskPrice.natAbs + endPrice.natAbs) * 2 + 2

/-- `PositionViewer.getSpotBatchLPDetails`. -/
def getSpotBatchLPDetails (minFeesBps startPrice endPrice bestAskPrice
    pricePrecision sizePrecision : ℤ) (quoteAssetDecimals baseAssetDecimals : ℕ)
    (tickSize minSize : ℤ) (quoteLiquidity baseLiquidity : Option ℤ)
    (maxPricePoints : Option ℕ) : Except JsErr BatchLPResult := do
  priceRangeCheck minFeesBps startPrice endPrice maxPricePoints
  if quoteLiquidity = none ∧ baseLiquidity = none then
    throw .missingLiquidity
  let m ← jsMod startPrice tickSize
  let start := startPrice - m
  let maxPrice := codeBidBound bestAskPrice endPrice
  let fuel := gridFuel bestAskPrice endPrice
  let walk := bidLoop minFeesBps tickSize maxPrice fuel start
  let bids := walk.1
  let asks := askLoop minFeesBps tickSize endPrice fuel walk.2
  let numBids : ℤ := bids.length
  match quoteLiquidity, baseLiquidity with
  | some quoteL, none => do
    let quotePerTick ← jsDiv quoteL numBids
    let outBids ← spotQuoteBids quotePerTick sizePrecision pricePrecision
      quoteAssetDecimals minSize bids
    let outAsks ← spotQuoteAsks quotePerTick sizePrecision pricePrecision
      quoteAssetDecimals baseAssetDecimals minSize asks
    let batch : BatchLPDetails := ⟨sortByPriceDesc outBids.1,
      sortByPriceDesc outAsks.1, quoteL, outAsks.2.1,
      outBids.2 || outAsks.2.2⟩
    let summary ← getLPSummaryForMinSize batch minSize sizePrecision
      pricePrecision quoteAssetDecimals
    .ok ⟨batch, summary⟩
  | none, some baseL => do
    let recipSum ← reciprocalSumScaled pricePrecision asks
    if recipSum = 0 then throw .degenerateRange
    let outAsks ← spotBaseAsks baseL sizePrecision pricePrecision recipSum
      baseAssetDecimals minSize asks
    match outAsks.1 with
    | [] => throw .typeError
    | firstAsk :: _ => do
      let quotePerTick ← jsDiv
        (firstAsk.liquidity * firstAsk.price * 10 ^ quoteAssetDecimals)
        (sizePrecision * pricePrecision)
      let outBids ← spotBaseBids quotePerTick sizePrecision pricePrecision
        quoteAssetDecimals minSize bids
      let batch : BatchLPDetails := ⟨sortByPriceDesc outBids.1,
        sortByPriceDesc outAsks.1, outBids.2.1, baseL,
        outAsks.2 || outBids.2.2⟩
      let summary ← getLPSummaryForMinSize batch minSize sizePrecision
        pricePrecision quoteAssetDecimals
      .ok ⟨batch, summary⟩
  | some quoteL, some baseL => do
    let outAsks ← spotBothAsks baseL sizePrecision asks.length
      baseAssetDecimals minSize asks
    let outBids ← spotBothBids quoteL sizePrecision pricePrecision numBids
      quoteAssetDecimals minSize bids
    let batch : BatchLPDetails := ⟨sortByPriceDesc outBids.1,
      sortByPriceDesc outAsks.1, quoteL, baseL,
      outAsks.2 || outBids.2⟩
    let summary ← getLPSummaryForMinSize batch minSize sizePrecision
      pricePrecision quoteAssetDecimals
    .ok ⟨batch, summary⟩
  | none, none => do
    let batch : BatchLPDetails := ⟨[], [], 0, 0, false⟩
    let summary ← getLPSummaryForMinSize batch minSize sizePrecision
      pricePrecision quoteAssetDecimals
    .ok ⟨batch, summary⟩

/-- Curve, quote-given branch, bid loop: bid `i` (0-indexed from the farthest)
receives `i + 1` quote units. -/
def curveQuoteBids (quoteUnit pricePrecision sizePrecision : ℤ)
    (quoteAssetDecimals : ℕ) (minSize : ℤ) :
    ℕ → List Position → Except JsErr (List Position × Bool)
  | _, [] => .ok ([], false)
  | i, bid :: rest => do
    let quoteForThisBid := quoteUnit * ((i : ℤ) + 1)
    let bidSize ← jsDiv (quoteForThisBid * pricePrecision * sizePrecision)
      (10 ^ quoteAssetDecimals * bid.price)
    let liq ← normalizeBidSize bid.price sizePrecision bidSize
    let tail ← curveQuoteBids quoteUnit pricePrecision sizePrecision
      quoteAssetDecimals minSize (i + 1) rest
    .ok ({ bid with liquidity := liq } :: tail.1,
      decide (bidSize < minSize) || tail.2)

/-- Curve, quote-given branch, ask loop: ask `i` receives `numAsks - i` quote
units; the implied base liquidity is accumulated. -/
def curveQuoteAsks (quoteUnit sizePrecision pricePrecision numAsks : ℤ)
    (quoteAssetDecimals baseAssetDecimals : ℕ) (minSize : ℤ) :
    ℕ → List Position → Except JsErr (List Position × ℤ × Bool)
  | _, [] => .ok ([], 0, false)
  | i, ask :: rest => do
    let quoteForThisAsk := quoteUnit * (numAsks - (i : ℤ))
    let liq ← jsDiv (quoteForThisAsk * sizePrecision * pricePrecision)
      (10 ^ quoteAssetDecimals * ask.price)
    let contrib ← jsDiv (quoteForThisAsk * 10 ^ baseAssetDecimals * pricePrecision)
      (10 ^ quoteAssetDecimals * ask.price)
    let tail ← curveQuoteAsks quoteUnit sizePrecision pricePrecision numAsks
      quoteAssetDecimals baseAssetDecimals minSize (i + 1) rest
    .ok ({ ask with liquidity := liq } :: tail.1, contrib + tail.2.1,
      decide (liq < minSize) || tail.2.2)

/-- Curve, base-given branch: `Σ mulDivUp((numAsks - i) * farthestAskPrice,
pricePrecision, price_i)`. -/
def curveWeightedSum (farthestAskPrice pricePrecision numAsks : ℤ) :
    ℕ → List Position → Except JsErr ℤ
  | _, [] => .ok 0
  | i, ask :: rest => do
    let ratio ← mulDivUp ((numAsks - (i : ℤ)) * farthestAskPrice) pricePrecision
      ask.price
    let tail ← curveWeightedSum farthestAskPrice pricePrecision numAsks (i + 1) rest
    .ok (ratio + tail)

/-- Curve, base-given branch, ask loop: distributes `baseInFarthestAsk` with
multiplier `numAsks - i`, accumulating the implied quote total. -/
def curveBaseAsks (baseInFarthestAsk farthestAskPrice sizePrecision
    pricePrecision numAsks : ℤ) (quoteAssetDecimals baseAssetDecimals : ℕ)
    (minSize : ℤ) : ℕ → List Position → Except JsErr (List Position × ℤ × Bool)
  | _, [] => .ok ([], 0, false)
  | i, ask :: rest => do
    let baseForThisAsk ← jsDiv
      ((numAsks - (i : ℤ)) * baseInFarthestAsk * farthestAskPrice) ask.price
    let liq ← jsDiv (baseForThisAsk * sizePrecision) (10 ^ baseAssetDecimals)
    let quoteForThisAsk ← jsDiv
      (baseForThisAsk * ask.price * 10 ^ quoteAssetDecimals)
      (10 ^ baseAssetDecimals * pricePrecision)
    let tail ← curveBaseAsks baseInFarthestAsk farthestAskPrice sizePrecision
      pricePrecision numAsks quoteAssetDecimals baseAssetDecimals minSize
      (i + 1) rest
    .ok ({ ask with liquidity := liq } :: tail.1, quoteForThisAsk + tail.2.1,
      decide (liq < minSize) || tail.2.2)

/-- `PositionViewer.getCurveBatchLPDetails`. -/
def getCurveBatchLPDetails (minFeesBps startPrice endPrice bestAskPrice
    pricePrecision sizePrecision : ℤ) (quoteAssetDecimals baseAssetDecimals : ℕ)
    (tickSize minSize : ℤ) (quoteLiquidity baseLiquidity : Option ℤ)
    (maxPricePoints : Option ℕ) : Except JsErr BatchLPResult := do
  priceRangeCheck minFeesBps startPrice endPrice maxPricePoints
  if quoteLiquidity = none ∧ baseLiquidity = none then
    throw .missingLiquidity
  let m ← jsMod startPrice tickSize
  let start := startPrice - m
  let maxPrice := codeBidBound bestAskPrice endPrice
  let fuel := gridFuel bestAskPrice endPrice
  let walk := bidLoop minFeesBps tickSize maxPrice fuel start
  let bids := walk.1
  let asks := askLoop minFeesBps tickSize endPrice fuel walk.2
  let numBids : ℤ := bids.length
  let numAsks : ℤ := asks.length
  match quoteLiquidity, baseLiquidity with
  | some quoteL, _ => do
    let quoteUnitForBids ← if 0 < numBids then
        jsDiv (2 * quoteL) (numBids * (numBids + 1)) else pure 0
    let quoteUnitForAsks ← if 0 < numAsks then
        jsDiv (2 * quoteL) (numAsks * (numAsks + 1)) else pure 0
    let outBids ← curveQuoteBids quoteUnitForBids pricePrecision sizePrecision
      quoteAssetDecimals minSize 0 bids
    let outAsks ← curveQuoteAsks quoteUnitForAsks sizePrecision pricePrecision
      numAsks quoteAssetDecimals baseAssetDecimals minSize 0 asks
    let batch : BatchLPDetails := ⟨sortByPriceDesc outBids.1,
      sortByPriceAsc outAsks.1, quoteL, outAsks.2.1,
      outBids.2 || outAsks.2.2⟩
    let summary ← getLPSummaryForMinSize batch minSize sizePrecision
      pricePrecision quoteAssetDecimals
    .ok ⟨batch, summary⟩
  | none, some baseL => do
    if numAsks = 0 then throw .degenerateRange
    match asks.getLast? with
    | none => throw .typeError
    | some farthestAsk => do
      let wsum ← curveWeightedSum farthestAsk.price pricePrecision numAsks 0 asks
      let baseInFarthestAsk ← if 0 < wsum then
          jsDiv (baseL * pricePrecision) wsum else pure 0
      let outAsks ← curveBaseAsks baseInFarthestAsk farthestAsk.price
        sizePrecision pricePrecision numAsks quoteAssetDecimals
        baseAssetDecimals minSize 0 asks
      let totalQuote := outAsks.2.1
      let afterBids ←
        if 0 < numBids then do
          let quoteUnitForBids ← jsDiv (2 * totalQuote) (numBids * (numBids + 1))
          let outBids ← curveQuoteBids quoteUnitForBids pricePrecision
            sizePrecision quoteAssetDecimals minSize 0 bids
          pure (outBids.1, totalQuote, outBids.2)
        else pure (bids, (0 : ℤ), false)
      let batch : BatchLPDetails := ⟨sortByPriceDesc afterBids.1,
        sortByPriceAsc outAsks.1, afterBids.2.1, baseL,
        outAsks.2.2 || afterBids.2.2⟩
      let summary ← getLPSummaryForMinSize batch minSize sizePrecision
        pricePrecision quoteAssetDecimals
      .ok ⟨batch, summary⟩
  | none, none => do
    let batch : BatchLPDetails := ⟨sortByPriceDesc bids, sortByPriceAsc asks,
      0, 0, false⟩
    let summary ← getLPSummaryForMinSize batch minSize sizePrecision
      pricePrecision quoteAssetDecimals
    .ok ⟨batch, summary⟩

/-- Bid-ask (triangular), quote-given branch, bid loop: bid `i` (0-indexed from
the farthest) receives `numBids - i` quote units; the flag tests the
post-normalization `bid.liquidity`. -/
def bidAskQuoteBids (quoteUnit pricePrecision sizePrecision numBids : ℤ)
    (quoteAssetDecimals : ℕ) (minSize : ℤ) :
    ℕ → List Position → Except JsErr (List Position × Bool)
  | _, [] => .ok ([], false)
  | i, bid :: rest => do
    let quoteForThisBid := quoteUnit * (numBids - (i : ℤ))
    let bidSize ← jsDiv (quoteForThisBid * pricePrecision * sizePrecision)
      (10 ^ quoteAssetDecimals * bid.price)
    let liq ← normalizeBidSize bid.price sizePrecision bidSize
    let tail ← bidAskQuoteBids quoteUnit pricePrecision sizePrecision numBids
      quoteAssetDecimals minSize (i + 1) rest
    .ok ({ bid with liquidity := liq } :: tail.1,
      decide (liq < minSize) || tail.2)

/-- Bid-ask, quote-given branch, ask loop: ask `i` (0-indexed from the closest)
receives `i + 1` quote units. -/
def bidAskQuoteAsks (quoteUnit pricePrecision sizePrecision : ℤ)
    (quoteAssetDecimals baseAssetDecimals : ℕ) (minSize : ℤ) :
    ℕ → List Position → Except JsErr (List Position × ℤ × Bool)
  | _, [] => .ok ([], 0, false)
  | i, ask :: rest => do
    let quoteForThisAsk := quoteUnit * ((i : ℤ) + 1)
    let liq ← jsDiv (quoteForThisAsk * pricePrecision * sizePrecision)
      (10 ^ quoteAssetDecimals * ask.price)
    let contrib ← jsDiv (quoteForThisAsk * 10 ^ baseAssetDecimals * pricePrecision)
      (10 ^ quoteAssetDecimals * ask.price)
    let tail ← bidAskQuoteAsks quoteUnit pricePrecision sizePrecision
      quoteAssetDecimals baseAssetDecimals minSize (i + 1) rest
    .ok ({ ask with liquidity := liq } :: tail.1, contrib + tail.2.1,
      decide (liq < minSize) || tail.2.2)

/-- Bid-ask, base-given branch:
`Σ (i + 1) * mulDivUp(closestAskPrice, pricePrecision, price_i)`. -/
def bidAskWeightedSum (closestAskPrice pricePrecision : ℤ) :
    ℕ → List Position → Except JsErr ℤ
  | _, [] => .ok 0
  | i, ask :: rest => do
    let t ← mulDivUp closestAskPrice pricePrecision ask.price
    let tail ← bidAskWeightedSum closestAskPrice pricePrecision (i + 1) rest
    .ok (((i : ℤ) + 1) * t + tail)

/-- Bid-ask, base-given branch, ask loop: multiplier `i + 1` from the closest
ask, accumulating the implied quote total. -/
def bidAskBaseAsks (baseInClosestAsk closestAskPrice sizePrecision
    pricePrecision : ℤ) (quoteAssetDecimals baseAssetDecimals : ℕ)
    (minSize : ℤ) : ℕ → List Position → Except JsErr (List Position × ℤ × Bool)
  | _, [] => .ok ([], 0, false)
  | i, ask :: rest => do
    let baseForThisAsk ← jsDiv
      (baseInClosestAsk * ((i : ℤ) + 1) * closestAskPrice) ask.price
    let liq ← jsDiv (baseForThisAsk * sizePrecision) (10 ^ baseAssetDecimals)
    let quoteForThisAsk ← jsDiv
      (baseForThisAsk * ask.price * 10 ^ quoteAssetDecimals)
      (10 ^ baseAssetDecimals * pricePrecision)
    let tail ← bidAskBaseAsks baseInClosestAsk closestAskPrice sizePrecision
      pricePrecision quoteAssetDecimals baseAssetDecimals minSize (i + 1) rest
    .ok ({ ask with liquidity := liq } :: tail.1, quoteForThisAsk + tail.2.1,
      decide (liq < minSize) || tail.2.2)

/-- `PositionViewer.getBidAskBatchLPDetails`. -/
def getBidAskBatchLPDetails (minFeesBps startPrice endPrice bestAskPrice
    pricePrecision sizePrecision : ℤ) (quoteAssetDecimals baseAssetDecimals : ℕ)
    (tickSize minSize : ℤ) (quoteLiquidity baseLiquidity : Option ℤ)
    (maxPricePoints : Option ℕ) : Except JsErr BatchLPResult := do
  priceRangeCheck minFeesBps startPrice endPrice maxPricePoints
  if quoteLiquidity = none ∧ baseLiquidity = none then
    throw .missingLiquidity
  let m ← jsMod startPrice tickSize
  let start := startPrice - m
  let maxPrice := codeBidBound bestAskPrice endPrice
  let fuel := gridFuel bestAskPrice endPrice
  let walk := bidLoop minFeesBps tickSize maxPrice fuel start
  let bids := walk.1
  let asks := askLoop minFeesBps tickSize endPrice fuel walk.2
  let numBids : ℤ := bids.length
  let numAsks : ℤ := asks.length
  match quoteLiquidity, baseLiquidity with
  | some quoteL, _ => do
    let quoteUnitForBids ← if 0 < numBids then
        jsDiv (2 * quoteL) (numBids * (numBids + 1)) else pure 0
    let quoteUnitForAsks ← if 0 < numAsks then
        jsDiv (2 * quoteL) (numAsks * (numAsks + 1)) else pure 0
    let outBids ← bidAskQuoteBids quoteUnitForBids pricePrecision sizePrecision
      numBids quoteAssetDecimals minSize 0 bids
    let outAsks ← bidAskQuoteAsks quoteUnitForAsks pricePrecision sizePrecision
      quoteAssetDecimals baseAssetDecimals minSize 0 asks
    let batch : BatchLPDetails := ⟨sortByPriceDesc outBids.1,
      sortByPriceAsc outAsks.1, quoteL, outAsks.2.1,
      outBids.2 || outAsks.2.2⟩
    let summary ← getLPSummaryForMinSize batch minSize sizePrecision
      pricePrecision quoteAssetDecimals
    .ok ⟨batch, summary⟩
  | none, some baseL => do
    if numAsks = 0 then throw .degenerateRange
    match asks with
    | [] => throw .typeError
    | closestAsk :: _ => do
      let wsum ← bidAskWeightedSum closestAsk.price pricePrecision 0 asks
      let baseInClosestAsk ← jsDiv (baseL * pricePrecision) wsum
      let outAsks ← bidAskBaseAsks baseInClosestAsk closestAsk.price
        sizePrecision pricePrecision quoteAssetDecimals baseAssetDecimals
        minSize 0 asks
      let totalQuote := outAsks.2.1
      let afterBids ←
        if 0 < numBids then do
          let quoteUnitForBids ← jsDiv (2 * totalQuote) (numBids * (numBids + 1))
          let outBids ← bidAskQuoteBids quoteUnitForBids pricePrecision
            sizePrecision numBids quoteAssetDecimals minSize 0 bids
          pure (outBids.1, totalQuote, outBids.2)
        else pure (bids, (0 : ℤ), false)
      let batch : BatchLPDetails := ⟨sortByPriceDesc afterBids.1,
        sortByPriceAsc outAsks.1, afterBids.2.1, baseL,
        outAsks.2.2 || afterBids.2.2⟩
      let summary ← getLPSummaryForMinSize batch minSize sizePrecision
        pricePrecision quoteAssetDecimals
      .ok ⟨batch, summary⟩
  | none, none => do
    let batch : BatchLPDetails := ⟨sortByPriceDesc bids, sortByPriceAsc asks,
      0, 0, false⟩
    let summary ← getLPSummaryForMinSize batch minSize sizePrecision
      pricePrecision quoteAssetDecimals
    .ok ⟨batch, summary⟩


/-! ### Arithmetic facts about the fixed-point helpers -/

/-- On nonnegative inputs with a positive denominator, `mulDivUp` succeeds and
computes the ceiling: the floor quotient, plus one exactly on non-exact
division. -/
theorem mulDivUp_ok_of_nonneg (x y d : ℤ) (hx : 0 ≤ x) (hy : 0 ≤ y)
    (hd : 0 < d) :
    mulDivUp x y d =
      .ok (if (x * y) % d = 0 then (x * y) / d else (x * y) / d + 1) := by
  have hd0 : d ≠ 0 := ne_of_gt hd
  have hz : (0 : ℤ) ≤ x * y := mul_nonneg hx hy
  have hover : ¬(y ≠ 0 ∧ (x * y).tdiv y ≠ x) := by
    rintro ⟨hy0, hcontra⟩
    exact hcontra (Int.mul_tdiv_cancel x hy0)
  rw [mulDivUp]
  simp only [hd0, if_false, hover, if_neg, ite_false]
  rw [Int.tmod_eq_emod hz hd.le, Int.tdiv_eq_ediv hz hd.le]
  split <;> rfl

/-- C7.  `mulDivUp(x, y, d)` succeeds on unsigned inputs with `d ≠ 0`, is at
least the floor of `(x*y)/d`, and equals it exactly when `d` divides `x*y`. -/
theorem claim_C7_mulDivUp_ceiling_ge_floor (x y d : ℤ) (hx : 0 ≤ x)
    (hy : 0 ≤ y) (hd : 0 < d) :
    ∃ v, mulDivUp x y d = .ok v ∧ (x * y) / d ≤ v ∧
      (v = (x * y) / d ↔ (x * y) % d = 0) := by
  rw [mulDivUp_ok_of_nonneg x y d hx hy hd]
  by_cases h : (x * y) % d = 0
  · exact ⟨(x * y) / d, by rw [if_pos h], le_refl _, by simp [h]⟩
  · refine ⟨(x * y) / d + 1, by rw [if_neg h],
      le_add_of_le_of_nonneg (le_refl _) (by decide), ?_⟩
    constructor
    · intro he
      have : (1 : ℤ) = 0 := by linarith
      exact absurd this (by decide)
    · intro he
      exact absurd he h

/-- Witness for C7 at `x = 3`, `y = 5`, `d = 2`. -/
theorem claim_C7_witness :
    (0 : ℤ) ≤ 3 ∧ (0 : ℤ) ≤ 5 ∧ (0 : ℤ) < 2 ∧
      ∃ v, mulDivUp 3 5 2 = .ok v ∧ (3 * 5 : ℤ) / 2 ≤ v ∧
        (v = (3 * 5 : ℤ) / 2 ↔ (3 * 5 : ℤ) % 2 = 0) :=
  ⟨by decide, by decide, by decide,
    claim_C7_mulDivUp_ceiling_ge_floor 3 5 2 (by decide) (by decide) (by decide)⟩

/-- The first `mulDivUp` inside `normalizeBidSize` and the direct re-check of
the normalized size compute, on nonnegative data, the ceiling of the quote
value; `mulDivUp(1, S, p)` is at least `S/p` scaled back: `p * ⌈S/p⌉ ≥ S`. -/
theorem ceil_mul_ge {a b : ℤ} (hb : 0 < b) :
    a ≤ b * (if a % b = 0 then a / b else a / b + 1) := by
  have h1 := Int.ediv_add_emod a b
  have h2 := Int.emod_lt_of_pos a hb
  by_cases h : a % b = 0
  · rw [if_pos h]
    linarith
  · rw [if_neg h]
    have h3 : b * (a / b + 1) = b * (a / b) + b := by ring
    linarith

theorem mulDivUp_one_mul_ge {S p : ℤ} (hS : 0 < S) (hp : 0 < p) :
    ∀ v, mulDivUp 1 S p = .ok v → S ≤ p * v := by
  intro v hv
  rw [mulDivUp_ok_of_nonneg 1 S p (by decide) hS.le hp, Except.ok.injEq] at hv
  have := ceil_mul_ge (a := 1 * S) hp
  rw [hv] at this
  linarith

@[simp]
theorem jsOk_bind {α β : Type _} (a : α) (f : α → Except JsErr β) :
    (Except.ok a >>= f) = f a := rfl

@[simp]
theorem jsError_bind {α β : Type _} (e : JsErr) (f : α → Except JsErr β) :
    ((Except.error e : Except JsErr α) >>= f) = Except.error e := rfl

@[simp]
theorem jsPure_eq_ok {α : Type _} (a : α) :
    (pure a : Except JsErr α) = Except.ok a := rfl

/-- C8, amended.  For positive `price` and `sizePrecision` and a nonnegative
raw size, whenever the normalized size is nonnegative its ceiling-rounded
quote-equivalent is bounded by the raw size's floor-rounded allocation. -/
theorem claim_C8_normalizeBidSize_bound (p S s s2 : ℤ) (hp : 0 < p)
    (hS : 0 < S) (hs : 0 ≤ s) (hnorm : normalizeBidSize p S s = .ok s2)
    (hs2 : 0 ≤ s2) :
    ∃ v, mulDivUp p s2 S = .ok v ∧ v ≤ (p * s) / S := by
  have hup := mulDivUp_ok_of_nonneg p s S hp.le hs hS
  rw [normalizeBidSize, hup] at hnorm
  have hfl : jsDiv (p * s) S = .ok ((p * s).tdiv S) := by
    rw [jsDiv, if_neg (ne_of_gt hS)]
  rw [hfl, Int.tdiv_eq_ediv (mul_nonneg hp.le hs) hS.le] at hnorm
  simp only [jsOk_bind] at hnorm
  by_cases hrem : (p * s) % S = 0
  · -- exact division: the re-rounding branch does not fire, `s2 = s`
    rw [if_pos hrem, if_neg (lt_irrefl ((p * s) / S)), jsPure_eq_ok,
      Except.ok.injEq] at hnorm
    subst hnorm
    refine ⟨(p * s) / S, ?_, le_refl _⟩
    rw [mulDivUp_ok_of_nonneg p s S hp.le hs2 hS, if_pos hrem]
  · -- non-exact division: the ceiling exceeded the floor and the size shrank
    have hfire : (p * s) / S < (p * s) / S + 1 := lt_add_one _
    rw [if_neg hrem, if_pos hfire, mulDivUp_ok_of_nonneg 1 S p (by decide)
      hS.le hp, jsOk_bind, jsPure_eq_ok, Except.ok.injEq] at hnorm
    have hSpA : S ≤ p * (if (1 * S) % p = 0 then 1 * S / p else 1 * S / p + 1) :=
      mulDivUp_one_mul_ge hS hp _
        (by rw [mulDivUp_ok_of_nonneg 1 S p (by decide) hS.le hp])
    set A := if (1 * S) % p = 0 then 1 * S / p else 1 * S / p + 1 with hA
    have hmul : p * (s - A) ≤ p * s - S := by
      have hexp : p * (s - A) = p * s - p * A := by ring
      linarith
    have hdivle : (p * (s - A)) / S ≤ (p * s) / S - 1 := by
      have h2 : (p * s - S) / S = (p * s) / S - 1 := by
        have h4 := Int.add_mul_ediv_right (p * s) (-1) (ne_of_gt hS)
        have he : p * s + -1 * S = p * s - S := by ring
        rw [he] at h4
        linarith
      have h3 := Int.ediv_le_ediv hS hmul
      linarith
    subst hnorm
    refine ⟨if (p * (s - A)) % S = 0 then (p * (s - A)) / S
        else (p * (s - A)) / S + 1,
      mulDivUp_ok_of_nonneg p (s - A) S hp.le hs2 hS, ?_⟩
    split
    · linarith
    · linarith

/-- Witness for the amended C8 at `p = 3`, `S = 10`, `s = 7`: the branch fires,
the size drops from `7` to `3`, and `⌈3·3/10⌉ = 1 ≤ ⌊3·7/10⌋ = 2`. -/
theorem claim_C8_witness :
    normalizeBidSize 3 10 7 = .ok 3 ∧
      ∃ v, mulDivUp 3 3 10 = .ok v ∧ v ≤ (3 * 7 : ℤ) / 10 :=
  ⟨by decide, claim_C8_normalizeBidSize_bound 3 10 7 3 (by decide) (by decide)
    (by decide) (by decide) (by decide)⟩

/-- Counterexample to C8 as stated: at `price = 3`, `sizePrecision = 10`,
`rawSize = 1` the normalized size is the negative bigint `-3`, whose
ceiling-rounded quote-equivalent `1` exceeds the floor-rounded allocation
`⌊3·1/10⌋ = 0`. -/
theorem claim_C8_counterexample :
    normalizeBidSize 3 10 1 = .ok (-3) ∧ mulDivUp 3 (-3) 10 = .ok 1 ∧
      ¬((1 : ℤ) ≤ (3 * 1) / 10) := by decide

/-! ### The minimum-size normalization (LPSummary) -/

theorem smallestLiquidity_none_iff (l : List Position) :
    smallestLiquidity l = none ↔ l = [] := by
  cases l with
  | nil => simp [smallestLiquidity]
  | cons p rest =>
    rw [smallestLiquidity]
    cases h : smallestLiquidity rest <;> simp

/-- The running minimum really is the minimum: it is attained and bounds every
liquidity on the side. -/
theorem smallestLiquidity_spec (l : List Position) (m : ℤ)
    (h : smallestLiquidity l = some m) :
    (∃ p ∈ l, p.liquidity = m) ∧ ∀ p ∈ l, m ≤ p.liquidity := by
  induction l generalizing m with
  | nil => exact absurd h (by simp [smallestLiquidity])
  | cons q rest ih =>
    rw [smallestLiquidity] at h
    cases hr : smallestLiquidity rest with
    | none =>
      rw [hr] at h
      have hre : rest = [] := (smallestLiquidity_none_iff rest).mp hr
      subst hre
      rw [Option.some.injEq] at h
      subst h
      exact ⟨⟨q, by simp, rfl⟩, by simp⟩
    | some s =>
      rw [hr] at h
      rw [Option.some.injEq] at h
      obtain ⟨⟨pw, hpwmem, hpw⟩, hall⟩ := ih s hr
      by_cases hc : q.liquidity < s
      · rw [if_pos hc] at h
        subst h
        refine ⟨⟨q, by simp, rfl⟩, ?_⟩
        intro p hp
        rcases List.mem_cons.mp hp with hp | hp
        · rw [hp]
        · exact le_trans hc.le (hall p hp)
      · rw [if_neg hc] at h
        subst h
        refine ⟨⟨pw, List.mem_cons_of_mem q hpwmem, hpw⟩, ?_⟩
        intro p hp
        rcases List.mem_cons.mp hp with hp | hp
        · rw [hp]
          exact le_of_not_lt hc
        · exact hall p hp

/-- With a nonzero side minimum, ask scaling succeeds and multiplies every
liquidity by `minSize / smallest` (floor). -/
theorem scaleAsks_ok (minSize m : ℤ) (hm : m ≠ 0) (l : List Position) :
    scaleAsks minSize (some m) l =
      .ok (l.map fun p => { p with liquidity := (p.liquidity * minSize).tdiv m }) := by
  induction l with
  | nil => rfl
  | cons q rest ih =>
    rw [scaleAsks, if_neg hm]
    rw [jsDiv, if_neg hm]
    simp only [jsOk_bind, jsPure_eq_ok, ih, List.map_cons]

/-- With a nonzero side minimum and nonzero `pricePrecision * sizePrecision`,
bid scaling succeeds and multiplies every liquidity by the price-adjusted
ratio `minSizeAtPrice / smallest` (floor), a different factor per bid. -/
theorem scaleBids_ok (minSize S P m : ℤ) (qd : ℕ) (hm : m ≠ 0)
    (hPS : P * S ≠ 0) (l : List Position) :
    scaleBids minSize S P qd (some m) l =
      .ok (l.map fun p => { p with liquidity :=
        (p.liquidity * ((minSize * p.price * 10 ^ qd).tdiv (P * S))).tdiv m }) := by
  induction l with
  | nil => rfl
  | cons q rest ih =>
    rw [scaleBids, if_neg hm]
    rw [jsDiv, if_neg hPS, jsOk_bind, jsDiv, if_neg hm]
    simp only [jsOk_bind, jsPure_eq_ok, ih, List.map_cons]

/-- C3, amended.  On a `BatchLPDetails` whose two sides are non-empty with
positive liquidities, normalization succeeds; every ask is rescaled by the one
ratio `minSize / minAsk` and the resulting ask-side minimum equals `minSize`
exactly; every bid, however, is rescaled by its own price-dependent factor
`minSizeAtPrice(price) / minBid`, so the bid side does not attain `minSize`. -/
theorem claim_C3_lpSummary_normalization (batch : BatchLPDetails)
    (minSize S P : ℤ) (qd : ℕ) (hbne : batch.bids ≠ []) (hane : batch.asks ≠ [])
    (hbpos : ∀ p ∈ batch.bids, 0 < p.liquidity)
    (hapos : ∀ p ∈ batch.asks, 0 < p.liquidity)
    (hms : 0 ≤ minSize) (hPS : P * S ≠ 0) :
    ∃ mb ma out, smallestLiquidity batch.bids = some mb ∧
      smallestLiquidity batch.asks = some ma ∧
      getLPSummaryForMinSize batch minSize S P qd = .ok out ∧
      out.asks = (batch.asks.map fun p =>
        { p with liquidity := (p.liquidity * minSize).tdiv ma }) ∧
      out.bids = (batch.bids.map fun p => { p with liquidity :=
        (p.liquidity * ((minSize * p.price * 10 ^ qd).tdiv (P * S))).tdiv mb }) ∧
      (∃ p ∈ out.asks, p.liquidity = minSize) ∧
      (∀ p ∈ out.asks, minSize ≤ p.liquidity) := by
  obtain ⟨mb, hmb⟩ : ∃ mb, smallestLiquidity batch.bids = some mb := by
    cases h : smallestLiquidity batch.bids with
    | none => exact absurd ((smallestLiquidity_none_iff _).mp h) hbne
    | some v => exact ⟨v, rfl⟩
  obtain ⟨ma, hma⟩ : ∃ ma, smallestLiquidity batch.asks = some ma := by
    cases h : smallestLiquidity batch.asks with
    | none => exact absurd ((smallestLiquidity_none_iff _).mp h) hane
    | some v => exact ⟨v, rfl⟩
  obtain ⟨⟨pb, hpbmem, hpb⟩, hballms⟩ := smallestLiquidity_spec _ _ hmb
  obtain ⟨⟨pa, hpamem, hpa⟩, haallms⟩ := smallestLiquidity_spec _ _ hma
  have hmbpos : 0 < mb := hpb ▸ hbpos pb hpbmem
  have hmapos : 0 < ma := hpa ▸ hapos pa hpamem
  have hres : getLPSummaryForMinSize batch minSize S P qd = .ok
      ⟨batch.bids.map (fun p => { p with liquidity :=
          (p.liquidity * ((minSize * p.price * 10 ^ qd).tdiv (P * S))).tdiv mb }),
        batch.asks.map (fun p =>
          { p with liquidity := (p.liquidity * minSize).tdiv ma }),
        (batch.bids.map (fun p => { p with liquidity :=
          (p.liquidity * ((minSize * p.price * 10 ^ qd).tdiv (P * S))).tdiv mb })).foldl
          (fun sum bid => sum + bid.liquidity) 0,
        (batch.asks.map (fun p =>
          { p with liquidity := (p.liquidity * minSize).tdiv ma })).foldl
          (fun sum ask => sum + ask.liquidity) 0⟩ := by
    rw [getLPSummaryForMinSize, hmb, hma,
      scaleBids_ok minSize S P mb qd (ne_of_gt hmbpos) hPS,
      scaleAsks_ok minSize ma (ne_of_gt hmapos)]
    rfl
  refine ⟨mb, ma, _, hmb, hma, hres, rfl, rfl, ?_, ?_⟩
  · refine ⟨⟨pa.price, pa.flipPrice, (pa.liquidity * minSize).tdiv ma⟩, ?_, ?_⟩
    · exact List.mem_map.mpr ⟨pa, hpamem, rfl⟩
    · show (pa.liquidity * minSize).tdiv ma = minSize
      rw [hpa, Int.mul_tdiv_cancel_left minSize (ne_of_gt hmapos)]
  · intro p hp
    obtain ⟨q, hqmem, hq⟩ := List.mem_map.mp hp
    have hql : 0 < q.liquidity := hapos q hqmem
    have hge : ma ≤ q.liquidity := haallms q hqmem
    subst hq
    show minSize ≤ (q.liquidity * minSize).tdiv ma
    rw [Int.tdiv_eq_ediv (mul_nonneg hql.le hms) hmapos.le]
    have hstep : (ma * minSize) / ma ≤ (q.liquidity * minSize) / ma :=
      Int.ediv_le_ediv hmapos (mul_le_mul_of_nonneg_right hge hms)
    rw [Int.mul_ediv_cancel_left minSize (ne_of_gt hmapos)] at hstep
    exact hstep

/-- Witness for the amended C3 on a two-sided book. -/
theorem claim_C3_witness :
    ∃ mb ma out,
      smallestLiquidity [Position.mk 2 0 5] = some mb ∧
      smallestLiquidity [Position.mk 10 0 7] = some ma ∧
      getLPSummaryForMinSize ⟨[⟨2, 0, 5⟩], [⟨10, 0, 7⟩], 0, 0, false⟩ 3 1 1 0
        = .ok out ∧
      out.asks = ([Position.mk 10 0 7].map fun p =>
        { p with liquidity := (p.liquidity * 3).tdiv ma }) ∧
      out.bids = ([Position.mk 2 0 5].map fun p => { p with liquidity :=
        (p.liquidity * ((3 * p.price * 10 ^ 0).tdiv (1 * 1))).tdiv mb }) ∧
      (∃ p ∈ out.asks, p.liquidity = 3) ∧
      (∀ p ∈ out.asks, (3 : ℤ) ≤ p.liquidity) :=
  claim_C3_lpSummary_normalization ⟨[⟨2, 0, 5⟩], [⟨10, 0, 7⟩], 0, 0, false⟩
    3 1 1 0 (by decide) (by decide) (by decide) (by decide) (by decide)
    (by decide)

/-- Counterexample to C3 as stated: on a book whose single bid has liquidity 5
at price 2 (`minSize = 3`, unit precisions), normalization rescales the bid to
liquidity 6, not `minSize = 3` — the bid-side minimum does not equal
`minSize`. -/
theorem claim_C3_counterexample :
    getLPSummaryForMinSize ⟨[⟨2, 0, 5⟩], [⟨10, 0, 7⟩], 0, 0, false⟩ 3 1 1 0 =
      .ok ⟨[⟨2, 0, 6⟩], [⟨10, 0, 3⟩], 6, 3⟩ ∧
    ¬ ∃ p ∈ [Position.mk 2 0 6], p.liquidity = (3 : ℤ) := by decide

/-! ### The price walk -/

theorem FEE_DENOMINATOR_pos : (0 : ℤ) < FEE_DENOMINATOR := by decide

/-- On a tick-aligned nonnegative price with a positive tick and nonnegative
fee, one walk step lands on a tick multiple at least one tick higher. -/
theorem gridNext_step (fee tick cur : ℤ) (hfee : 0 ≤ fee) (htick : 0 < tick)
    (hcur : 0 ≤ cur) (halign : tick ∣ cur) :
    cur + tick ≤ gridNext fee tick cur ∧ tick ∣ gridNext fee tick cur := by
  have hDf : (0 : ℤ) < FEE_DENOMINATOR + fee := by
    have := FEE_DENOMINATOR_pos
    linarith
  have hnum : (0 : ℤ) ≤ cur * (FEE_DENOMINATOR + fee) :=
    mul_nonneg hcur hDf.le
  rw [gridNext]
  set n := (cur * (FEE_DENOMINATOR + fee)).tdiv FEE_DENOMINATOR with hn
  have hne : n = cur * (FEE_DENOMINATOR + fee) / FEE_DENOMINATOR :=
    Int.tdiv_eq_ediv hnum FEE_DENOMINATOR_pos.le
  have hcurn : cur ≤ n := by
    rw [hne]
    have h1 : cur * FEE_DENOMINATOR ≤ cur * (FEE_DENOMINATOR + fee) :=
      mul_le_mul_of_nonneg_left (by linarith) hcur
    have h2 := Int.ediv_le_ediv FEE_DENOMINATOR_pos h1
    rw [Int.mul_ediv_cancel cur (ne_of_gt FEE_DENOMINATOR_pos)] at h2
    exact h2
  have hnn : 0 ≤ n := le_trans hcur hcurn
  have htm : n.tmod tick = n % tick := Int.tmod_eq_emod hnn htick.le
  rw [tickAlign, htm]
  set n2 := n - n % tick with hn2
  have hd2 : tick ∣ n2 := by
    have := Int.ediv_add_emod n tick
    exact ⟨n / tick, by omega⟩
  have hcn2 : cur ≤ n2 := by
    obtain ⟨k, hk⟩ := halign
    have hkn : k ≤ n / tick := by
      rw [Int.le_ediv_iff_mul_le htick]
      rw [hk] at hcurn
      linarith [hcurn]
    have : tick * k ≤ tick * (n / tick) :=
      mul_le_mul_of_nonneg_left hkn htick.le
    have he : tick * (n / tick) = n - n % tick := by
      have := Int.ediv_add_emod n tick
      omega
    omega
  by_cases hc : n2 = cur
  · rw [if_pos hc]
    exact ⟨le_refl _, Dvd.dvd.add halign dvd_rfl⟩
  · rw [if_neg hc]
    have hsub : tick ∣ n2 - cur := Dvd.dvd.sub hd2 halign
    have hpos : 0 < n2 - cur := by
      rcases lt_or_eq_of_le hcn2 with h | h
      · omega
      · exact absurd h.symm hc
    have := Int.le_of_dvd hpos hsub
    exact ⟨by omega, hd2⟩

/-- Invariants of the bid loop: every emitted price is a tick multiple in
`[cur, maxPrice)`, prices strictly increase, the final walk price is a tick
multiple at least `cur`, and every emitted price is at least a tick below the
final walk price. -/
theorem bidLoop_facts (fee tick maxP : ℤ) (hfee : 0 ≤ fee) (htick : 0 < tick) :
    ∀ fuel cur, 0 ≤ cur → tick ∣ cur →
      (∀ p ∈ (bidLoop fee tick maxP fuel cur).1,
        tick ∣ p.price ∧ cur ≤ p.price ∧ p.price < maxP ∧
          p.price + tick ≤ (bidLoop fee tick maxP fuel cur).2) ∧
      ((bidLoop fee tick maxP fuel cur).1.map Position.price).Pairwise (· < ·) ∧
      cur ≤ (bidLoop fee tick maxP fuel cur).2 ∧
      tick ∣ (bidLoop fee tick maxP fuel cur).2 ∧
      0 ≤ (bidLoop fee tick maxP fuel cur).2 := by
  intro fuel
  induction fuel with
  | zero =>
    intro cur hcur halign
    exact ⟨by simp [bidLoop], by simp [bidLoop], le_refl _, halign, hcur⟩
  | succ fuel ih =>
    intro cur hcur halign
    rw [bidLoop]
    by_cases hlt : cur < maxP
    · rw [if_pos hlt]
      obtain ⟨hstep, hdvd⟩ := gridNext_step fee tick cur hfee htick hcur halign
      have hnn : 0 ≤ gridNext fee tick cur := by linarith
      obtain ⟨ihmem, ihpw, ihfin, ihfind, ihfinn⟩ := ih (gridNext fee tick cur) hnn hdvd
      refine ⟨?_, ?_, by simpa using le_trans (by linarith) ihfin,
        by simpa using ihfind, by simpa using ihfinn⟩
      · intro p hp
        rcases List.mem_cons.mp hp with hp | hp
        · subst hp
          exact ⟨halign, le_refl _, hlt, by simpa using le_trans hstep ihfin⟩
        · obtain ⟨h1, h2, h3, h4⟩ := ihmem p hp
          exact ⟨h1, le_trans (by linarith) h2, h3, by simpa using h4⟩
      · rw [List.map_cons, List.pairwise_cons]
        refine ⟨?_, ihpw⟩
        intro q hq
        obtain ⟨p, hpmem, hpq⟩ := List.mem_map.mp hq
        obtain ⟨_, h2, _, _⟩ := ihmem p hpmem
        subst hpq
        linarith
    · rw [if_neg hlt]
      exact ⟨by simp, by simp, le_refl _, halign, hcur⟩

/-- Invariants of the ask loop: every emitted price is a tick multiple in
`[cur, endPrice)` and prices strictly increase. -/
theorem askLoop_facts (fee tick endP : ℤ) (hfee : 0 ≤ fee) (htick : 0 < tick) :
    ∀ fuel cur, 0 ≤ cur → tick ∣ cur →
      (∀ p ∈ askLoop fee tick endP fuel cur,
        tick ∣ p.price ∧ cur ≤ p.price ∧ p.price < endP) ∧
      ((askLoop fee tick endP fuel cur).map Position.price).Pairwise (· < ·) := by
  intro fuel
  induction fuel with
  | zero =>
    intro cur hcur halign
    exact ⟨by simp [askLoop], by simp [askLoop]⟩
  | succ fuel ih =>
    intro cur hcur halign
    rw [askLoop]
    by_cases hlt : cur < endP
    · rw [if_pos hlt]
      obtain ⟨hstep, hdvd⟩ := gridNext_step fee tick cur hfee htick hcur halign
      have hnn : 0 ≤ gridNext fee tick cur := by linarith
      obtain ⟨ihmem, ihpw⟩ := ih (gridNext fee tick cur) hnn hdvd
      refine ⟨?_, ?_⟩
      · intro p hp
        rcases List.mem_cons.mp hp with hp | hp
        · subst hp
          exact ⟨halign, le_refl _, hlt⟩
        · obtain ⟨h1, h2, h3⟩ := ihmem p hp
          exact ⟨h1, le_trans (by linarith) h2, h3⟩
      · rw [List.map_cons, List.pairwise_cons]
        refine ⟨?_, ihpw⟩
        intro q hq
        obtain ⟨p, hpmem, hpq⟩ := List.mem_map.mp hq
        obtain ⟨_, h2, _⟩ := ihmem p hpmem
        subst hpq
        linarith
    · rw [if_neg hlt]
      exact ⟨by simp, by simp⟩

/-- With enough fuel the bid loop runs to completion: the final walk price
reaches `maxPrice`. -/
theorem bidLoop_complete (fee tick maxP : ℤ) (hfee : 0 ≤ fee)
    (htick : 0 < tick) :
    ∀ fuel cur, 0 ≤ cur → tick ∣ cur → (maxP - cur).toNat < fuel →
      maxP ≤ (bidLoop fee tick maxP fuel cur).2 := by
  intro fuel
  induction fuel with
  | zero =>
    intro cur _ _ hf
    exact absurd hf (by omega)
  | succ fuel ih =>
    intro cur hcur halign hf
    rw [bidLoop]
    by_cases hlt : cur < maxP
    · rw [if_pos hlt]
      obtain ⟨hstep, hdvd⟩ := gridNext_step fee tick cur hfee htick hcur halign
      have hnn : 0 ≤ gridNext fee tick cur := by linarith
      have hfuel : (maxP - gridNext fee tick cur).toNat < fuel := by omega
      simpa using ih (gridNext fee tick cur) hnn hdvd hfuel
    · rw [if_neg hlt]
      simpa using le_of_not_lt hlt

/-! ### Facts about the double conversion -/

/-- Naturals below `2^53` convert to doubles exactly. -/
theorem natToDouble_of_lt {n : ℕ} (h : n < 2 ^ 53) : natToDouble n = n := by
  rw [natToDouble, if_pos h]

theorem ulpExp_pow_le : ∀ (fuel n : ℕ), 1 ≤ n → 2 ^ ulpExp fuel n ≤ n := by
  intro fuel
  induction fuel with
  | zero =>
    intro n hn
    simpa [ulpExp] using hn
  | succ fuel ih =>
    intro n hn
    rw [ulpExp]
    by_cases h : n < 2 ^ 53
    · rw [if_pos h]
      simpa using hn
    · rw [if_neg h]
      have hhalf : 1 ≤ n / 2 := by omega
      have := ih (n / 2) hhalf
      have h2 : 2 ^ (ulpExp fuel (n / 2) + 1) = 2 * 2 ^ ulpExp fuel (n / 2) := by
        rw [pow_succ]
        ring
      calc 2 ^ (ulpExp fuel (n / 2) + 1) = 2 * 2 ^ ulpExp fuel (n / 2) := h2
        _ ≤ 2 * (n / 2) := by omega
        _ ≤ n := by omega

/-- Rounding to a unit `p ≤ n` changes `n` by less than `p`, so at most
doubles it. -/
theorem natRound_le (n p : ℕ) (hp : p ≤ n) : natRound n p ≤ 2 * n := by
  rw [natRound]
  have hqp : n / p * p ≤ n := Nat.div_mul_le_self n p
  have hsucc : (n / p + 1) * p = n / p * p + p := Nat.succ_mul _ _
  split
  · omega
  · split
    · omega
    · split <;> omega

/-- Rounding to the nearest double at most doubles a natural number. -/
theorem natToDouble_le (n : ℕ) : natToDouble n ≤ 2 * n := by
  rw [natToDouble]
  by_cases h : n < 2 ^ 53
  · rw [if_pos h]
    omega
  · rw [if_neg h]
    exact natRound_le n _ (ulpExp_pow_le n n (by omega))

/-- Nonnegative bigints below `2^53` pass through `Number()` unchanged. -/
theorem intToDouble_eq_of_lt {z : ℤ} (h0 : 0 ≤ z) (h : z < 2 ^ 53) :
    intToDouble z = z := by
  rw [intToDouble, if_neg (not_lt.mpr h0), natToDouble_of_lt, Int.natAbs_of_nonneg h0]
  have := Int.natAbs_lt_iff_sq_lt (a := z) (b := 2 ^ 53)
  omega

theorem intToDouble_le_two_natAbs (z : ℤ) :
    intToDouble z ≤ 2 * (z.natAbs : ℤ) := by
  rw [intToDouble]
  by_cases h : z < 0
  · rw [if_pos h]
    have : (0 : ℤ) ≤ natToDouble z.natAbs := Int.ofNat_nonneg _
    omega
  · rw [if_neg h]
    have := natToDouble_le z.natAbs
    omega

/-- A strictly increasing integer list inside `[lo, hi)` has at most
`hi - lo` entries. -/
theorem pairwise_lt_length_le (l : List ℤ) :
    ∀ lo hi : ℤ, l.Pairwise (· < ·) → (∀ x ∈ l, lo ≤ x ∧ x < hi) →
      l.length ≤ (hi - lo).toNat := by
  induction l with
  | nil => intro lo hi _ _; simp
  | cons x rest ih =>
    intro lo hi hpw hmem
    rw [List.pairwise_cons] at hpw
    obtain ⟨hx, hrest⟩ := hpw
    have hxr : ∀ y ∈ rest, x + 1 ≤ y ∧ y < hi := by
      intro y hy
      exact ⟨by have := hx y hy; omega, (hmem y (List.mem_cons_of_mem x hy)).2⟩
    have hlen := ih (x + 1) hi hrest hxr
    have hxb := hmem x (List.mem_cons_self x rest)
    simp only [List.length_cons]
    omega

/-! ### Unfolding the spot entry point on its quote-only branch -/

/-- The bid-side walk of the three entry points (the two loops share their
starting point and step function). -/
def spotWalk (minFeesBps startPrice endPrice bestAskPrice tickSize : ℤ) :
    List Position × ℤ :=
  bidLoop minFeesBps tickSize (codeBidBound bestAskPrice endPrice)
    (gridFuel bestAskPrice endPrice) (startPrice - startPrice.tmod tickSize)

/-- The ask-side grid of the three entry points. -/
def spotAskGrid (minFeesBps startPrice endPrice bestAskPrice tickSize : ℤ) :
    List Position :=
  askLoop minFeesBps tickSize endPrice (gridFuel bestAskPrice endPrice)
    (spotWalk minFeesBps startPrice endPrice bestAskPrice tickSize).2

/-- With a nonzero tick and a passing range check, the spot entry point on the
quote-only branch is the allocation pipeline over the generated grid. -/
theorem getSpot_quote_unfold (minFeesBps startPrice endPrice bestAskPrice
    pricePrecision sizePrecision : ℤ) (qd bd : ℕ) (tickSize minSize Q : ℤ)
    (mpp : Option ℕ) (htick : tickSize ≠ 0)
    (hpre : priceRangeCheck minFeesBps startPrice endPrice mpp = .ok ()) :
    getSpotBatchLPDetails minFeesBps startPrice endPrice bestAskPrice
      pricePrecision sizePrecision qd bd tickSize minSize (some Q) none mpp =
    (do
      let walk := spotWalk minFeesBps startPrice endPrice bestAskPrice tickSize
      let asks := spotAskGrid minFeesBps startPrice endPrice bestAskPrice tickSize
      let quotePerTick ← jsDiv Q (walk.1.length : ℤ)
      let outBids ← spotQuoteBids quotePerTick sizePrecision pricePrecision qd
        minSize walk.1
      let outAsks ← spotQuoteAsks quotePerTick sizePrecision pricePrecision qd
        bd minSize asks
      let batch : BatchLPDetails := ⟨sortByPriceDesc outBids.1,
        sortByPriceDesc outAsks.1, Q, outAsks.2.1, outBids.2 || outAsks.2.2⟩
      let summary ← getLPSummaryForMinSize batch minSize sizePrecision
        pricePrecision qd
      .ok ⟨batch, summary⟩) := by
  rw [getSpotBatchLPDetails, hpre]
  simp only [jsOk_bind, jsPure_eq_ok]
  rw [if_neg (by simp), jsMod, if_neg htick]
  simp only [jsOk_bind, jsPure_eq_ok]
  rfl

/-- Below `2^53` the double-rounded bid bound is the exact integer minimum. -/
theorem codeBidBound_eq_min {a b : ℤ} (ha0 : 0 ≤ a) (ha : a < 2 ^ 53)
    (hb0 : 0 ≤ b) (hb : b < 2 ^ 53) : codeBidBound a b = min a b := by
  rw [codeBidBound, intToDouble_eq_of_lt ha0 ha, intToDouble_eq_of_lt hb0 hb]

/-- A walk already at or past the bound emits nothing. -/
theorem bidLoop_empty (fee tick maxP : ℤ) (fuel : ℕ) (cur : ℤ)
    (h : ¬ cur < maxP) : bidLoop fee tick maxP fuel cur = ([], cur) := by
  cases fuel with
  | zero => rfl
  | succ fuel => rw [bidLoop, if_neg h]

/-- C10.  On the quote-only branch, when the tick-aligned start price already
sits at or above the minimum of `bestAskPrice` and `endPrice` (prices exactly
representable as doubles), the generated bid side is empty and the call fails
with the bigint division-by-zero error from `quoteLiquidity / numBids`,
returning no `BatchLPDetails`. -/
theorem claim_C10_emptyBids_divisionByZero (minFeesBps startPrice endPrice
    bestAskPrice pricePrecision sizePrecision : ℤ) (qd bd : ℕ)
    (tickSize minSize Q : ℤ) (mpp : Option ℕ) (htick : 0 < tickSize)
    (hba0 : 0 ≤ bestAskPrice) (hba : bestAskPrice < 2 ^ 53)
    (hend0 : 0 ≤ endPrice) (hend : endPrice < 2 ^ 53)
    (hpre : priceRangeCheck minFeesBps startPrice endPrice mpp = .ok ())
    (hge : min bestAskPrice endPrice ≤ startPrice - startPrice.tmod tickSize) :
    getSpotBatchLPDetails minFeesBps startPrice endPrice bestAskPrice
      pricePrecision sizePrecision qd bd tickSize minSize (some Q) none mpp =
      .error .divisionByZero := by
  rw [getSpot_quote_unfold minFeesBps startPrice endPrice bestAskPrice
    pricePrecision sizePrecision qd bd tickSize minSize Q mpp
    (ne_of_gt htick) hpre]
  have hwalk : spotWalk minFeesBps startPrice endPrice bestAskPrice tickSize =
      ([], startPrice - startPrice.tmod tickSize) := by
    rw [spotWalk, bidLoop_empty]
    rw [codeBidBound_eq_min hba0 hba hend0 hend]
    exact not_lt.mpr hge
  rw [hwalk]
  have hdiv : jsDiv Q (([] : List Position).length : ℤ) =
      .error .divisionByZero := by
    rw [jsDiv, if_pos]
    rfl
  simp only [hdiv, jsError_bind]

/-- Witness for C10: `startPrice = 5` above `bestAskPrice = 4`. -/
theorem claim_C10_witness :
    getSpotBatchLPDetails 0 5 10 4 1 1 0 0 1 0 (some 100) none none =
      .error .divisionByZero :=
  claim_C10_emptyBids_divisionByZero 0 5 10 4 1 1 0 0 1 0 100 none
    (by decide) (by decide) (by decide) (by decide) (by decide) rfl (by decide)

/-- C9.  The floating-point bid bound changes the generated ladder.  At
`bestAskPrice = 2^53 + 1` (not representable as a double; `Number()` rounds it
down to `2^53`), `endPrice = 2^53 + 2`, `tickSize = 1`, `minFeesBps = 0`,
`startPrice = 2^53`: the exact-minimum reference walk places a bid at `2^53`
and one ask at `2^53 + 1`, while the source's double-rounded bound produces no
bids at all and classifies both `2^53` and `2^53 + 1` as asks. -/
theorem claim_C9_float_bound_changes_ladder :
    codeBidBound (2 ^ 53 + 1) (2 ^ 53 + 2) = 2 ^ 53 ∧
    referenceBidBound (2 ^ 53 + 1) (2 ^ 53 + 2) = 2 ^ 53 + 1 ∧
    (bidLoop 0 1 (referenceBidBound (2 ^ 53 + 1) (2 ^ 53 + 2))
      (gridFuel (2 ^ 53 + 1) (2 ^ 53 + 2)) (2 ^ 53)).1.map Position.price =
      [2 ^ 53] ∧
    (getSpotBatchLPDetails 0 (2 ^ 53) (2 ^ 53 + 2) (2 ^ 53 + 1) 1 1 0 0 1 0
      none (some (4 * 2 ^ 53)) none).map
      (fun r => (r.batchLPDetails.bids.map Position.price,
        r.batchLPDetails.asks.map Position.price)) =
      .ok ([], [2 ^ 53 + 1, 2 ^ 53]) := by decide

/-! ### What the spot quote-only allocation computes -/

theorem jsDiv_ok {a b v : ℤ} (h : jsDiv a b = .ok v) :
    b ≠ 0 ∧ v = a.tdiv b := by
  rw [jsDiv] at h
  by_cases hb : b = 0
  · rw [if_pos hb] at h
    exact absurd h (by simp)
  · rw [if_neg hb, Except.ok.injEq] at h
    exact ⟨hb, h.symm⟩

/-- The raw (pre-normalization) size the quote-only branch allots a bid, and
the liquidity it allots an ask, at a given price. -/
def spotRawSize (quotePerTick sizePrecision pricePrecision price : ℤ)
    (qd : ℕ) : ℤ :=
  (quotePerTick * sizePrecision * pricePrecision).tdiv (price * 10 ^ qd)

/-- What a successful quote-only bid allocation produces: the prices are those
of the grid, the flag records whether some raw size is under `minSize`, and
each output liquidity is the normalized raw size at its price. -/
theorem spotQuoteBids_ok_spec (qpt S P : ℤ) (qd : ℕ) (minSize : ℤ) :
    ∀ l out flag, spotQuoteBids qpt S P qd minSize l = .ok (out, flag) →
      out.map Position.price = l.map Position.price ∧
      (flag = true ↔ ∃ p ∈ l, spotRawSize qpt S P p.price qd < minSize) ∧
      ∀ q ∈ out, ∃ p ∈ l, q.price = p.price ∧ q.flipPrice = p.flipPrice ∧
        normalizeBidSize p.price S (spotRawSize qpt S P p.price qd) =
          .ok q.liquidity := by
  intro l
  induction l with
  | nil =>
    intro out flag h
    rw [spotQuoteBids, Except.ok.injEq] at h
    obtain ⟨h1, h2⟩ := Prod.ext_iff.mp h.symm
    simp only at h1 h2
    subst h1
    subst h2
    exact ⟨rfl, by simp, by simp⟩
  | cons bid rest ih =>
    intro out flag h
    rw [spotQuoteBids] at h
    cases hbs : jsDiv (qpt * S * P) (bid.price * 10 ^ qd) with
    | error e => rw [hbs] at h; exact absurd h (by simp)
    | ok bs =>
      rw [hbs] at h
      simp only [jsOk_bind] at h
      cases hn : normalizeBidSize bid.price S bs with
      | error e => rw [hn] at h; exact absurd h (by simp)
      | ok liq =>
        rw [hn] at h
        simp only [jsOk_bind] at h
        cases hrec : spotQuoteBids qpt S P qd minSize rest with
        | error e => rw [hrec] at h; exact absurd h (by simp)
        | ok tl =>
          rw [hrec] at h
          simp only [jsOk_bind, Except.ok.injEq] at h
          obtain ⟨h1, h2⟩ := Prod.ext_iff.mp h.symm
          simp only at h1 h2
          subst h1
          subst h2
          obtain ⟨hbne, hbsv⟩ := jsDiv_ok hbs
          have hraw : bs = spotRawSize qpt S P bid.price qd := hbsv
          obtain ⟨ihp, ihf, ihm⟩ := ih tl.1 tl.2 (by rw [hrec])
          refine ⟨by simp [ihp], ?_, ?_⟩
          · rw [Bool.or_eq_true, decide_eq_true_eq, ihf]
            constructor
            · rintro (hc | ⟨p, hpmem, hplt⟩)
              · exact ⟨bid, List.mem_cons_self bid rest,
                  by rw [← hraw]; exact hc⟩
              · exact ⟨p, List.mem_cons_of_mem bid hpmem, hplt⟩
            · rintro ⟨p, hpmem, hplt⟩
              rcases List.mem_cons.mp hpmem with hp | hp
              · subst hp
                exact Or.inl (by rw [hraw]; exact hplt)
              · exact Or.inr ⟨p, hp, hplt⟩
          · intro q hq
            rcases List.mem_cons.mp hq with hq | hq
            · subst hq
              exact ⟨bid, List.mem_cons_self bid rest, rfl, rfl, hraw ▸ hn⟩
            · obtain ⟨p, hpmem, hqs⟩ := ihm q hq
              exact ⟨p, List.mem_cons_of_mem bid hpmem, hqs⟩

/-- What a successful quote-only ask allocation produces: prices as in the
grid, the flag records an under-`minSize` allotted liquidity, each output
liquidity is the raw size at its price, and the accumulated base liquidity is
the sum of the per-ask conversions. -/
theorem spotQuoteAsks_ok_spec (qpt S P : ℤ) (qd bd : ℕ) (minSize : ℤ) :
    ∀ l out base flag,
      spotQuoteAsks qpt S P qd bd minSize l = .ok (out, base, flag) →
      out.map Position.price = l.map Position.price ∧
      (flag = true ↔ ∃ p ∈ l, spotRawSize qpt S P p.price qd < minSize) ∧
      ∀ q ∈ out, ∃ p ∈ l, q.price = p.price ∧ q.flipPrice = p.flipPrice ∧
        q.liquidity = spotRawSize qpt S P p.price qd := by
  intro l
  induction l with
  | nil =>
    intro out base flag h
    rw [spotQuoteAsks, Except.ok.injEq] at h
    obtain ⟨h1, h23⟩ := Prod.ext_iff.mp h.symm
    obtain ⟨h2, h3⟩ := Prod.ext_iff.mp h23
    simp only at h1 h2 h3
    subst h1
    subst h3
    exact ⟨rfl, by simp, by simp⟩
  | cons ask rest ih =>
    intro out base flag h
    rw [spotQuoteAsks] at h
    cases hbs : jsDiv (qpt * S * P) (ask.price * 10 ^ qd) with
    | error e => rw [hbs] at h; exact absurd h (by simp)
    | ok liq =>
      rw [hbs] at h
      simp only [jsOk_bind] at h
      cases hcn : jsDiv (liq * 10 ^ bd) S with
      | error e => rw [hcn] at h; exact absurd h (by simp)
      | ok contrib =>
        rw [hcn] at h
        simp only [jsOk_bind] at h
        cases hrec : spotQuoteAsks qpt S P qd bd minSize rest with
        | error e => rw [hrec] at h; exact absurd h (by simp)
        | ok tl =>
          rw [hrec] at h
          simp only [jsOk_bind, Except.ok.injEq] at h
          obtain ⟨h1, h23⟩ := Prod.ext_iff.mp h.symm
          obtain ⟨h2, h3⟩ := Prod.ext_iff.mp h23
          simp only at h1 h2 h3
          subst h1
          subst h3
          obtain ⟨hbne, hbsv⟩ := jsDiv_ok hbs
          have hraw : liq = spotRawSize qpt S P ask.price qd := hbsv
          obtain ⟨ihp, ihf, ihm⟩ := ih tl.1 tl.2.1 tl.2.2 (by rw [hrec])
          refine ⟨by simp [ihp], ?_, ?_⟩
          · rw [Bool.or_eq_true, decide_eq_true_eq, ihf]
            constructor
            · rintro (hc | ⟨p, hpmem, hplt⟩)
              · exact ⟨ask, List.mem_cons_self ask rest,
                  by rw [← hraw]; exact hc⟩
              · exact ⟨p, List.mem_cons_of_mem ask hpmem, hplt⟩
            · rintro ⟨p, hpmem, hplt⟩
              rcases List.mem_cons.mp hpmem with hp | hp
              · subst hp
                exact Or.inl (by rw [hraw]; exact hplt)
              · exact Or.inr ⟨p, hp, hplt⟩
          · intro q hq
            rcases List.mem_cons.mp hq with hq | hq
            · subst hq
              exact ⟨ask, List.mem_cons_self ask rest, rfl, rfl, hraw⟩
            · obtain ⟨p, hpmem, hqs⟩ := ihm q hq
              exact ⟨p, List.mem_cons_of_mem ask hpmem, hqs⟩

theorem bind_ok_inv {α β : Type _} {x : Except JsErr α} {f : α → Except JsErr β}
    {out : β} (h : (x >>= f) = .ok out) : ∃ v, x = .ok v ∧ f v = .ok out := by
  cases x with
  | error e => exact absurd h (by simp)
  | ok v => exact ⟨v, rfl, by simpa using h⟩

/-! ### The allocation loops do not change prices or flip prices -/

theorem spotBaseAsks_prices (B S P R : ℤ) (bd : ℕ) (m : ℤ) :
    ∀ l out, spotBaseAsks B S P R bd m l = .ok out →
      out.1.map Position.price = l.map Position.price := by
  intro l
  induction l with
  | nil =>
    intro out h
    rw [spotBaseAsks, Except.ok.injEq] at h
    rw [← h]
  | cons a rest ih =>
    intro out h
    rw [spotBaseAsks] at h
    obtain ⟨liq, hliq, h⟩ := bind_ok_inv h
    obtain ⟨tl, htl, h⟩ := bind_ok_inv h
    rw [Except.ok.injEq] at h
    rw [← h]
    simp [ih tl htl]

theorem spotBaseBids_prices (qpt S P : ℤ) (qd : ℕ) (m : ℤ) :
    ∀ l out, spotBaseBids qpt S P qd m l = .ok out →
      out.1.map Position.price = l.map Position.price := by
  intro l
  induction l with
  | nil =>
    intro out h
    rw [spotBaseBids, Except.ok.injEq] at h
    rw [← h]
  | cons a rest ih =>
    intro out h
    rw [spotBaseBids] at h
    obtain ⟨bs, hbs, h⟩ := bind_ok_inv h
    obtain ⟨liq, hliq, h⟩ := bind_ok_inv h
    obtain ⟨tl, htl, h⟩ := bind_ok_inv h
    rw [Except.ok.injEq] at h
    rw [← h]
    simp [ih tl htl]

theorem spotBothAsks_prices (B S n : ℤ) (bd : ℕ) (m : ℤ) :
    ∀ l out, spotBothAsks B S n bd m l = .ok out →
      out.1.map Position.price = l.map Position.price := by
  intro l
  induction l with
  | nil =>
    intro out h
    rw [spotBothAsks, Except.ok.injEq] at h
    rw [← h]
  | cons a rest ih =>
    intro out h
    rw [spotBothAsks] at h
    obtain ⟨liq, hliq, h⟩ := bind_ok_inv h
    obtain ⟨tl, htl, h⟩ := bind_ok_inv h
    rw [Except.ok.injEq] at h
    rw [← h]
    simp [ih tl htl]

theorem spotBothBids_prices (Q S P n : ℤ) (qd : ℕ) (m : ℤ) :
    ∀ l out, spotBothBids Q S P n qd m l = .ok out →
      out.1.map Position.price = l.map Position.price := by
  intro l
  induction l with
  | nil =>
    intro out h
    rw [spotBothBids, Except.ok.injEq] at h
    rw [← h]
  | cons a rest ih =>
    intro out h
    rw [spotBothBids] at h
    obtain ⟨bs, hbs, h⟩ := bind_ok_inv h
    obtain ⟨liq, hliq, h⟩ := bind_ok_inv h
    obtain ⟨tl, htl, h⟩ := bind_ok_inv h
    rw [Except.ok.injEq] at h
    rw [← h]
    simp [ih tl htl]

theorem curveQuoteBids_prices (u P S : ℤ) (qd : ℕ) (m : ℤ) :
    ∀ l i out, curveQuoteBids u P S qd m i l = .ok out →
      out.1.map Position.price = l.map Position.price := by
  intro l
  induction l with
  | nil =>
    intro i out h
    rw [curveQuoteBids, Except.ok.injEq] at h
    rw [← h]
  | cons a rest ih =>
    intro i out h
    rw [curveQuoteBids] at h
    obtain ⟨bs, hbs, h⟩ := bind_ok_inv h
    obtain ⟨liq, hliq, h⟩ := bind_ok_inv h
    obtain ⟨tl, htl, h⟩ := bind_ok_inv h
    rw [Except.ok.injEq] at h
    rw [← h]
    simp [ih (i + 1) tl htl]

theorem curveQuoteAsks_prices (u S P n : ℤ) (qd bd : ℕ) (m : ℤ) :
    ∀ l i out, curveQuoteAsks u S P n qd bd m i l = .ok out →
      out.1.map Position.price = l.map Position.price := by
  intro l
  induction l with
  | nil =>
    intro i out h
    rw [curveQuoteAsks, Except.ok.injEq] at h
    rw [← h]
  | cons a rest ih =>
    intro i out h
    rw [curveQuoteAsks] at h
    obtain ⟨liq, hliq, h⟩ := bind_ok_inv h
    obtain ⟨contrib, hcn, h⟩ := bind_ok_inv h
    obtain ⟨tl, htl, h⟩ := bind_ok_inv h
    rw [Except.ok.injEq] at h
    rw [← h]
    simp [ih (i + 1) tl htl]

theorem curveBaseAsks_prices (b f S P n : ℤ) (qd bd : ℕ) (m : ℤ) :
    ∀ l i out, curveBaseAsks b f S P n qd bd m i l = .ok out →
      out.1.map Position.price = l.map Position.price := by
  intro l
  induction l with
  | nil =>
    intro i out h
    rw [curveBaseAsks, Except.ok.injEq] at h
    rw [← h]
  | cons a rest ih =>
    intro i out h
    rw [curveBaseAsks] at h
    obtain ⟨bfa, hbfa, h⟩ := bind_ok_inv h
    obtain ⟨liq, hliq, h⟩ := bind_ok_inv h
    obtain ⟨qta, hqta, h⟩ := bind_ok_inv h
    obtain ⟨tl, htl, h⟩ := bind_ok_inv h
    rw [Except.ok.injEq] at h
    rw [← h]
    simp [ih (i + 1) tl htl]

theorem bidAskQuoteBids_prices (u P S n : ℤ) (qd : ℕ) (m : ℤ) :
    ∀ l i out, bidAskQuoteBids u P S n qd m i l = .ok out →
      out.1.map Position.price = l.map Position.price := by
  intro l
  induction l with
  | nil =>
    intro i out h
    rw [bidAskQuoteBids, Except.ok.injEq] at h
    rw [← h]
  | cons a rest ih =>
    intro i out h
    rw [bidAskQuoteBids] at h
    obtain ⟨bs, hbs, h⟩ := bind_ok_inv h
    obtain ⟨liq, hliq, h⟩ := bind_ok_inv h
    obtain ⟨tl, htl, h⟩ := bind_ok_inv h
    rw [Except.ok.injEq] at h
    rw [← h]
    simp [ih (i + 1) tl htl]

theorem bidAskQuoteAsks_prices (u P S : ℤ) (qd bd : ℕ) (m : ℤ) :
    ∀ l i out, bidAskQuoteAsks u P S qd bd m i l = .ok out →
      out.1.map Position.price = l.map Position.price := by
  intro l
  induction l with
  | nil =>
    intro i out h
    rw [bidAskQuoteAsks, Except.ok.injEq] at h
    rw [← h]
  | cons a rest ih =>
    intro i out h
    rw [bidAskQuoteAsks] at h
    obtain ⟨liq, hliq, h⟩ := bind_ok_inv h
    obtain ⟨contrib, hcn, h⟩ := bind_ok_inv h
    obtain ⟨tl, htl, h⟩ := bind_ok_inv h
    rw [Except.ok.injEq] at h
    rw [← h]
    simp [ih (i + 1) tl htl]

theorem bidAskBaseAsks_prices (b c S P : ℤ) (qd bd : ℕ) (m : ℤ) :
    ∀ l i out, bidAskBaseAsks b c S P qd bd m i l = .ok out →
      out.1.map Position.price = l.map Position.price := by
  intro l
  induction l with
  | nil =>
    intro i out h
    rw [bidAskBaseAsks, Except.ok.injEq] at h
    rw [← h]
  | cons a rest ih =>
    intro i out h
    rw [bidAskBaseAsks] at h
    obtain ⟨bfa, hbfa, h⟩ := bind_ok_inv h
    obtain ⟨liq, hliq, h⟩ := bind_ok_inv h
    obtain ⟨qta, hqta, h⟩ := bind_ok_inv h
    obtain ⟨tl, htl, h⟩ := bind_ok_inv h
    rw [Except.ok.injEq] at h
    rw [← h]
    simp [ih (i + 1) tl htl]

/-! ### Sorting -/

theorem sortByPriceDesc_perm (l : List Position) : (sortByPriceDesc l).Perm l :=
  List.perm_insertionSort priceDesc l

theorem sortByPriceAsc_perm (l : List Position) : (sortByPriceAsc l).Perm l :=
  List.perm_insertionSort priceAsc l

/-- On a list with pairwise distinct prices, the descending sort gives a
strictly decreasing price sequence. -/
theorem sortByPriceDesc_strict (l : List Position)
    (h : (l.map Position.price).Pairwise (· < ·)) :
    ((sortByPriceDesc l).map Position.price).Pairwise (· > ·) := by
  have hsorted : List.Pairwise priceDesc (sortByPriceDesc l) :=
    List.sorted_insertionSort priceDesc l
  have hperm : ((sortByPriceDesc l).map Position.price).Perm
      (l.map Position.price) := (sortByPriceDesc_perm l).map _
  have hne : List.Pairwise (fun a b : Position => a.price ≠ b.price)
      (sortByPriceDesc l) := by
    have : ((sortByPriceDesc l).map Position.price).Nodup :=
      hperm.nodup_iff.mpr (h.imp ne_of_lt)
    rw [List.Nodup, List.pairwise_map] at this
    exact this
  rw [List.pairwise_map]
  exact (hsorted.and hne).imp fun hab =>
    lt_of_le_of_ne hab.1 fun hc => hab.2 hc.symm

/-- On a list with pairwise distinct prices, the ascending sort gives a
strictly increasing price sequence. -/
theorem sortByPriceAsc_strict (l : List Position)
    (h : (l.map Position.price).Pairwise (· < ·)) :
    ((sortByPriceAsc l).map Position.price).Pairwise (· < ·) := by
  have hsorted : List.Pairwise priceAsc (sortByPriceAsc l) :=
    List.sorted_insertionSort priceAsc l
  have hperm : ((sortByPriceAsc l).map Position.price).Perm
      (l.map Position.price) := (sortByPriceAsc_perm l).map _
  have hne : List.Pairwise (fun a b : Position => a.price ≠ b.price)
      (sortByPriceAsc l) := by
    have : ((sortByPriceAsc l).map Position.price).Nodup :=
      hperm.nodup_iff.mpr (h.imp ne_of_lt)
    rw [List.Nodup, List.pairwise_map] at this
    exact this
  rw [List.pairwise_map]
  exact (hsorted.and hne).imp fun hab => lt_of_le_of_ne hab.1 hab.2

/-- Base-only branch of the spot entry point, unfolded. -/
theorem getSpot_base_unfold (minFeesBps startPrice endPrice bestAskPrice
    pricePrecision sizePrecision : ℤ) (qd bd : ℕ) (tickSize minSize B : ℤ)
    (mpp : Option ℕ) (htick : tickSize ≠ 0)
    (hpre : priceRangeCheck minFeesBps startPrice endPrice mpp = .ok ()) :
    getSpotBatchLPDetails minFeesBps startPrice endPrice bestAskPrice
      pricePrecision sizePrecision qd bd tickSize minSize none (some B) mpp =
    (do
      let walk := spotWalk minFeesBps startPrice endPrice bestAskPrice tickSize
      let asks := spotAskGrid minFeesBps startPrice endPrice bestAskPrice tickSize
      let recipSum ← reciprocalSumScaled pricePrecision asks
      if recipSum = 0 then throw .degenerateRange
      let outAsks ← spotBaseAsks B sizePrecision pricePrecision recipSum bd
        minSize asks
      match outAsks.1 with
      | [] => throw .typeError
      | firstAsk :: _ => do
        let quotePerTick ← jsDiv
          (firstAsk.liquidity * firstAsk.price * 10 ^ qd)
          (sizePrecision * pricePrecision)
        let outBids ← spotBaseBids quotePerTick sizePrecision pricePrecision
          qd minSize walk.1
        let batch : BatchLPDetails := ⟨sortByPriceDesc outBids.1,
          sortByPriceDesc outAsks.1, outBids.2.1, B,
          outAsks.2 || outBids.2.2⟩
        let summary ← getLPSummaryForMinSize batch minSize sizePrecision
          pricePrecision qd
        .ok ⟨batch, summary⟩) := by
  rw [getSpotBatchLPDetails, hpre]
  simp only [jsOk_bind, jsPure_eq_ok]
  rw [if_neg (by simp), jsMod, if_neg htick]
  simp only [jsOk_bind, jsPure_eq_ok]
  rfl

/-- Both-totals branch of the spot entry point, unfolded. -/
theorem getSpot_both_unfold (minFeesBps startPrice endPrice bestAskPrice
    pricePrecision sizePrecision : ℤ) (qd bd : ℕ) (tickSize minSize Q B : ℤ)
    (mpp : Option ℕ) (htick : tickSize ≠ 0)
    (hpre : priceRangeCheck minFeesBps startPrice endPrice mpp = .ok ()) :
    getSpotBatchLPDetails minFeesBps startPrice endPrice bestAskPrice
      pricePrecision sizePrecision qd bd tickSize minSize (some Q) (some B)
      mpp =
    (do
      let walk := spotWalk minFeesBps startPrice endPrice bestAskPrice tickSize
      let asks := spotAskGrid minFeesBps startPrice endPrice bestAskPrice tickSize
      let outAsks ← spotBothAsks B sizePrecision asks.length bd minSize asks
      let outBids ← spotBothBids Q sizePrecision pricePrecision
        (walk.1.length : ℤ) qd minSize walk.1
      let batch : BatchLPDetails := ⟨sortByPriceDesc outBids.1,
        sortByPriceDesc outAsks.1, Q, B, outAsks.2 || outBids.2⟩
      let summary ← getLPSummaryForMinSize batch minSize sizePrecision
        pricePrecision qd
      .ok ⟨batch, summary⟩) := by
  rw [getSpotBatchLPDetails, hpre]
  simp only [jsOk_bind, jsPure_eq_ok]
  rw [if_neg (by simp), jsMod, if_neg htick]
  simp only [jsOk_bind, jsPure_eq_ok]
  rfl

/-- Any successful spot call returns the two sides as descending sorts of
lists carrying exactly the generated grid prices. -/
theorem getSpot_ok_shape (minFeesBps startPrice endPrice bestAskPrice
    pricePrecision sizePrecision : ℤ) (qd bd : ℕ) (tickSize minSize : ℤ)
    (quoteL baseL : Option ℤ) (mpp : Option ℕ) (htick : tickSize ≠ 0)
    (res : BatchLPResult)
    (hok : getSpotBatchLPDetails minFeesBps startPrice endPrice bestAskPrice
      pricePrecision sizePrecision qd bd tickSize minSize quoteL baseL mpp =
      .ok res) :
    ∃ outB outA : List Position,
      res.batchLPDetails.bids = sortByPriceDesc outB ∧
      res.batchLPDetails.asks = sortByPriceDesc outA ∧
      outB.map Position.price =
        (spotWalk minFeesBps startPrice endPrice bestAskPrice tickSize).1.map
          Position.price ∧
      outA.map Position.price =
        (spotAskGrid minFeesBps startPrice endPrice bestAskPrice tickSize).map
          Position.price := by
  have hpre : priceRangeCheck minFeesBps startPrice endPrice mpp = .ok () := by
    cases hp : priceRangeCheck minFeesBps startPrice endPrice mpp with
    | error e => rw [getSpotBatchLPDetails, hp] at hok; exact absurd hok (by simp)
    | ok u => cases u; rfl
  cases quoteL with
  | some Q =>
    cases baseL with
    | none =>
      rw [getSpot_quote_unfold minFeesBps startPrice endPrice bestAskPrice
        pricePrecision sizePrecision qd bd tickSize minSize Q mpp htick hpre]
        at hok
      obtain ⟨qpt, hqpt, hok⟩ := bind_ok_inv hok
      obtain ⟨outBids, hob, hok⟩ := bind_ok_inv hok
      obtain ⟨outAsks, hoa, hok⟩ := bind_ok_inv hok
      obtain ⟨summary, hsum, hok⟩ := bind_ok_inv hok
      rw [Except.ok.injEq] at hok
      subst hok
      obtain ⟨hbp, _, _⟩ := spotQuoteBids_ok_spec _ _ _ _ _ _ outBids.1
        outBids.2 (by rw [hob])
      obtain ⟨hap, _, _⟩ := spotQuoteAsks_ok_spec _ _ _ _ _ _ _ outAsks.1
        outAsks.2.1 outAsks.2.2 (by rw [hoa])
      exact ⟨outBids.1, outAsks.1, rfl, rfl, hbp, hap⟩
    | some B =>
      rw [getSpot_both_unfold minFeesBps startPrice endPrice bestAskPrice
        pricePrecision sizePrecision qd bd tickSize minSize Q B mpp htick hpre]
        at hok
      obtain ⟨outAsks, hoa, hok⟩ := bind_ok_inv hok
      obtain ⟨outBids, hob, hok⟩ := bind_ok_inv hok
      obtain ⟨summary, hsum, hok⟩ := bind_ok_inv hok
      rw [Except.ok.injEq] at hok
      subst hok
      exact ⟨outBids.1, outAsks.1, rfl, rfl,
        spotBothBids_prices _ _ _ _ _ _ _ outBids hob,
        spotBothAsks_prices _ _ _ _ _ _ outAsks hoa⟩
  | none =>
    cases baseL with
    | none =>
      rw [getSpotBatchLPDetails, hpre] at hok
      simp [throw, throwThe, MonadExceptOf.throw, jsError_bind,
        jsOk_bind, jsPure_eq_ok] at hok
    | some B =>
      rw [getSpot_base_unfold minFeesBps startPrice endPrice bestAskPrice
        pricePrecision sizePrecision qd bd tickSize minSize B mpp htick hpre]
        at hok
      obtain ⟨recipSum, hrs, hok⟩ := bind_ok_inv hok
      by_cases hz : recipSum = 0
      · rw [if_pos hz] at hok
        exact absurd hok (by simp [throw, throwThe, MonadExceptOf.throw])
      · rw [if_neg hz] at hok
        simp only [jsPure_eq_ok, jsOk_bind] at hok
        obtain ⟨outAsks, hoa, hok⟩ := bind_ok_inv hok
        cases hfa : outAsks.1 with
        | nil =>
          rw [hfa] at hok
          exact absurd hok (by simp [throw, throwThe, MonadExceptOf.throw])
        | cons firstAsk restAsks =>
          rw [hfa] at hok
          obtain ⟨qpt, hqpt, hok⟩ := bind_ok_inv hok
          obtain ⟨outBids, hob, hok⟩ := bind_ok_inv hok
          obtain ⟨summary, hsum, hok⟩ := bind_ok_inv hok
          rw [Except.ok.injEq] at hok
          subst hok
          refine ⟨outBids.1, outAsks.1, rfl, by rw [hfa], ?_, ?_⟩
          · exact spotBaseBids_prices _ _ _ _ _ _ outBids hob
          · exact spotBaseAsks_prices _ _ _ _ _ _ _ outAsks hoa

/-- For inputs exactly representable as doubles, the generated grid satisfies
the ladder invariants: tick-aligned strictly increasing bid prices below
`min(bestAskPrice, endPrice)`, tick-aligned strictly increasing ask prices in
`[walkEnd, endPrice)`, with the walk end at or past the bound and past every
bid by at least a tick. -/
theorem spotGrid_facts (minFeesBps startPrice endPrice bestAskPrice
    tickSize : ℤ) (hfee : 0 ≤ minFeesBps) (htick : 0 < tickSize)
    (hstart : 0 ≤ startPrice) (hba0 : 0 ≤ bestAskPrice)
    (hba : bestAskPrice < 2 ^ 53) (hend0 : 0 ≤ endPrice)
    (hend : endPrice < 2 ^ 53) :
    (∀ p ∈ (spotWalk minFeesBps startPrice endPrice bestAskPrice tickSize).1,
      tickSize ∣ p.price ∧ startPrice - startPrice.tmod tickSize ≤ p.price ∧
        p.price < min bestAskPrice endPrice ∧
        p.price + tickSize ≤
          (spotWalk minFeesBps startPrice endPrice bestAskPrice tickSize).2) ∧
    ((spotWalk minFeesBps startPrice endPrice bestAskPrice
      tickSize).1.map Position.price).Pairwise (· < ·) ∧
    min bestAskPrice endPrice ≤
      (spotWalk minFeesBps startPrice endPrice bestAskPrice tickSize).2 ∧
    startPrice - startPrice.tmod tickSize ≤
      (spotWalk minFeesBps startPrice endPrice bestAskPrice tickSize).2 ∧
    (∀ p ∈ spotAskGrid minFeesBps startPrice endPrice bestAskPrice tickSize,
      tickSize ∣ p.price ∧
        (spotWalk minFeesBps startPrice endPrice bestAskPrice tickSize).2 ≤
          p.price ∧ p.price < endPrice) ∧
    ((spotAskGrid minFeesBps startPrice endPrice bestAskPrice
      tickSize).map Position.price).Pairwise (· < ·) := by
  have hbound : codeBidBound bestAskPrice endPrice =
      min bestAskPrice endPrice := codeBidBound_eq_min hba0 hba hend0 hend
  have hmod : startPrice.tmod tickSize = startPrice % tickSize :=
    Int.tmod_eq_emod hstart htick.le
  have heq : startPrice - startPrice.tmod tickSize =
      tickSize * (startPrice / tickSize) := by
    have := Int.ediv_add_emod startPrice tickSize
    rw [hmod]
    linarith
  have hstart0 : 0 ≤ startPrice - startPrice.tmod tickSize := by
    rw [heq]
    exact mul_nonneg htick.le (Int.ediv_nonneg hstart htick.le)
  have halign : tickSize ∣ startPrice - startPrice.tmod tickSize :=
    ⟨startPrice / tickSize, heq⟩
  obtain ⟨hmem, hpw, hfin, hfind, hfinn⟩ :=
    bidLoop_facts minFeesBps tickSize (codeBidBound bestAskPrice endPrice)
      hfee htick (gridFuel bestAskPrice endPrice)
      (startPrice - startPrice.tmod tickSize) hstart0 halign
  have hfuel : (codeBidBound bestAskPrice endPrice -
      (startPrice - startPrice.tmod tickSize)).toNat <
      gridFuel bestAskPrice endPrice := by
    rw [hbound, gridFuel]
    omega
  have hcomplete := bidLoop_complete minFeesBps tickSize
    (codeBidBound bestAskPrice endPrice) hfee htick
    (gridFuel bestAskPrice endPrice) (startPrice - startPrice.tmod tickSize)
    hstart0 halign hfuel
  obtain ⟨hamem, hapw⟩ := askLoop_facts minFeesBps tickSize endPrice hfee htick
    (gridFuel bestAskPrice endPrice)
    (spotWalk minFeesBps startPrice endPrice bestAskPrice tickSize).2
    hfinn hfind
  refine ⟨?_, hpw, ?_, hfin, hamem, hapw⟩
  · intro p hp
    obtain ⟨h1, h2, h3, h4⟩ := hmem p hp
    exact ⟨h1, h2, hbound ▸ h3, h4⟩
  · rw [← hbound]
    exact hcomplete

/-- Properties transferred through a descending sort: any per-price fact is
preserved, and distinct increasing input prices become strictly decreasing. -/
theorem sortDesc_price_facts {out l : List Position}
    (hmap : out.map Position.price = l.map Position.price) (Pred : ℤ → Prop)
    (hfacts : ∀ q ∈ l.map Position.price, Pred q)
    (hpw : (l.map Position.price).Pairwise (· < ·)) :
    (∀ q ∈ (sortByPriceDesc out).map Position.price, Pred q) ∧
    ((sortByPriceDesc out).map Position.price).Pairwise (· > ·) := by
  have hperm := (sortByPriceDesc_perm out).map Position.price
  constructor
  · intro q hq
    refine hfacts q ?_
    rw [← hmap]
    exact hperm.mem_iff.mp hq
  · refine sortByPriceDesc_strict out ?_
    rw [hmap]
    exact hpw

/-- Properties transferred through an ascending sort. -/
theorem sortAsc_price_facts {out l : List Position}
    (hmap : out.map Position.price = l.map Position.price) (Pred : ℤ → Prop)
    (hfacts : ∀ q ∈ l.map Position.price, Pred q)
    (hpw : (l.map Position.price).Pairwise (· < ·)) :
    (∀ q ∈ (sortByPriceAsc out).map Position.price, Pred q) ∧
    ((sortByPriceAsc out).map Position.price).Pairwise (· < ·) := by
  have hperm := (sortByPriceAsc_perm out).map Position.price
  constructor
  · intro q hq
    refine hfacts q ?_
    rw [← hmap]
    exact hperm.mem_iff.mp hq
  · refine sortByPriceAsc_strict out ?_
    rw [hmap]
    exact hpw

/-- Every price on the bid side is a tick multiple strictly below the best
ask, and the side is listed highest price first. -/
def bidSideInvariant (tickSize bestAskPrice : ℤ) (bids : List Position) : Prop :=
  (∀ q ∈ bids.map Position.price, tickSize ∣ q ∧ q < bestAskPrice) ∧
  (bids.map Position.price).Pairwise (· > ·)

/-- Every price on the ask side is a tick multiple in
`[bestAskPrice, endPrice)`, listed highest price first (the spot order). -/
def askSideInvariantDesc (tickSize bestAskPrice endPrice : ℤ)
    (asks : List Position) : Prop :=
  (∀ q ∈ asks.map Position.price,
    tickSize ∣ q ∧ bestAskPrice ≤ q ∧ q < endPrice) ∧
  (asks.map Position.price).Pairwise (· > ·)

/-- Same price facts, listed lowest price first (the curve and bid-ask order). -/
def askSideInvariantAsc (tickSize bestAskPrice endPrice : ℤ)
    (asks : List Position) : Prop :=
  (∀ q ∈ asks.map Position.price,
    tickSize ∣ q ∧ bestAskPrice ≤ q ∧ q < endPrice) ∧
  (asks.map Position.price).Pairwise (· < ·)

/-- The per-price facts that hold on the generated grid, packaged for the
transfer lemmas. -/
theorem spotGrid_price_facts (minFeesBps startPrice endPrice bestAskPrice
    tickSize : ℤ) (hfee : 0 ≤ minFeesBps) (htick : 0 < tickSize)
    (hstart : 0 ≤ startPrice) (hba0 : 0 ≤ bestAskPrice)
    (hba : bestAskPrice < 2 ^ 53) (hend0 : 0 ≤ endPrice)
    (hend : endPrice < 2 ^ 53) :
    (∀ q ∈ (spotWalk minFeesBps startPrice endPrice bestAskPrice
        tickSize).1.map Position.price, tickSize ∣ q ∧ q < bestAskPrice) ∧
    ((spotWalk minFeesBps startPrice endPrice bestAskPrice tickSize).1.map
      Position.price).Pairwise (· < ·) ∧
    (∀ q ∈ (spotAskGrid minFeesBps startPrice endPrice bestAskPrice
        tickSize).map Position.price,
      tickSize ∣ q ∧ bestAskPrice ≤ q ∧ q < endPrice) ∧
    ((spotAskGrid minFeesBps startPrice endPrice bestAskPrice tickSize).map
      Position.price).Pairwise (· < ·) := by
  obtain ⟨hmem, hpw, hfin, hsw, hamem, hapw⟩ := spotGrid_facts minFeesBps
    startPrice endPrice bestAskPrice tickSize hfee htick hstart hba0 hba
    hend0 hend
  refine ⟨?_, hpw, ?_, hapw⟩
  · intro q hq
    obtain ⟨p, hpmem, hpq⟩ := List.mem_map.mp hq
    obtain ⟨h1, _, h3, _⟩ := hmem p hpmem
    subst hpq
    exact ⟨h1, by omega⟩
  · intro q hq
    obtain ⟨p, hpmem, hpq⟩ := List.mem_map.mp hq
    obtain ⟨h1, h2, h3⟩ := hamem p hpmem
    subst hpq
    exact ⟨h1, by omega, h3⟩

/-- Quote-given branch of the curve entry point, unfolded. -/
theorem getCurve_quote_unfold (minFeesBps startPrice endPrice bestAskPrice
    pricePrecision sizePrecision : ℤ) (qd bd : ℕ) (tickSize minSize Q : ℤ)
    (baseOpt : Option ℤ) (mpp : Option ℕ) (htick : tickSize ≠ 0)
    (hpre : priceRangeCheck minFeesBps startPrice endPrice mpp = .ok ()) :
    getCurveBatchLPDetails minFeesBps startPrice endPrice bestAskPrice
      pricePrecision sizePrecision qd bd tickSize minSize (some Q) baseOpt
      mpp =
    (do
      let walk := spotWalk minFeesBps startPrice endPrice bestAskPrice tickSize
      let asks := spotAskGrid minFeesBps startPrice endPrice bestAskPrice tickSize
      let quoteUnitForBids ← if 0 < (walk.1.length : ℤ) then
          jsDiv (2 * Q) ((walk.1.length : ℤ) * ((walk.1.length : ℤ) + 1))
        else pure 0
      let quoteUnitForAsks ← if 0 < (asks.length : ℤ) then
          jsDiv (2 * Q) ((asks.length : ℤ) * ((asks.length : ℤ) + 1))
        else pure 0
      let outBids ← curveQuoteBids quoteUnitForBids pricePrecision
        sizePrecision qd minSize 0 walk.1
      let outAsks ← curveQuoteAsks quoteUnitForAsks sizePrecision
        pricePrecision (asks.length : ℤ) qd bd minSize 0 asks
      let batch : BatchLPDetails := ⟨sortByPriceDesc outBids.1,
        sortByPriceAsc outAsks.1, Q, outAsks.2.1, outBids.2 || outAsks.2.2⟩
      let summary ← getLPSummaryForMinSize batch minSize sizePrecision
        pricePrecision qd
      .ok ⟨batch, summary⟩) := by
  rw [getCurveBatchLPDetails, hpre]
  simp only [jsOk_bind, jsPure_eq_ok]
  rw [if_neg (by simp), jsMod, if_neg htick]
  simp only [jsOk_bind, jsPure_eq_ok]
  rfl

/-- Base-given branch of the curve entry point, unfolded. -/
theorem getCurve_base_unfold (minFeesBps startPrice endPrice bestAskPrice
    pricePrecision sizePrecision : ℤ) (qd bd : ℕ) (tickSize minSize B : ℤ)
    (mpp : Option ℕ) (htick : tickSize ≠ 0)
    (hpre : priceRangeCheck minFeesBps startPrice endPrice mpp = .ok ()) :
    getCurveBatchLPDetails minFeesBps startPrice endPrice bestAskPrice
      pricePrecision sizePrecision qd bd tickSize minSize none (some B) mpp =
    (do
      let walk := spotWalk minFeesBps startPrice endPrice bestAskPrice tickSize
      let asks := spotAskGrid minFeesBps startPrice endPrice bestAskPrice tickSize
      if (asks.length : ℤ) = 0 then throw .degenerateRange
      match asks.getLast? with
      | none => throw .typeError
      | some farthestAsk => do
        let wsum ← curveWeightedSum farthestAsk.price pricePrecision
          (asks.length : ℤ) 0 asks
        let baseInFarthestAsk ← if 0 < wsum then
            jsDiv (B * pricePrecision) wsum else pure 0
        let outAsks ← curveBaseAsks baseInFarthestAsk farthestAsk.price
          sizePrecision pricePrecision (asks.length : ℤ) qd bd minSize 0 asks
        let afterBids ←
          if 0 < (walk.1.length : ℤ) then do
            let quoteUnitForBids ← jsDiv (2 * outAsks.2.1)
              ((walk.1.length : ℤ) * ((walk.1.length : ℤ) + 1))
            let outBids ← curveQuoteBids quoteUnitForBids pricePrecision
              sizePrecision qd minSize 0 walk.1
            pure (outBids.1, outAsks.2.1, outBids.2)
          else pure (walk.1, (0 : ℤ), false)
        let batch : BatchLPDetails := ⟨sortByPriceDesc afterBids.1,
          sortByPriceAsc outAsks.1, afterBids.2.1, B,
          outAsks.2.2 || afterBids.2.2⟩
        let summary ← getLPSummaryForMinSize batch minSize sizePrecision
          pricePrecision qd
        .ok ⟨batch, summary⟩) := by
  rw [getCurveBatchLPDetails, hpre]
  simp only [jsOk_bind, jsPure_eq_ok]
  rw [if_neg (by simp), jsMod, if_neg htick]
  simp only [jsOk_bind, jsPure_eq_ok]
  rfl

/-- Any successful curve call returns a descending-sorted bid side and an
ascending-sorted ask side carrying exactly the grid prices. -/
theorem getCurve_ok_shape (minFeesBps startPrice endPrice bestAskPrice
    pricePrecision sizePrecision : ℤ) (qd bd : ℕ) (tickSize minSize : ℤ)
    (quoteL baseL : Option ℤ) (mpp : Option ℕ) (htick : tickSize ≠ 0)
    (res : BatchLPResult)
    (hok : getCurveBatchLPDetails minFeesBps startPrice endPrice bestAskPrice
      pricePrecision sizePrecision qd bd tickSize minSize quoteL baseL mpp =
      .ok res) :
    ∃ outB outA : List Position,
      res.batchLPDetails.bids = sortByPriceDesc outB ∧
      res.batchLPDetails.asks = sortByPriceAsc outA ∧
      outB.map Position.price =
        (spotWalk minFeesBps startPrice endPrice bestAskPrice tickSize).1.map
          Position.price ∧
      outA.map Position.price =
        (spotAskGrid minFeesBps startPrice endPrice bestAskPrice tickSize).map
          Position.price := by
  have hpre : priceRangeCheck minFeesBps startPrice endPrice mpp = .ok () := by
    cases hp : priceRangeCheck minFeesBps startPrice endPrice mpp with
    | error e =>
      rw [getCurveBatchLPDetails, hp] at hok
      exact absurd hok (by simp)
    | ok u => cases u; rfl
  cases quoteL with
  | some Q =>
    rw [getCurve_quote_unfold minFeesBps startPrice endPrice bestAskPrice
      pricePrecision sizePrecision qd bd tickSize minSize Q baseL mpp htick
      hpre] at hok
    dsimp only at hok
    split at hok <;>
    · obtain ⟨ub, hub, hok⟩ := bind_ok_inv hok
      split at hok <;>
      · obtain ⟨ua, hua, hok⟩ := bind_ok_inv hok
        obtain ⟨outBids, hob, hok⟩ := bind_ok_inv hok
        obtain ⟨outAsks, hoa, hok⟩ := bind_ok_inv hok
        obtain ⟨summary, hsum, hok⟩ := bind_ok_inv hok
        rw [Except.ok.injEq] at hok
        subst hok
        exact ⟨outBids.1, outAsks.1, rfl, rfl,
          curveQuoteBids_prices _ _ _ _ _ _ _ outBids hob,
          curveQuoteAsks_prices _ _ _ _ _ _ _ _ _ outAsks hoa⟩
  | none =>
    cases baseL with
    | none =>
      rw [getCurveBatchLPDetails, hpre] at hok
      simp [throw, throwThe, MonadExceptOf.throw, jsError_bind,
        jsOk_bind, jsPure_eq_ok] at hok
    | some B =>
      rw [getCurve_base_unfold minFeesBps startPrice endPrice bestAskPrice
        pricePrecision sizePrecision qd bd tickSize minSize B mpp htick hpre]
        at hok
      dsimp only at hok
      split at hok
      · exact absurd hok
          (by simp [throw, throwThe, MonadExceptOf.throw, jsError_bind])
      · simp only [jsPure_eq_ok, jsOk_bind] at hok
        cases hlast : (spotAskGrid minFeesBps startPrice endPrice bestAskPrice
            tickSize).getLast? with
        | none =>
          rw [hlast] at hok
          exact absurd hok
            (by simp [throw, throwThe, MonadExceptOf.throw, jsError_bind])
        | some farthestAsk =>
          rw [hlast] at hok
          dsimp only at hok
          obtain ⟨wsum, hws, hok⟩ := bind_ok_inv hok
          have tail : ∀ bfa outAsks,
              curveBaseAsks bfa farthestAsk.price sizePrecision pricePrecision
                ((spotAskGrid minFeesBps startPrice endPrice bestAskPrice
                  tickSize).length : ℤ) qd bd minSize 0
                (spotAskGrid minFeesBps startPrice endPrice bestAskPrice
                  tickSize) = .ok outAsks →
              ∀ afterBids1 q2 f2,
              res.batchLPDetails =
                ⟨sortByPriceDesc afterBids1, sortByPriceAsc outAsks.1, q2, B,
                  outAsks.2.2 || f2⟩ →
              afterBids1.map Position.price =
                (spotWalk minFeesBps startPrice endPrice bestAskPrice
                  tickSize).1.map Position.price →
              ∃ outB outA : List Position,
                res.batchLPDetails.bids = sortByPriceDesc outB ∧
                res.batchLPDetails.asks = sortByPriceAsc outA ∧
                outB.map Position.price =
                  (spotWalk minFeesBps startPrice endPrice bestAskPrice
                    tickSize).1.map Position.price ∧
                outA.map Position.price =
                  (spotAskGrid minFeesBps startPrice endPrice bestAskPrice
                    tickSize).map Position.price := by
            intro bfa outAsks hoa afterBids1 q2 f2 hres hmap
            refine ⟨afterBids1, outAsks.1, ?_, ?_, hmap,
              curveBaseAsks_prices _ _ _ _ _ _ _ _ _ _ outAsks hoa⟩
            · rw [hres]
            · rw [hres]
          split at hok
          · obtain ⟨bfa, hbfa, hok⟩ := bind_ok_inv hok
            obtain ⟨outAsks, hoa, hok⟩ := bind_ok_inv hok
            split at hok
            · obtain ⟨ub, hub, hok⟩ := bind_ok_inv hok
              obtain ⟨outBids, hob, hok⟩ := bind_ok_inv hok
              obtain ⟨summary, hsum, hok⟩ := bind_ok_inv hok
              rw [Except.ok.injEq] at hok
              subst hok
              exact tail bfa outAsks hoa outBids.1 outAsks.2.1 outBids.2 rfl
                (curveQuoteBids_prices _ _ _ _ _ _ _ outBids hob)
            · obtain ⟨summary, hsum, hok⟩ := bind_ok_inv hok
              rw [Except.ok.injEq] at hok
              subst hok
              exact tail bfa outAsks hoa _ 0 false rfl rfl
          · obtain ⟨outAsks, hoa, hok⟩ := bind_ok_inv hok
            split at hok
            · obtain ⟨ub, hub, hok⟩ := bind_ok_inv hok
              obtain ⟨outBids, hob, hok⟩ := bind_ok_inv hok
              obtain ⟨summary, hsum, hok⟩ := bind_ok_inv hok
              rw [Except.ok.injEq] at hok
              subst hok
              exact tail 0 outAsks hoa outBids.1 outAsks.2.1 outBids.2 rfl
                (curveQuoteBids_prices _ _ _ _ _ _ _ outBids hob)
            · obtain ⟨summary, hsum, hok⟩ := bind_ok_inv hok
              rw [Except.ok.injEq] at hok
              subst hok
              exact tail 0 outAsks hoa _ 0 false rfl rfl

/-- Quote-given branch of the bid-ask entry point, unfolded. -/
theorem getBidAsk_quote_unfold (minFeesBps startPrice endPrice bestAskPrice
    pricePrecision sizePrecision : ℤ) (qd bd : ℕ) (tickSize minSize Q : ℤ)
    (baseOpt : Option ℤ) (mpp : Option ℕ) (htick : tickSize ≠ 0)
    (hpre : priceRangeCheck minFeesBps startPrice endPrice mpp = .ok ()) :
    getBidAskBatchLPDetails minFeesBps startPrice endPrice bestAskPrice
      pricePrecision sizePrecision qd bd tickSize minSize (some Q) baseOpt
      mpp =
    (do
      let walk := spotWalk minFeesBps startPrice endPrice bestAskPrice tickSize
      let asks := spotAskGrid minFeesBps startPrice endPrice bestAskPrice tickSize
      let quoteUnitForBids ← if 0 < (walk.1.length : ℤ) then
          jsDiv (2 * Q) ((walk.1.length : ℤ) * ((walk.1.length : ℤ) + 1))
        else pure 0
      let quoteUnitForAsks ← if 0 < (asks.length : ℤ) then
          jsDiv (2 * Q) ((asks.length : ℤ) * ((asks.length : ℤ) + 1))
        else pure 0
      let outBids ← bidAskQuoteBids quoteUnitForBids pricePrecision
        sizePrecision (walk.1.length : ℤ) qd minSize 0 walk.1
      let outAsks ← bidAskQuoteAsks quoteUnitForAsks pricePrecision
        sizePrecision qd bd minSize 0 asks
      let batch : BatchLPDetails := ⟨sortByPriceDesc outBids.1,
        sortByPriceAsc outAsks.1, Q, outAsks.2.1, outBids.2 || outAsks.2.2⟩
      let summary ← getLPSummaryForMinSize batch minSize sizePrecision
        pricePrecision qd
      .ok ⟨batch, summary⟩) := by
  rw [getBidAskBatchLPDetails, hpre]
  simp only [jsOk_bind, jsPure_eq_ok]
  rw [if_neg (by simp), jsMod, if_neg htick]
  simp only [jsOk_bind, jsPure_eq_ok]
  rfl

/-- Base-given branch of the bid-ask entry point, unfolded. -/
theorem getBidAsk_base_unfold (minFeesBps startPrice endPrice bestAskPrice
    pricePrecision sizePrecision : ℤ) (qd bd : ℕ) (tickSize minSize B : ℤ)
    (mpp : Option ℕ) (htick : tickSize ≠ 0)
    (hpre : priceRangeCheck minFeesBps startPrice endPrice mpp = .ok ()) :
    getBidAskBatchLPDetails minFeesBps startPrice endPrice bestAskPrice
      pricePrecision sizePrecision qd bd tickSize minSize none (some B) mpp =
    (do
      let walk := spotWalk minFeesBps startPrice endPrice bestAskPrice tickSize
      let asks := spotAskGrid minFeesBps startPrice endPrice bestAskPrice tickSize
      if (asks.length : ℤ) = 0 then throw .degenerateRange
      match asks with
      | [] => throw .typeError
      | closestAsk :: _ => do
        let wsum ← bidAskWeightedSum closestAsk.price pricePrecision 0 asks
        let baseInClosestAsk ← jsDiv (B * pricePrecision) wsum
        let outAsks ← bidAskBaseAsks baseInClosestAsk closestAsk.price
          sizePrecision pricePrecision qd bd minSize 0 asks
        let afterBids ←
          if 0 < (walk.1.length : ℤ) then do
            let quoteUnitForBids ← jsDiv (2 * outAsks.2.1)
              ((walk.1.length : ℤ) * ((walk.1.length : ℤ) + 1))
            let outBids ← bidAskQuoteBids quoteUnitForBids pricePrecision
              sizePrecision (walk.1.length : ℤ) qd minSize 0 walk.1
            pure (outBids.1, outAsks.2.1, outBids.2)
          else pure (walk.1, (0 : ℤ), false)
        let batch : BatchLPDetails := ⟨sortByPriceDesc afterBids.1,
          sortByPriceAsc outAsks.1, afterBids.2.1, B,
          outAsks.2.2 || afterBids.2.2⟩
        let summary ← getLPSummaryForMinSize batch minSize sizePrecision
          pricePrecision qd
        .ok ⟨batch, summary⟩) := by
  rw [getBidAskBatchLPDetails, hpre]
  simp only [jsOk_bind, jsPure_eq_ok]
  rw [if_neg (by simp), jsMod, if_neg htick]
  simp only [jsOk_bind, jsPure_eq_ok]
  rfl

/-- Any successful bid-ask call returns a descending-sorted bid side and an
ascending-sorted ask side carrying exactly the grid prices. -/
theorem getBidAsk_ok_shape (minFeesBps startPrice endPrice bestAskPrice
    pricePrecision sizePrecision : ℤ) (qd bd : ℕ) (tickSize minSize : ℤ)
    (quoteL baseL : Option ℤ) (mpp : Option ℕ) (htick : tickSize ≠ 0)
    (res : BatchLPResult)
    (hok : getBidAskBatchLPDetails minFeesBps startPrice endPrice bestAskPrice
      pricePrecision sizePrecision qd bd tickSize minSize quoteL baseL mpp =
      .ok res) :
    ∃ outB outA : List Position,
      res.batchLPDetails.bids = sortByPriceDesc outB ∧
      res.batchLPDetails.asks = sortByPriceAsc outA ∧
      outB.map Position.price =
        (spotWalk minFeesBps startPrice endPrice bestAskPrice tickSize).1.map
          Position.price ∧
      outA.map Position.price =
        (spotAskGrid minFeesBps startPrice endPrice bestAskPrice tickSize).map
          Position.price := by
  have hpre : priceRangeCheck minFeesBps startPrice endPrice mpp = .ok () := by
    cases hp : priceRangeCheck minFeesBps startPrice endPrice mpp with
    | error e =>
      rw [getBidAskBatchLPDetails, hp] at hok
      exact absurd hok (by simp)
    | ok u => cases u; rfl
  cases quoteL with
  | some Q =>
    rw [getBidAsk_quote_unfold minFeesBps startPrice endPrice bestAskPrice
      pricePrecision sizePrecision qd bd tickSize minSize Q baseL mpp htick
      hpre] at hok
    dsimp only at hok
    split at hok <;>
    · obtain ⟨ub, hub, hok⟩ := bind_ok_inv hok
      split at hok <;>
      · obtain ⟨ua, hua, hok⟩ := bind_ok_inv hok
        obtain ⟨outBids, hob, hok⟩ := bind_ok_inv hok
        obtain ⟨outAsks, hoa, hok⟩ := bind_ok_inv hok
        obtain ⟨summary, hsum, hok⟩ := bind_ok_inv hok
        rw [Except.ok.injEq] at hok
        subst hok
        exact ⟨outBids.1, outAsks.1, rfl, rfl,
          bidAskQuoteBids_prices _ _ _ _ _ _ _ _ outBids hob,
          bidAskQuoteAsks_prices _ _ _ _ _ _ _ _ outAsks hoa⟩
  | none =>
    cases baseL with
    | none =>
      rw [getBidAskBatchLPDetails, hpre] at hok
      simp [throw, throwThe, MonadExceptOf.throw, jsError_bind,
        jsOk_bind, jsPure_eq_ok] at hok
    | some B =>
      rw [getBidAsk_base_unfold minFeesBps startPrice endPrice bestAskPrice
        pricePrecision sizePrecision qd bd tickSize minSize B mpp htick hpre]
        at hok
      dsimp only at hok
      split at hok
      · exact absurd hok
          (by simp [throw, throwThe, MonadExceptOf.throw, jsError_bind])
      · simp only [jsPure_eq_ok, jsOk_bind] at hok
        cases hgrid : spotAskGrid minFeesBps startPrice endPrice bestAskPrice
            tickSize with
        | nil =>
          rw [hgrid] at hok
          exact absurd hok
            (by simp [throw, throwThe, MonadExceptOf.throw, jsError_bind])
        | cons closestAsk restAsks =>
          rw [hgrid] at hok
          dsimp only at hok
          obtain ⟨wsum, hws, hok⟩ := bind_ok_inv hok
          obtain ⟨bca, hbca, hok⟩ := bind_ok_inv hok
          obtain ⟨outAsks, hoa, hok⟩ := bind_ok_inv hok
          have tail2 : ∀ afterBids1 q2 f2,
              res.batchLPDetails =
                ⟨sortByPriceDesc afterBids1, sortByPriceAsc outAsks.1, q2, B,
                  outAsks.2.2 || f2⟩ →
              afterBids1.map Position.price =
                (spotWalk minFeesBps startPrice endPrice bestAskPrice
                  tickSize).1.map Position.price →
              ∃ outB outA : List Position,
                res.batchLPDetails.bids = sortByPriceDesc outB ∧
                res.batchLPDetails.asks = sortByPriceAsc outA ∧
                outB.map Position.price =
                  (spotWalk minFeesBps startPrice endPrice bestAskPrice
                    tickSize).1.map Position.price ∧
                outA.map Position.price =
                  (closestAsk :: restAsks).map Position.price := by
            intro afterBids1 q2 f2 hres hmap
            have hap : outAsks.1.map Position.price =
                (closestAsk :: restAsks).map Position.price :=
              bidAskBaseAsks_prices _ _ _ _ _ _ _ _ _ outAsks hoa
            refine ⟨afterBids1, outAsks.1, ?_, ?_, hmap, hap⟩
            · rw [hres]
            · rw [hres]
          split at hok
          · obtain ⟨ub, hub, hok⟩ := bind_ok_inv hok
            obtain ⟨outBids, hob, hok⟩ := bind_ok_inv hok
            obtain ⟨summary, hsum, hok⟩ := bind_ok_inv hok
            rw [Except.ok.injEq] at hok
            subst hok
            exact tail2 outBids.1 outAsks.2.1 outBids.2 rfl
              (bidAskQuoteBids_prices _ _ _ _ _ _ _ _ outBids hob)
          · obtain ⟨summary, hsum, hok⟩ := bind_ok_inv hok
            rw [Except.ok.injEq] at hok
            subst hok
            exact tail2 _ 0 false rfl rfl

/-- C2, amended.  For double-exact inputs (below `2^53`) with a positive tick
and nonnegative fee: in every `BatchLPDetails` returned by any of the three
entry points, every price is a multiple of `tickSize`, every bid price is
strictly below `bestAskPrice`, every ask price is in
`[bestAskPrice, endPrice)`, the bid prices are strictly DECREASING in the
returned order (highest first) — not increasing as claimed — and the ask
prices are strictly decreasing for the spot entry point and strictly
increasing for the curve and bid-ask entry points. -/
theorem claim_C2_ladder_invariants (minFeesBps startPrice endPrice
    bestAskPrice pricePrecision sizePrecision : ℤ) (qd bd : ℕ)
    (tickSize minSize : ℤ) (quoteL baseL : Option ℤ) (mpp : Option ℕ)
    (hfee : 0 ≤ minFeesBps) (htick : 0 < tickSize) (hstart : 0 ≤ startPrice)
    (hba0 : 0 ≤ bestAskPrice) (hba : bestAskPrice < 2 ^ 53)
    (hend0 : 0 ≤ endPrice) (hend : endPrice < 2 ^ 53) :
    (∀ res, getSpotBatchLPDetails minFeesBps startPrice endPrice bestAskPrice
        pricePrecision sizePrecision qd bd tickSize minSize quoteL baseL mpp =
        .ok res →
      bidSideInvariant tickSize bestAskPrice res.batchLPDetails.bids ∧
      askSideInvariantDesc tickSize bestAskPrice endPrice
        res.batchLPDetails.asks) ∧
    (∀ res, getCurveBatchLPDetails minFeesBps startPrice endPrice bestAskPrice
        pricePrecision sizePrecision qd bd tickSize minSize quoteL baseL mpp =
        .ok res →
      bidSideInvariant tickSize bestAskPrice res.batchLPDetails.bids ∧
      askSideInvariantAsc tickSize bestAskPrice endPrice
        res.batchLPDetails.asks) ∧
    (∀ res, getBidAskBatchLPDetails minFeesBps startPrice endPrice
        bestAskPrice pricePrecision sizePrecision qd bd tickSize minSize
        quoteL baseL mpp = .ok res →
      bidSideInvariant tickSize bestAskPrice res.batchLPDetails.bids ∧
      askSideInvariantAsc tickSize bestAskPrice endPrice
        res.batchLPDetails.asks) := by
  obtain ⟨hbfacts, hbpw, hafacts, hapw⟩ := spotGrid_price_facts minFeesBps
    startPrice endPrice bestAskPrice tickSize hfee htick hstart hba0 hba
    hend0 hend
  refine ⟨?_, ?_, ?_⟩
  · intro res hok
    obtain ⟨outB, outA, hb, ha, hbm, ham⟩ := getSpot_ok_shape minFeesBps
      startPrice endPrice bestAskPrice pricePrecision sizePrecision qd bd
      tickSize minSize quoteL baseL mpp (ne_of_gt htick) res hok
    rw [bidSideInvariant, askSideInvariantDesc, hb, ha]
    exact ⟨sortDesc_price_facts hbm _ hbfacts hbpw,
      sortDesc_price_facts ham _ hafacts hapw⟩
  · intro res hok
    obtain ⟨outB, outA, hb, ha, hbm, ham⟩ := getCurve_ok_shape minFeesBps
      startPrice endPrice bestAskPrice pricePrecision sizePrecision qd bd
      tickSize minSize quoteL baseL mpp (ne_of_gt htick) res hok
    rw [bidSideInvariant, askSideInvariantAsc, hb, ha]
    exact ⟨sortDesc_price_facts hbm _ hbfacts hbpw,
      sortAsc_price_facts ham _ hafacts hapw⟩
  · intro res hok
    obtain ⟨outB, outA, hb, ha, hbm, ham⟩ := getBidAsk_ok_shape minFeesBps
      startPrice endPrice bestAskPrice pricePrecision sizePrecision qd bd
      tickSize minSize quoteL baseL mpp (ne_of_gt htick) res hok
    rw [bidSideInvariant, askSideInvariantAsc, hb, ha]
    exact ⟨sortDesc_price_facts hbm _ hbfacts hbpw,
      sortAsc_price_facts ham _ hafacts hapw⟩

/-- Witness for the amended C2 on a concrete spot call producing three bids. -/
theorem claim_C2_witness :
    (∀ res, getSpotBatchLPDetails 0 1 4 4 1 1 0 0 1 0 (some 5) none none =
        .ok res →
      bidSideInvariant 1 4 res.batchLPDetails.bids ∧
      askSideInvariantDesc 1 4 4 res.batchLPDetails.asks) ∧
    (∀ res, getCurveBatchLPDetails 0 1 4 4 1 1 0 0 1 0 (some 5) none none =
        .ok res →
      bidSideInvariant 1 4 res.batchLPDetails.bids ∧
      askSideInvariantAsc 1 4 4 res.batchLPDetails.asks) ∧
    (∀ res, getBidAskBatchLPDetails 0 1 4 4 1 1 0 0 1 0 (some 5) none none =
        .ok res →
      bidSideInvariant 1 4 res.batchLPDetails.bids ∧
      askSideInvariantAsc 1 4 4 res.batchLPDetails.asks) :=
  claim_C2_ladder_invariants 0 1 4 4 1 1 0 0 1 0 (some 5) none none
    (by decide) (by decide) (by decide) (by decide) (by decide) (by decide)
    (by decide)

/-- Counterexample to C2 as stated: the spot ladder at these inputs returns
its bids highest-price-first, `[3, 2, 1]`, which is not strictly
increasing. -/
theorem claim_C2_counterexample :
    (getSpotBatchLPDetails 0 1 4 4 1 1 0 0 1 0 (some 5) none none).map
      (fun r => r.batchLPDetails.bids.map Position.price) = .ok [3, 2, 1] ∧
    ¬ List.Pairwise (fun a b : ℤ => a < b) [3, 2, 1] := by decide

/-- C6, amended.  The two generation loops always terminate, but their joint
iteration count is bounded by the width of the price range in ticks — every
step advances the walk by at least one tick — NOT by `maxPricePoints`: for
double-exact inputs, any successful spot call returns at most
`endPrice - alignedStart` positions in total. -/
theorem claim_C6_position_count_bound (minFeesBps startPrice endPrice
    bestAskPrice pricePrecision sizePrecision : ℤ) (qd bd : ℕ)
    (tickSize minSize : ℤ) (quoteL baseL : Option ℤ) (mpp : Option ℕ)
    (hfee : 0 ≤ minFeesBps) (htick : 0 < tickSize) (hstart : 0 ≤ startPrice)
    (hba0 : 0 ≤ bestAskPrice) (hba : bestAskPrice < 2 ^ 53)
    (hend0 : 0 ≤ endPrice) (hend : endPrice < 2 ^ 53) :
    ∀ res, getSpotBatchLPDetails minFeesBps startPrice endPrice bestAskPrice
        pricePrecision sizePrecision qd bd tickSize minSize quoteL baseL mpp =
        .ok res →
      res.batchLPDetails.bids.length + res.batchLPDetails.asks.length ≤
        (endPrice - (startPrice - startPrice.tmod tickSize)).toNat := by
  intro res hok
  obtain ⟨hmem, hpw, hfin, hsw, hamem, hapw⟩ := spotGrid_facts minFeesBps
    startPrice endPrice bestAskPrice tickSize hfee htick hstart hba0 hba
    hend0 hend
  obtain ⟨outB, outA, hb, ha, hbm, ham⟩ := getSpot_ok_shape minFeesBps
    startPrice endPrice bestAskPrice pricePrecision sizePrecision qd bd
    tickSize minSize quoteL baseL mpp (ne_of_gt htick) res hok
  have hcombined : ((spotWalk minFeesBps startPrice endPrice bestAskPrice
      tickSize).1.map Position.price ++
      (spotAskGrid minFeesBps startPrice endPrice bestAskPrice tickSize).map
        Position.price).Pairwise (· < ·) := by
    rw [List.pairwise_append]
    refine ⟨hpw, hapw, ?_⟩
    intro a hain b hbin
    obtain ⟨p, hpmem, hpa⟩ := List.mem_map.mp hain
    obtain ⟨q, hqmem, hqb⟩ := List.mem_map.mp hbin
    obtain ⟨_, _, _, h4⟩ := hmem p hpmem
    obtain ⟨_, h2, _⟩ := hamem q hqmem
    subst hpa
    subst hqb
    linarith
  have hrange : ∀ x ∈ (spotWalk minFeesBps startPrice endPrice bestAskPrice
      tickSize).1.map Position.price ++
      (spotAskGrid minFeesBps startPrice endPrice bestAskPrice tickSize).map
        Position.price,
      startPrice - startPrice.tmod tickSize ≤ x ∧ x < endPrice := by
    intro x hx
    rcases List.mem_append.mp hx with hx | hx
    · obtain ⟨p, hpmem, hpx⟩ := List.mem_map.mp hx
      obtain ⟨_, h2, h3, _⟩ := hmem p hpmem
      subst hpx
      constructor
      · exact h2
      · omega
    · obtain ⟨p, hpmem, hpx⟩ := List.mem_map.mp hx
      obtain ⟨_, h2, h3⟩ := hamem p hpmem
      subst hpx
      exact ⟨by linarith, h3⟩
  have hcount := pairwise_lt_length_le _ _ _ hcombined hrange
  rw [List.length_append, List.length_map, List.length_map] at hcount
  have hlb : res.batchLPDetails.bids.length =
      (spotWalk minFeesBps startPrice endPrice bestAskPrice tickSize).1.length := by
    rw [hb, (sortByPriceDesc_perm outB).length_eq]
    have := congrArg List.length hbm
    simpa using this
  have hla : res.batchLPDetails.asks.length =
      (spotAskGrid minFeesBps startPrice endPrice bestAskPrice
        tickSize).length := by
    rw [ha, (sortByPriceDesc_perm outA).length_eq]
    have := congrArg List.length ham
    simpa using this
  omega

/-- Witness for the amended C6: the two-position ladder below stays within
the `(endPrice - alignedStart)` bound. -/
theorem claim_C6_witness :
    ((⟨⟨[⟨20000, 80000, 25⟩, ⟨10000, 40000, 50⟩], [], 1000000, 0, false⟩,
      ⟨[⟨20000, 80000, 0⟩, ⟨10000, 40000, 0⟩], [], 0, 0⟩⟩ :
      BatchLPResult)).batchLPDetails.bids.length +
      ((⟨⟨[⟨20000, 80000, 25⟩, ⟨10000, 40000, 50⟩], [], 1000000, 0, false⟩,
        ⟨[⟨20000, 80000, 0⟩, ⟨10000, 40000, 0⟩], [], 0, 0⟩⟩ :
        BatchLPResult)).batchLPDetails.asks.length ≤
      ((39997 : ℤ) - (19999 - (19999 : ℤ).tmod 10000)).toNat :=
  claim_C6_position_count_bound 10000 19999 39997 39997 1 1 0 0 10000 0
    (some 1000000) none (some 1) (by decide) (by decide) (by decide)
    (by decide) (by decide) (by decide) (by decide)
    ⟨⟨[⟨20000, 80000, 25⟩, ⟨10000, 40000, 50⟩], [], 1000000, 0, false⟩,
      ⟨[⟨20000, 80000, 0⟩, ⟨10000, 40000, 0⟩], [], 0, 0⟩⟩ (by decide)

/-- Counterexample to C6 as stated: with `maxPricePoints = 1` the range
pre-check passes (`⌊19999·2⌋ = 39998 > 39997`), yet tick alignment of the
start price (`19999 → 10000`) lets the loops emit two positions. -/
theorem claim_C6_counterexample :
    priceRangeCheck 10000 19999 39997 (some 1) = .ok () ∧
    (getSpotBatchLPDetails 10000 19999 39997 39997 1 1 0 0 10000 0
      (some 1000000) none (some 1)).map
      (fun r => r.batchLPDetails.bids.length + r.batchLPDetails.asks.length) =
      .ok 2 ∧
    ¬ (2 ≤ 1) := by decide

/-- On the spot quote-only branch, `minSizeError` is true iff some grid
position's RAW allotted size — `quotePerTick` converted at its price, before
`normalizeBidSize` — is strictly below `minSize`. -/
theorem getSpotQuote_minSizeError_iff (minFeesBps startPrice endPrice
    bestAskPrice pricePrecision sizePrecision : ℤ) (qd bd : ℕ)
    (tickSize minSize Q : ℤ) (mpp : Option ℕ) (htick : 0 < tickSize) :
    ∀ res, getSpotBatchLPDetails minFeesBps startPrice endPrice bestAskPrice
        pricePrecision sizePrecision qd bd tickSize minSize (some Q) none
        mpp = .ok res →
      (res.batchLPDetails.minSizeError = true ↔
        ∃ p ∈ (spotWalk minFeesBps startPrice endPrice bestAskPrice
            tickSize).1 ++
          spotAskGrid minFeesBps startPrice endPrice bestAskPrice tickSize,
          spotRawSize
            (Q.tdiv ((spotWalk minFeesBps startPrice endPrice bestAskPrice
              tickSize).1.length : ℤ))
            sizePrecision pricePrecision p.price qd < minSize) := by
  intro res hok
  have hpre : priceRangeCheck minFeesBps startPrice endPrice mpp = .ok () := by
    cases hp : priceRangeCheck minFeesBps startPrice endPrice mpp with
    | error e =>
      rw [getSpotBatchLPDetails, hp] at hok
      exact absurd hok (by simp)
    | ok u => cases u; rfl
  rw [getSpot_quote_unfold minFeesBps startPrice endPrice bestAskPrice
    pricePrecision sizePrecision qd bd tickSize minSize Q mpp
    (ne_of_gt htick) hpre] at hok
  obtain ⟨qpt, hqpt, hok⟩ := bind_ok_inv hok
  obtain ⟨outBids, hob, hok⟩ := bind_ok_inv hok
  obtain ⟨outAsks, hoa, hok⟩ := bind_ok_inv hok
  obtain ⟨summary, hsum, hok⟩ := bind_ok_inv hok
  rw [Except.ok.injEq] at hok
  subst hok
  obtain ⟨hnum, hqv⟩ := jsDiv_ok hqpt
  subst hqv
  obtain ⟨_, hbf, _⟩ := spotQuoteBids_ok_spec _ _ _ _ _ _ outBids.1 outBids.2
    (by rw [hob])
  obtain ⟨_, haf, _⟩ := spotQuoteAsks_ok_spec _ _ _ _ _ _ _ outAsks.1
    outAsks.2.1 outAsks.2.2 (by rw [hoa])
  constructor
  · intro h
    rcases (by simpa using h : outBids.2 = true ∨ outAsks.2.2 = true)
        with h2 | h2
    · obtain ⟨p, hpmem, hplt⟩ := hbf.mp h2
      exact ⟨p, List.mem_append_left _ hpmem, hplt⟩
    · obtain ⟨p, hpmem, hplt⟩ := haf.mp h2
      exact ⟨p, List.mem_append_right _ hpmem, hplt⟩
  · rintro ⟨p, hpmem, hplt⟩
    rcases List.mem_append.mp hpmem with hp | hp
    · have h2 : outBids.2 = true ∨ outAsks.2.2 = true :=
        Or.inl (hbf.mpr ⟨p, hp, hplt⟩)
      simpa using h2
    · have h2 : outBids.2 = true ∨ outAsks.2.2 = true :=
        Or.inr (haf.mpr ⟨p, hp, hplt⟩)
      simpa using h2

theorem mem_sortByPriceDesc {p : Position} {l : List Position} :
    p ∈ sortByPriceDesc l ↔ p ∈ l := (sortByPriceDesc_perm l).mem_iff

theorem mem_sortByPriceAsc {p : Position} {l : List Position} :
    p ∈ sortByPriceAsc l ↔ p ∈ l := (sortByPriceAsc_perm l).mem_iff

/-- The bid-ask bid loop's flag tests the POST-normalization liquidity, so it
is set iff some emitted bid's returned liquidity is under `minSize`. -/
theorem bidAskQuoteBids_flag (u P S n : ℤ) (qd : ℕ) (mS : ℤ) :
    ∀ l (i : ℕ) out flag,
      bidAskQuoteBids u P S n qd mS i l = .ok (out, flag) →
      (flag = true ↔ ∃ q ∈ out, q.liquidity < mS) := by
  intro l
  induction l with
  | nil =>
    intro i out flag h
    rw [bidAskQuoteBids, Except.ok.injEq] at h
    obtain ⟨h1, h2⟩ := Prod.ext_iff.mp h.symm
    simp only at h1 h2
    subst h1
    subst h2
    simp
  | cons b rest ih =>
    intro i out flag h
    rw [bidAskQuoteBids] at h
    obtain ⟨bs, hbs, h⟩ := bind_ok_inv h
    obtain ⟨liq, hliq, h⟩ := bind_ok_inv h
    obtain ⟨tl, htl, h⟩ := bind_ok_inv h
    rw [Except.ok.injEq] at h
    obtain ⟨h1, h2⟩ := Prod.ext_iff.mp h.symm
    simp only at h1 h2
    subst h1
    subst h2
    have ihf := ih (i + 1) tl.1 tl.2 (by rw [htl])
    constructor
    · intro hf
      rcases (by simpa using hf : liq < mS ∨ tl.2 = true) with hc | hc
      · exact ⟨_, List.mem_cons_self _ _, hc⟩
      · obtain ⟨q, hq, hql⟩ := ihf.mp hc
        exact ⟨q, List.mem_cons_of_mem _ hq, hql⟩
    · rintro ⟨q, hq, hql⟩
      rcases List.mem_cons.mp hq with hq | hq
      · subst hq
        simp only [Bool.or_eq_true, decide_eq_true_eq]
        exact Or.inl hql
      · simp only [Bool.or_eq_true]
        exact Or.inr (ihf.mpr ⟨q, hq, hql⟩)

/-- The bid-ask quote-branch ask loop's flag is set iff some emitted ask's
returned liquidity is under `minSize`. -/
theorem bidAskQuoteAsks_flag (u P S : ℤ) (qd bd : ℕ) (mS : ℤ) :
    ∀ l (i : ℕ) out base flag,
      bidAskQuoteAsks u P S qd bd mS i l = .ok (out, base, flag) →
      (flag = true ↔ ∃ q ∈ out, q.liquidity < mS) := by
  intro l
  induction l with
  | nil =>
    intro i out base flag h
    rw [bidAskQuoteAsks, Except.ok.injEq] at h
    obtain ⟨h1, h23⟩ := Prod.ext_iff.mp h.symm
    obtain ⟨h2, h3⟩ := Prod.ext_iff.mp h23
    simp only at h1 h2 h3
    subst h1
    subst h3
    simp
  | cons a rest ih =>
    intro i out base flag h
    rw [bidAskQuoteAsks] at h
    obtain ⟨liq, hliq, h⟩ := bind_ok_inv h
    obtain ⟨contrib, hcn, h⟩ := bind_ok_inv h
    obtain ⟨tl, htl, h⟩ := bind_ok_inv h
    rw [Except.ok.injEq] at h
    obtain ⟨h1, h23⟩ := Prod.ext_iff.mp h.symm
    obtain ⟨h2, h3⟩ := Prod.ext_iff.mp h23
    simp only at h1 h2 h3
    subst h1
    subst h3
    have ihf := ih (i + 1) tl.1 tl.2.1 tl.2.2 (by rw [htl])
    constructor
    · intro hf
      rcases (by simpa using hf : liq < mS ∨ tl.2.2 = true) with hc | hc
      · exact ⟨_, List.mem_cons_self _ _, hc⟩
      · obtain ⟨q, hq, hql⟩ := ihf.mp hc
        exact ⟨q, List.mem_cons_of_mem _ hq, hql⟩
    · rintro ⟨q, hq, hql⟩
      rcases List.mem_cons.mp hq with hq | hq
      · subst hq
        simp only [Bool.or_eq_true, decide_eq_true_eq]
        exact Or.inl hql
      · simp only [Bool.or_eq_true]
        exact Or.inr (ihf.mpr ⟨q, hq, hql⟩)

/-- The bid-ask base-branch ask loop's flag is set iff some emitted ask's
returned liquidity is under `minSize`. -/
theorem bidAskBaseAsks_flag (b c S P : ℤ) (qd bd : ℕ) (mS : ℤ) :
    ∀ l (i : ℕ) out base flag,
      bidAskBaseAsks b c S P qd bd mS i l = .ok (out, base, flag) →
      (flag = true ↔ ∃ q ∈ out, q.liquidity < mS) := by
  intro l
  induction l with
  | nil =>
    intro i out base flag h
    rw [bidAskBaseAsks, Except.ok.injEq] at h
    obtain ⟨h1, h23⟩ := Prod.ext_iff.mp h.symm
    obtain ⟨h2, h3⟩ := Prod.ext_iff.mp h23
    simp only at h1 h2 h3
    subst h1
    subst h3
    simp
  | cons a rest ih =>
    intro i out base flag h
    rw [bidAskBaseAsks] at h
    obtain ⟨bfa, hbfa, h⟩ := bind_ok_inv h
    obtain ⟨liq, hliq, h⟩ := bind_ok_inv h
    obtain ⟨qfa, hqfa, h⟩ := bind_ok_inv h
    obtain ⟨tl, htl, h⟩ := bind_ok_inv h
    rw [Except.ok.injEq] at h
    obtain ⟨h1, h23⟩ := Prod.ext_iff.mp h.symm
    obtain ⟨h2, h3⟩ := Prod.ext_iff.mp h23
    simp only at h1 h2 h3
    subst h1
    subst h3
    have ihf := ih (i + 1) tl.1 tl.2.1 tl.2.2 (by rw [htl])
    constructor
    · intro hf
      rcases (by simpa using hf : liq < mS ∨ tl.2.2 = true) with hc | hc
      · exact ⟨_, List.mem_cons_self _ _, hc⟩
      · obtain ⟨q, hq, hql⟩ := ihf.mp hc
        exact ⟨q, List.mem_cons_of_mem _ hq, hql⟩
    · rintro ⟨q, hq, hql⟩
      rcases List.mem_cons.mp hq with hq | hq
      · subst hq
        simp only [Bool.or_eq_true, decide_eq_true_eq]
        exact Or.inl hql
      · simp only [Bool.or_eq_true]
        exact Or.inr (ihf.mpr ⟨q, hq, hql⟩)

/-- Two per-side flag characterizations combine into the whole-ladder one,
through the sorts on each side. -/
theorem minSizeFlag_combine {b1 b2 : Bool} {l1 l2 : List Position} {mS : ℤ}
    (h1 : b1 = true ↔ ∃ q ∈ l1, q.liquidity < mS)
    (h2 : b2 = true ↔ ∃ q ∈ l2, q.liquidity < mS) :
    ((b1 || b2) = true ↔
      ∃ p ∈ sortByPriceDesc l1 ++ sortByPriceAsc l2, p.liquidity < mS) := by
  rw [Bool.or_eq_true, h1, h2]
  constructor
  · rintro (⟨q, hq, hql⟩ | ⟨q, hq, hql⟩)
    · exact ⟨q, List.mem_append_left _ (mem_sortByPriceDesc.mpr hq), hql⟩
    · exact ⟨q, List.mem_append_right _ (mem_sortByPriceAsc.mpr hq), hql⟩
  · rintro ⟨q, hq, hql⟩
    rcases List.mem_append.mp hq with hq | hq
    · exact Or.inl ⟨q, mem_sortByPriceDesc.mp hq, hql⟩
    · exact Or.inr ⟨q, mem_sortByPriceAsc.mp hq, hql⟩

theorem minSizeFlag_combine_swap {ba bb : Bool} {lb la : List Position}
    {mS : ℤ} (hb : bb = true ↔ ∃ q ∈ lb, q.liquidity < mS)
    (ha : ba = true ↔ ∃ q ∈ la, q.liquidity < mS) :
    ((ba || bb) = true ↔
      ∃ p ∈ sortByPriceDesc lb ++ sortByPriceAsc la, p.liquidity < mS) := by
  rw [Bool.or_comm]
  exact minSizeFlag_combine hb ha

/-- In the bid-ask entry point the claimed iff holds verbatim: every flag test
is on the post-normalization returned liquidity, on both sides and branches. -/
theorem getBidAsk_minSizeError_iff (minFeesBps startPrice endPrice bestAskPrice
    pricePrecision sizePrecision : ℤ) (qd bd : ℕ) (tickSize minSize : ℤ)
    (quoteL baseL : Option ℤ) (mpp : Option ℕ) (htick : tickSize ≠ 0)
    (res : BatchLPResult)
    (hok : getBidAskBatchLPDetails minFeesBps startPrice endPrice bestAskPrice
      pricePrecision sizePrecision qd bd tickSize minSize quoteL baseL mpp =
      .ok res) :
    res.batchLPDetails.minSizeError = true ↔
      ∃ p ∈ res.batchLPDetails.bids ++ res.batchLPDetails.asks,
        p.liquidity < minSize := by
  have hpre : priceRangeCheck minFeesBps startPrice endPrice mpp = .ok () := by
    cases hp : priceRangeCheck minFeesBps startPrice endPrice mpp with
    | error e =>
      rw [getBidAskBatchLPDetails, hp] at hok
      exact absurd hok (by simp)
    | ok u => cases u; rfl
  cases quoteL with
  | some Q =>
    rw [getBidAsk_quote_unfold minFeesBps startPrice endPrice bestAskPrice
      pricePrecision sizePrecision qd bd tickSize minSize Q baseL mpp htick
      hpre] at hok
    dsimp only at hok
    split at hok <;>
    · obtain ⟨ub, hub, hok⟩ := bind_ok_inv hok
      split at hok <;>
      · obtain ⟨ua, hua, hok⟩ := bind_ok_inv hok
        obtain ⟨outBids, hob, hok⟩ := bind_ok_inv hok
        obtain ⟨outAsks, hoa, hok⟩ := bind_ok_inv hok
        obtain ⟨summary, hsum, hok⟩ := bind_ok_inv hok
        rw [Except.ok.injEq] at hok
        subst hok
        have hbf := bidAskQuoteBids_flag _ _ _ _ _ _ _ _ outBids.1 outBids.2
          (by rw [hob])
        have haf := bidAskQuoteAsks_flag _ _ _ _ _ _ _ _ outAsks.1 outAsks.2.1
          outAsks.2.2 (by rw [hoa])
        exact minSizeFlag_combine hbf haf
  | none =>
    cases baseL with
    | none =>
      rw [getBidAskBatchLPDetails, hpre] at hok
      simp [throw, throwThe, MonadExceptOf.throw, jsError_bind,
        jsOk_bind, jsPure_eq_ok] at hok
    | some B =>
      rw [getBidAsk_base_unfold minFeesBps startPrice endPrice bestAskPrice
        pricePrecision sizePrecision qd bd tickSize minSize B mpp htick hpre]
        at hok
      dsimp only at hok
      split at hok
      · exact absurd hok
          (by simp [throw, throwThe, MonadExceptOf.throw, jsError_bind])
      · simp only [jsPure_eq_ok, jsOk_bind] at hok
        cases hgrid : spotAskGrid minFeesBps startPrice endPrice bestAskPrice
            tickSize with
        | nil =>
          rw [hgrid] at hok
          exact absurd hok
            (by simp [throw, throwThe, MonadExceptOf.throw, jsError_bind])
        | cons closestAsk restAsks =>
          rw [hgrid] at hok
          dsimp only at hok
          obtain ⟨wsum, hws, hok⟩ := bind_ok_inv hok
          obtain ⟨bca, hbca, hok⟩ := bind_ok_inv hok
          obtain ⟨outAsks, hoa, hok⟩ := bind_ok_inv hok
          have haf := bidAskBaseAsks_flag _ _ _ _ _ _ _ _ _ outAsks.1
            outAsks.2.1 outAsks.2.2 (by rw [hoa])
          split at hok
          · obtain ⟨ub, hub, hok⟩ := bind_ok_inv hok
            obtain ⟨outBids, hob, hok⟩ := bind_ok_inv hok
            obtain ⟨summary, hsum, hok⟩ := bind_ok_inv hok
            rw [Except.ok.injEq] at hok
            subst hok
            have hbf := bidAskQuoteBids_flag _ _ _ _ _ _ _ _ outBids.1
              outBids.2 (by rw [hob])
            exact minSizeFlag_combine_swap hbf haf
          · rename_i hlen
            obtain ⟨summary, hsum, hok⟩ := bind_ok_inv hok
            rw [Except.ok.injEq] at hok
            subst hok
            have hlen0 : (spotWalk minFeesBps startPrice endPrice bestAskPrice
                tickSize).1.length = 0 := by omega
            have hnil := List.length_eq_zero.mp hlen0
            have hfalse : (false : Bool) = true ↔
                ∃ q ∈ (spotWalk minFeesBps startPrice endPrice bestAskPrice
                  tickSize).1, q.liquidity < minSize := by
              rw [hnil]
              simp
            exact minSizeFlag_combine_swap hfalse haf

/-- C4, amended.  `minSizeError` is a flag on successful returns; no error is
thrown for an undersized position.  For `getBidAskBatchLPDetails` the claimed
iff holds verbatim in every branch: the flag is true iff some position in the
returned ladder has liquidity strictly below `minSize`, because every check
there tests the post-normalization liquidity.  For `getSpotBatchLPDetails`
(and likewise the curve entry point) the bid-side check instead tests the RAW
pre-normalization `bidSize`: on the spot quote-only branch the flag is true
iff some grid position's raw `quotePerTick` conversion is below `minSize`, so
a returned bid's liquidity can be under `minSize` while the flag is false
(raw size 6 ≥ 3 normalizes to 2 < 3; the counterexample shows the same
divergence for the curve entry point). -/
theorem claim_C4_minSizeError_semantics (minFeesBps startPrice endPrice
    bestAskPrice pricePrecision sizePrecision : ℤ) (qd bd : ℕ)
    (tickSize minSize Q : ℤ) (quoteL baseL : Option ℤ) (mpp : Option ℕ)
    (htick : 0 < tickSize) :
    (∀ res, getBidAskBatchLPDetails minFeesBps startPrice endPrice bestAskPrice
        pricePrecision sizePrecision qd bd tickSize minSize quoteL baseL mpp =
        .ok res →
      (res.batchLPDetails.minSizeError = true ↔
        ∃ p ∈ res.batchLPDetails.bids ++ res.batchLPDetails.asks,
          p.liquidity < minSize)) ∧
    (∀ res, getSpotBatchLPDetails minFeesBps startPrice endPrice bestAskPrice
        pricePrecision sizePrecision qd bd tickSize minSize (some Q) none
        mpp = .ok res →
      (res.batchLPDetails.minSizeError = true ↔
        ∃ p ∈ (spotWalk minFeesBps startPrice endPrice bestAskPrice
            tickSize).1 ++
          spotAskGrid minFeesBps startPrice endPrice bestAskPrice tickSize,
          spotRawSize
            (Q.tdiv ((spotWalk minFeesBps startPrice endPrice bestAskPrice
              tickSize).1.length : ℤ))
            sizePrecision pricePrecision p.price qd < minSize)) :=
  ⟨fun res hok => getBidAsk_minSizeError_iff minFeesBps startPrice endPrice
      bestAskPrice pricePrecision sizePrecision qd bd tickSize minSize quoteL
      baseL mpp (ne_of_gt htick) res hok,
    getSpotQuote_minSizeError_iff minFeesBps startPrice endPrice bestAskPrice
      pricePrecision sizePrecision qd bd tickSize minSize Q mpp htick⟩

/-- Witness for the amended C4 at the counterexample input: the bid-ask call
sets the flag (its returned bid has liquidity `2 < 3`), while the spot call
leaves it false (the raw size `6` is not below `3`). -/
theorem claim_C4_witness :
    (((⟨⟨[⟨3, 9, 2⟩], [], 2, 0, true⟩, ⟨[⟨3, 9, 0⟩], [], 0, 0⟩⟩ :
        BatchLPResult)).batchLPDetails.minSizeError = true ↔
      ∃ p ∈ ((⟨⟨[⟨3, 9, 2⟩], [], 2, 0, true⟩, ⟨[⟨3, 9, 0⟩], [], 0, 0⟩⟩ :
          BatchLPResult)).batchLPDetails.bids ++
        ((⟨⟨[⟨3, 9, 2⟩], [], 2, 0, true⟩, ⟨[⟨3, 9, 0⟩], [], 0, 0⟩⟩ :
          BatchLPResult)).batchLPDetails.asks, p.liquidity < 3) ∧
    (((⟨⟨[⟨3, 9, 2⟩], [], 2, 0, false⟩, ⟨[⟨3, 9, 0⟩], [], 0, 0⟩⟩ :
        BatchLPResult)).batchLPDetails.minSizeError = true ↔
      ∃ p ∈ (spotWalk 0 3 4 4 3).1 ++ spotAskGrid 0 3 4 4 3,
        spotRawSize ((2 : ℤ).tdiv ((spotWalk 0 3 4 4 3).1.length : ℤ))
          10 1 p.price 0 < 3) :=
  ⟨(claim_C4_minSizeError_semantics 0 3 4 4 1 10 0 0 3 3 2 (some 2) none none
      (by decide)).1
    ⟨⟨[⟨3, 9, 2⟩], [], 2, 0, true⟩, ⟨[⟨3, 9, 0⟩], [], 0, 0⟩⟩ (by decide),
   (claim_C4_minSizeError_semantics 0 3 4 4 1 10 0 0 3 3 2 (some 2) none none
      (by decide)).2
    ⟨⟨[⟨3, 9, 2⟩], [], 2, 0, false⟩, ⟨[⟨3, 9, 0⟩], [], 0, 0⟩⟩ (by decide)⟩

/-- Counterexample to C4 as stated: at the same inputs both the spot and curve
entry points return a single bid with liquidity `2 < minSize = 3` (the raw
size `6` was reduced by `normalizeBidSize` after the check) while
`minSizeError` is false, and nothing is thrown. -/
theorem claim_C4_counterexample :
    (getSpotBatchLPDetails 0 3 4 4 1 10 0 0 3 3 (some 2) none none).map
      (fun r => (r.batchLPDetails.minSizeError,
        r.batchLPDetails.bids.map Position.liquidity)) = .ok (false, [2]) ∧
    (getCurveBatchLPDetails 0 3 4 4 1 10 0 0 3 3 (some 2) none none).map
      (fun r => (r.batchLPDetails.minSizeError,
        r.batchLPDetails.bids.map Position.liquidity)) = .ok (false, [2]) ∧
    (2 : ℤ) < 3 := by decide

/-- The quote-equivalent notional of a position: price times size, scaled
back through the precisions to quote-asset decimals. -/
def quoteValue (sizePrecision pricePrecision : ℤ) (qd : ℕ) (p : Position) : ℤ :=
  (p.price * p.liquidity * 10 ^ qd).tdiv (sizePrecision * pricePrecision)

/-- `normalizeBidSize` never increases a nonnegative size. -/
theorem sub_adjustment_le {p S s A : ℤ} (hp : 0 < p) (hS : 0 < S)
    (hAdef : mulDivUp 1 S p = .ok A) : s - A ≤ s := by
  have hA : S ≤ p * A := mulDivUp_one_mul_ge hS hp A hAdef
  have hApos : 0 ≤ A := by
    by_contra hneg
    push_neg at hneg
    have : p * A ≤ 0 := mul_nonpos_of_nonneg_of_nonpos hp.le hneg.le
    linarith
  omega

/-- `normalizeBidSize` never increases a nonnegative raw size. -/
theorem normalizeBidSize_le {p S s L : ℤ} (hp : 0 < p) (hS : 0 < S)
    (hs : 0 ≤ s) (hnorm : normalizeBidSize p S s = .ok L) : L ≤ s := by
  rw [normalizeBidSize, mulDivUp_ok_of_nonneg p s S hp.le hs hS] at hnorm
  have hfl : jsDiv (p * s) S = .ok ((p * s).tdiv S) := by
    rw [jsDiv, if_neg (ne_of_gt hS)]
  rw [hfl] at hnorm
  simp only [jsOk_bind] at hnorm
  split at hnorm
  · split at hnorm
    · obtain ⟨A, hAdef, hnorm⟩ := bind_ok_inv hnorm
      rw [jsPure_eq_ok, Except.ok.injEq] at hnorm
      rw [← hnorm]
      exact sub_adjustment_le hp hS hAdef
    · simp only [jsPure_eq_ok, Except.ok.injEq] at hnorm
      omega
  · split at hnorm
    · obtain ⟨A, hAdef, hnorm⟩ := bind_ok_inv hnorm
      rw [jsPure_eq_ok, Except.ok.injEq] at hnorm
      rw [← hnorm]
      exact sub_adjustment_le hp hS hAdef
    · simp only [jsPure_eq_ok, Except.ok.injEq] at hnorm
      omega

/-- Each allotted bid's quote-equivalent notional is at most `quotePerTick`. -/
theorem bid_quoteValue_le (qpt S P price L : ℤ) (qd : ℕ) (hq : 0 ≤ qpt)
    (hS : 0 < S) (hP : 0 < P) (hprice : 0 < price)
    (hnorm : normalizeBidSize price S (spotRawSize qpt S P price qd) = .ok L) :
    (price * L * 10 ^ qd).tdiv (S * P) ≤ qpt := by
  have hpow : (0 : ℤ) < 10 ^ qd := pow_pos (by decide) qd
  have hden : (0 : ℤ) < price * 10 ^ qd := mul_pos hprice hpow
  have hSP : (0 : ℤ) < S * P := mul_pos hS hP
  have hrawnn : 0 ≤ spotRawSize qpt S P price qd := by
    rw [spotRawSize]
    exact Int.tdiv_nonneg (by positivity) hden.le
  have hLle : L ≤ spotRawSize qpt S P price qd :=
    normalizeBidSize_le hprice hS hrawnn hnorm
  by_cases hL : 0 ≤ L
  · -- nonnegative size: move to Euclidean division and chain the bounds
    have hnum : (0 : ℤ) ≤ price * L * 10 ^ qd := by positivity
    rw [Int.tdiv_eq_ediv hnum hSP.le]
    have hraweq : spotRawSize qpt S P price qd =
        (qpt * S * P) / (price * 10 ^ qd) := by
      rw [spotRawSize, Int.tdiv_eq_ediv (by positivity) hden.le]
    have hrawle : spotRawSize qpt S P price qd * (price * 10 ^ qd) ≤
        qpt * S * P := by
      rw [hraweq]
      exact Int.ediv_mul_le _ (ne_of_gt hden)
    have hnumle : price * L * 10 ^ qd ≤ qpt * (S * P) := by
      have h1 : price * L * 10 ^ qd ≤
          price * spotRawSize qpt S P price qd * 10 ^ qd := by
        have := mul_le_mul_of_nonneg_right
          (mul_le_mul_of_nonneg_left hLle hprice.le) hpow.le
        linarith
      have h2 : price * spotRawSize qpt S P price qd * 10 ^ qd =
          spotRawSize qpt S P price qd * (price * 10 ^ qd) := by ring
      have h3 : qpt * S * P = qpt * (S * P) := by ring
      linarith
    have := Int.ediv_le_ediv hSP hnumle
    rw [Int.mul_ediv_cancel qpt (ne_of_gt hSP)] at this
    exact this
  · -- a negative normalized size contributes a nonpositive notional
    push_neg at hL
    have hnum : price * L * 10 ^ qd ≤ 0 := by
      have h1 : price * L < 0 := mul_neg_of_pos_of_neg hprice hL
      have := mul_nonpos_of_nonpos_of_nonneg h1.le hpow.le
      linarith
    have : (price * L * 10 ^ qd).tdiv (S * P) ≤ 0 := by
      have hneg : 0 ≤ -(price * L * 10 ^ qd) := by linarith
      have h2 : (0 : ℤ) ≤ (-(price * L * 10 ^ qd)).tdiv (S * P) :=
        Int.tdiv_nonneg hneg hSP.le
      have h3 : (-(price * L * 10 ^ qd)).tdiv (S * P) =
          -((price * L * 10 ^ qd).tdiv (S * P)) := Int.neg_tdiv _ _
      linarith
    linarith

/-- C1.  Bid-side quote conservation on the spot quote-only branch, amended:
the sum over the returned bids of the per-position quote-equivalent notional
`floor(price * liquidity * 10^quoteDecimals / (sizePrecision * pricePrecision))`
never EXCEEDS the requested quote liquidity, but it is not within one rounding
unit of it: each of the `numBids` grid levels is allotted only
`floor(quoteLiquidity / numBids)` and each allotment rounds down again through
the size conversion, so the shortfall can reach many units (see the
counterexample, where 5 requested yields a bid notional of 1). -/
theorem claim_C1_bid_conservation (minFeesBps startPrice endPrice bestAskPrice
    pricePrecision sizePrecision : ℤ) (qd bd : ℕ) (tickSize minSize Q : ℤ)
    (mpp : Option ℕ) (res : BatchLPResult) (hfee : 0 ≤ minFeesBps)
    (htick : 0 < tickSize) (hstart : tickSize ≤ startPrice) (hQ : 0 ≤ Q)
    (hS : 0 < sizePrecision) (hP : 0 < pricePrecision)
    (hok : getSpotBatchLPDetails minFeesBps startPrice endPrice bestAskPrice
      pricePrecision sizePrecision qd bd tickSize minSize (some Q) none mpp =
      .ok res) :
    (res.batchLPDetails.bids.map
      (quoteValue sizePrecision pricePrecision qd)).sum ≤ Q := by
  have hpre : priceRangeCheck minFeesBps startPrice endPrice mpp = .ok () := by
    cases hp : priceRangeCheck minFeesBps startPrice endPrice mpp with
    | error e => rw [getSpotBatchLPDetails, hp] at hok; exact absurd hok (by simp)
    | ok u => cases u; rfl
  rw [getSpot_quote_unfold minFeesBps startPrice endPrice bestAskPrice
    pricePrecision sizePrecision qd bd tickSize minSize Q mpp
    (ne_of_gt htick) hpre] at hok
  obtain ⟨qpt, hqpt, hok⟩ := bind_ok_inv hok
  obtain ⟨outBids, hob, hok⟩ := bind_ok_inv hok
  obtain ⟨outAsks, hoa, hok⟩ := bind_ok_inv hok
  obtain ⟨summary, hsum, hok⟩ := bind_ok_inv hok
  rw [Except.ok.injEq] at hok
  subst hok
  show ((sortByPriceDesc outBids.1).map
    (quoteValue sizePrecision pricePrecision qd)).sum ≤ Q
  obtain ⟨hlen0, hqv⟩ := jsDiv_ok hqpt
  have hlenpos : (0 : ℤ) < ((spotWalk minFeesBps startPrice endPrice
      bestAskPrice tickSize).1.length : ℤ) := by omega
  have hqpt0 : 0 ≤ qpt := by
    rw [hqv]
    exact Int.tdiv_nonneg hQ hlenpos.le
  have hstart0 : 0 ≤ startPrice := le_trans htick.le hstart
  have hmod : startPrice.tmod tickSize = startPrice % tickSize :=
    Int.tmod_eq_emod hstart0 htick.le
  have halignpos : 0 < startPrice - startPrice.tmod tickSize := by
    rw [hmod]
    have := Int.emod_lt_of_pos startPrice htick
    linarith
  have heq : startPrice - startPrice.tmod tickSize =
      tickSize * (startPrice / tickSize) := by
    have := Int.ediv_add_emod startPrice tickSize
    rw [hmod]
    linarith
  have halign : tickSize ∣ startPrice - startPrice.tmod tickSize :=
    ⟨startPrice / tickSize, heq⟩
  obtain ⟨hmem, _, _, _, _⟩ :=
    bidLoop_facts minFeesBps tickSize (codeBidBound bestAskPrice endPrice)
      hfee htick (gridFuel bestAskPrice endPrice)
      (startPrice - startPrice.tmod tickSize) halignpos.le halign
  have hmemw : ∀ p ∈ (spotWalk minFeesBps startPrice endPrice bestAskPrice
      tickSize).1, startPrice - startPrice.tmod tickSize ≤ p.price :=
    fun p hp => (hmem p hp).2.1
  obtain ⟨hbp, _, hbm⟩ := spotQuoteBids_ok_spec qpt sizePrecision pricePrecision
    qd minSize _ outBids.1 outBids.2 (by rw [hob])
  have hper : ∀ q ∈ outBids.1,
      quoteValue sizePrecision pricePrecision qd q ≤ qpt := by
    intro q hq
    obtain ⟨p, hpmem, hqp, _, hnorm⟩ := hbm q hq
    have hppos : 0 < p.price := lt_of_lt_of_le halignpos (hmemw p hpmem)
    have hb := bid_quoteValue_le qpt sizePrecision pricePrecision p.price
      q.liquidity qd hqpt0 hS hP hppos hnorm
    rw [quoteValue, hqp]
    exact hb
  have hperm : ((sortByPriceDesc outBids.1).map
      (quoteValue sizePrecision pricePrecision qd)).sum =
      (outBids.1.map (quoteValue sizePrecision pricePrecision qd)).sum :=
    List.Perm.sum_eq (List.Perm.map _ (sortByPriceDesc_perm outBids.1))
  have hsumle : (outBids.1.map (quoteValue sizePrecision pricePrecision
      qd)).sum ≤ (outBids.1.map (quoteValue sizePrecision pricePrecision
      qd)).length • qpt := by
    apply List.sum_le_card_nsmul
    intro x hx
    obtain ⟨q, hqmem, hqx⟩ := List.mem_map.mp hx
    rw [← hqx]
    exact hper q hqmem
  have hlen : outBids.1.length = (spotWalk minFeesBps startPrice endPrice
      bestAskPrice tickSize).1.length := by
    have := congrArg List.length hbp
    simpa using this
  have hfinal : (outBids.1.length : ℤ) * qpt ≤ Q := by
    rw [hqv, hlen]
    rw [Int.tdiv_eq_ediv hQ hlenpos.le]
    have hdiv := Int.ediv_add_emod Q
      ((spotWalk minFeesBps startPrice endPrice bestAskPrice
        tickSize).1.length : ℤ)
    have hm := Int.emod_nonneg Q (ne_of_gt hlenpos)
    linarith
  calc ((sortByPriceDesc outBids.1).map
      (quoteValue sizePrecision pricePrecision qd)).sum
      = (outBids.1.map (quoteValue sizePrecision pricePrecision qd)).sum :=
        hperm
    _ ≤ (outBids.1.map (quoteValue sizePrecision pricePrecision
        qd)).length • qpt := hsumle
    _ = (outBids.1.length : ℤ) * qpt := by rw [List.length_map, nsmul_eq_mul]
    _ ≤ Q := hfinal

/-- Witness for C1 at `Q = 5`, grid `[1, 2, 3]`: the bid notional sum 1 is at
most the requested 5. -/
theorem claim_C1_witness :
    (((⟨⟨[⟨3, 5, 0⟩, ⟨2, 4, 0⟩, ⟨1, 3, 1⟩], [], 5, 0, false⟩,
      ⟨[⟨3, 5, 0⟩, ⟨2, 4, 0⟩, ⟨1, 3, 1⟩], [], 1, 0⟩⟩ :
      BatchLPResult)).batchLPDetails.bids.map (quoteValue 1 1 0)).sum ≤ 5 :=
  claim_C1_bid_conservation 0 1 4 4 1 1 0 0 1 0 5 none
    ⟨⟨[⟨3, 5, 0⟩, ⟨2, 4, 0⟩, ⟨1, 3, 1⟩], [], 5, 0, false⟩,
      ⟨[⟨3, 5, 0⟩, ⟨2, 4, 0⟩, ⟨1, 3, 1⟩], [], 1, 0⟩⟩
    (by decide) (by decide) (by decide) (by decide) (by decide) (by decide)
    (by decide)

/-- Counterexample to C1 as stated: requesting `quoteLiquidity = 5` over the
three-level bid grid `[1, 2, 3]` returns bids whose total quote-equivalent
notional is 1, and the shortfall `5 - 1 = 4` exceeds one rounding unit. -/
theorem claim_C1_counterexample :
    (getSpotBatchLPDetails 0 1 4 4 1 1 0 0 1 0 (some 5) none none).map
      (fun r => (r.batchLPDetails.bids.map (quoteValue 1 1 0)).sum) =
      .ok 1 ∧ ¬((5 : ℤ) - 1 ≤ 1) := ⟨by decide, by decide⟩

/-! ### C5: only the `maxPricePoints` pre-check raises the range error -/

/-- A computation that does not fail with `rangeTooWide`. -/
def noRange {α : Type _} (x : Except JsErr α) : Prop :=
  x ≠ .error .rangeTooWide

theorem noRange_ok {α : Type _} (a : α) :
    noRange (.ok a : Except JsErr α) := by simp [noRange]

theorem noRange_pure {α : Type _} (a : α) :
    noRange (pure a : Except JsErr α) := by simp [noRange, jsPure_eq_ok]

theorem noRange_error {α : Type _} {e : JsErr} (h : e ≠ .rangeTooWide) :
    noRange (.error e : Except JsErr α) := by simpa [noRange] using h

theorem noRange_throw {α : Type _} {e : JsErr} (h : e ≠ .rangeTooWide) :
    noRange (throw e : Except JsErr α) := by
  simpa [noRange, throw, throwThe, MonadExceptOf.throw] using h

theorem noRange_bind {α β : Type _} {x : Except JsErr α}
    {f : α → Except JsErr β} (h1 : noRange x) (h2 : ∀ a, noRange (f a)) :
    noRange (x >>= f) := by
  cases x with
  | error e =>
    rw [jsError_bind]
    exact noRange_error (fun he => h1 (by rw [he]))
  | ok a => rw [jsOk_bind]; exact h2 a

theorem noRange_jsDiv (a b : ℤ) : noRange (jsDiv a b) := by
  rw [jsDiv]
  split
  · exact noRange_error (by decide)
  · exact noRange_ok _

theorem noRange_jsMod (a b : ℤ) : noRange (jsMod a b) := by
  rw [jsMod]
  split
  · exact noRange_error (by decide)
  · exact noRange_ok _

theorem noRange_mulDivUp (x y d : ℤ) : noRange (mulDivUp x y d) := by
  rw [mulDivUp]
  split
  · exact noRange_error (by decide)
  · dsimp only
    split
    · exact noRange_error (by decide)
    · split
      · exact noRange_ok _
      · exact noRange_ok _

theorem noRange_normalizeBidSize (p S s : ℤ) :
    noRange (normalizeBidSize p S s) := by
  rw [normalizeBidSize]
  refine noRange_bind (noRange_mulDivUp _ _ _) ?_
  intro up
  refine noRange_bind (noRange_jsDiv _ _) ?_
  intro fl
  split
  · exact noRange_bind (noRange_mulDivUp _ _ _) (fun adj => noRange_pure _)
  · exact noRange_pure _

theorem noRange_scaleBids (mS S P : ℤ) (qd : ℕ) (sm : Option ℤ) :
    ∀ l, noRange (scaleBids mS S P qd sm l) := by
  intro l
  induction l with
  | nil => exact noRange_ok _
  | cons pos rest ih =>
    rw [scaleBids.eq_def]
    dsimp only
    cases sm with
    | none =>
      refine noRange_bind (noRange_pure _) ?_
      intro y
      exact noRange_bind ih (fun t => noRange_pure _)
    | some s =>
      dsimp only
      split
      · refine noRange_bind (noRange_pure _) ?_
        intro y
        exact noRange_bind ih (fun t => noRange_pure _)
      · refine noRange_bind (noRange_jsDiv _ _) ?_
        intro m1
        refine noRange_bind (noRange_jsDiv _ _) ?_
        intro liq
        refine noRange_bind (noRange_pure _) ?_
        intro y
        exact noRange_bind ih (fun t => noRange_pure _)

theorem noRange_scaleAsks (mS : ℤ) (sm : Option ℤ) :
    ∀ l, noRange (scaleAsks mS sm l) := by
  intro l
  induction l with
  | nil => exact noRange_ok _
  | cons pos rest ih =>
    rw [scaleAsks.eq_def]
    dsimp only
    cases sm with
    | none =>
      refine noRange_bind (noRange_pure _) ?_
      intro y
      exact noRange_bind ih (fun t => noRange_pure _)
    | some s =>
      dsimp only
      split
      · refine noRange_bind (noRange_pure _) ?_
        intro y
        exact noRange_bind ih (fun t => noRange_pure _)
      · refine noRange_bind (noRange_jsDiv _ _) ?_
        intro liq
        refine noRange_bind (noRange_pure _) ?_
        intro y
        exact noRange_bind ih (fun t => noRange_pure _)

theorem noRange_getLPSummary (batch : BatchLPDetails) (mS S P : ℤ) (qd : ℕ) :
    noRange (getLPSummaryForMinSize batch mS S P qd) := by
  rw [getLPSummaryForMinSize]
  refine noRange_bind (noRange_scaleBids _ _ _ _ _ _) ?_
  intro sb
  exact noRange_bind (noRange_scaleAsks _ _ _) (fun sa => noRange_pure _)

theorem noRange_spotQuoteBids (qpt S P : ℤ) (qd : ℕ) (mS : ℤ) :
    ∀ l, noRange (spotQuoteBids qpt S P qd mS l) := by
  intro l
  induction l with
  | nil => exact noRange_ok _
  | cons b rest ih =>
    rw [spotQuoteBids]
    refine noRange_bind (noRange_jsDiv _ _) ?_
    intro bs
    refine noRange_bind (noRange_normalizeBidSize _ _ _) ?_
    intro liq
    exact noRange_bind ih (fun t => noRange_ok _)

theorem noRange_spotQuoteAsks (qpt S P : ℤ) (qd bd : ℕ) (mS : ℤ) :
    ∀ l, noRange (spotQuoteAsks qpt S P qd bd mS l) := by
  intro l
  induction l with
  | nil => exact noRange_ok _
  | cons a rest ih =>
    rw [spotQuoteAsks]
    refine noRange_bind (noRange_jsDiv _ _) ?_
    intro liq
    refine noRange_bind (noRange_jsDiv _ _) ?_
    intro contrib
    exact noRange_bind ih (fun t => noRange_ok _)

theorem noRange_reciprocalSumScaled (P : ℤ) (asks : List Position) :
    noRange (reciprocalSumScaled P asks) := by
  rw [reciprocalSumScaled]
  suffices h : ∀ (l : List Position) (z : ℤ), noRange (l.foldlM
      (fun sum ask => do
        let t ← mulDivUp P P ask.price
        pure (sum + t)) z) from h asks 0
  intro l
  induction l with
  | nil => intro z; exact noRange_pure _
  | cons a rest ih =>
    intro z
    rw [List.foldlM_cons]
    refine noRange_bind ?_ (fun z2 => ih z2)
    exact noRange_bind (noRange_mulDivUp _ _ _) (fun t => noRange_pure _)

theorem noRange_spotBaseAsks (B S P R : ℤ) (bd : ℕ) (mS : ℤ) :
    ∀ l, noRange (spotBaseAsks B S P R bd mS l) := by
  intro l
  induction l with
  | nil => exact noRange_ok _
  | cons a rest ih =>
    rw [spotBaseAsks]
    refine noRange_bind (noRange_jsDiv _ _) ?_
    intro liq
    exact noRange_bind ih (fun t => noRange_ok _)

theorem noRange_spotBaseBids (qpt S P : ℤ) (qd : ℕ) (mS : ℤ) :
    ∀ l, noRange (spotBaseBids qpt S P qd mS l) := by
  intro l
  induction l with
  | nil => exact noRange_ok _
  | cons b rest ih =>
    rw [spotBaseBids]
    refine noRange_bind (noRange_jsDiv _ _) ?_
    intro bs
    refine noRange_bind (noRange_normalizeBidSize _ _ _) ?_
    intro liq
    exact noRange_bind ih (fun t => noRange_ok _)

theorem noRange_spotBothAsks (B S n : ℤ) (bd : ℕ) (mS : ℤ) :
    ∀ l, noRange (spotBothAsks B S n bd mS l) := by
  intro l
  induction l with
  | nil => exact noRange_ok _
  | cons a rest ih =>
    rw [spotBothAsks]
    refine noRange_bind (noRange_jsDiv _ _) ?_
    intro liq
    exact noRange_bind ih (fun t => noRange_ok _)

theorem noRange_spotBothBids (Q S P n : ℤ) (qd : ℕ) (mS : ℤ) :
    ∀ l, noRange (spotBothBids Q S P n qd mS l) := by
  intro l
  induction l with
  | nil => exact noRange_ok _
  | cons b rest ih =>
    rw [spotBothBids]
    refine noRange_bind (noRange_jsDiv _ _) ?_
    intro bs
    refine noRange_bind (noRange_normalizeBidSize _ _ _) ?_
    intro liq
    exact noRange_bind ih (fun t => noRange_ok _)

theorem noRange_curveQuoteBids (u P S : ℤ) (qd : ℕ) (mS : ℤ) :
    ∀ l i, noRange (curveQuoteBids u P S qd mS i l) := by
  intro l
  induction l with
  | nil => intro i; exact noRange_ok _
  | cons b rest ih =>
    intro i
    rw [curveQuoteBids]
    refine noRange_bind (noRange_jsDiv _ _) ?_
    intro bs
    refine noRange_bind (noRange_normalizeBidSize _ _ _) ?_
    intro liq
    exact noRange_bind (ih _) (fun t => noRange_ok _)

theorem noRange_curveQuoteAsks (u S P n : ℤ) (qd bd : ℕ) (mS : ℤ) :
    ∀ l i, noRange (curveQuoteAsks u S P n qd bd mS i l) := by
  intro l
  induction l with
  | nil => intro i; exact noRange_ok _
  | cons a rest ih =>
    intro i
    rw [curveQuoteAsks]
    refine noRange_bind (noRange_jsDiv _ _) ?_
    intro liq
    refine noRange_bind (noRange_jsDiv _ _) ?_
    intro contrib
    exact noRange_bind (ih _) (fun t => noRange_ok _)

theorem noRange_curveWeightedSum (f P n : ℤ) :
    ∀ l i, noRange (curveWeightedSum f P n i l) := by
  intro l
  induction l with
  | nil => intro i; exact noRange_ok _
  | cons a rest ih =>
    intro i
    rw [curveWeightedSum]
    refine noRange_bind (noRange_mulDivUp _ _ _) ?_
    intro r
    exact noRange_bind (ih _) (fun t => noRange_ok _)

theorem noRange_curveBaseAsks (b f S P n : ℤ) (qd bd : ℕ) (mS : ℤ) :
    ∀ l i, noRange (curveBaseAsks b f S P n qd bd mS i l) := by
  intro l
  induction l with
  | nil => intro i; exact noRange_ok _
  | cons a rest ih =>
    intro i
    rw [curveBaseAsks]
    refine noRange_bind (noRange_jsDiv _ _) ?_
    intro bfa
    refine noRange_bind (noRange_jsDiv _ _) ?_
    intro liq
    refine noRange_bind (noRange_jsDiv _ _) ?_
    intro qfa
    exact noRange_bind (ih _) (fun t => noRange_ok _)

theorem noRange_bidAskQuoteBids (u P S n : ℤ) (qd : ℕ) (mS : ℤ) :
    ∀ l i, noRange (bidAskQuoteBids u P S n qd mS i l) := by
  intro l
  induction l with
  | nil => intro i; exact noRange_ok _
  | cons b rest ih =>
    intro i
    rw [bidAskQuoteBids]
    refine noRange_bind (noRange_jsDiv _ _) ?_
    intro bs
    refine noRange_bind (noRange_normalizeBidSize _ _ _) ?_
    intro liq
    exact noRange_bind (ih _) (fun t => noRange_ok _)

theorem noRange_bidAskQuoteAsks (u P S : ℤ) (qd bd : ℕ) (mS : ℤ) :
    ∀ l i, noRange (bidAskQuoteAsks u P S qd bd mS i l) := by
  intro l
  induction l with
  | nil => intro i; exact noRange_ok _
  | cons a rest ih =>
    intro i
    rw [bidAskQuoteAsks]
    refine noRange_bind (noRange_jsDiv _ _) ?_
    intro liq
    refine noRange_bind (noRange_jsDiv _ _) ?_
    intro contrib
    exact noRange_bind (ih _) (fun t => noRange_ok _)

theorem noRange_bidAskWeightedSum (c P : ℤ) :
    ∀ l i, noRange (bidAskWeightedSum c P i l) := by
  intro l
  induction l with
  | nil => intro i; exact noRange_ok _
  | cons a rest ih =>
    intro i
    rw [bidAskWeightedSum]
    refine noRange_bind (noRange_mulDivUp _ _ _) ?_
    intro t
    exact noRange_bind (ih _) (fun t2 => noRange_ok _)

theorem noRange_bidAskBaseAsks (b c S P : ℤ) (qd bd : ℕ) (mS : ℤ) :
    ∀ l i, noRange (bidAskBaseAsks b c S P qd bd mS i l) := by
  intro l
  induction l with
  | nil => intro i; exact noRange_ok _
  | cons a rest ih =>
    intro i
    rw [bidAskBaseAsks]
    refine noRange_bind (noRange_jsDiv _ _) ?_
    intro bfa
    refine noRange_bind (noRange_jsDiv _ _) ?_
    intro liq
    refine noRange_bind (noRange_jsDiv _ _) ?_
    intro qfa
    exact noRange_bind (ih _) (fun t => noRange_ok _)

/-- Once the pre-check has passed, the spot entry point can no longer fail
with the range error: every later failure site raises a different error. -/
theorem getSpot_noRange (minFeesBps startPrice endPrice bestAskPrice
    pricePrecision sizePrecision : ℤ) (qd bd : ℕ) (tickSize minSize : ℤ)
    (quoteL baseL : Option ℤ) (mpp : Option ℕ)
    (hpre : priceRangeCheck minFeesBps startPrice endPrice mpp = .ok ()) :
    noRange (getSpotBatchLPDetails minFeesBps startPrice endPrice bestAskPrice
      pricePrecision sizePrecision qd bd tickSize minSize quoteL baseL mpp) := by
  rw [getSpotBatchLPDetails, hpre]
  simp only [jsOk_bind, jsPure_eq_ok]
  split
  · simp only [throw, throwThe, MonadExceptOf.throw, jsError_bind]
    exact noRange_error (by decide)
  · refine noRange_bind (noRange_jsMod _ _) ?_
    intro m
    dsimp only
    cases quoteL with
    | some Q =>
      cases baseL with
      | none =>
        dsimp only
        refine noRange_bind (noRange_jsDiv _ _) ?_
        intro qpt
        refine noRange_bind (noRange_spotQuoteBids _ _ _ _ _ _) ?_
        intro ob
        refine noRange_bind (noRange_spotQuoteAsks _ _ _ _ _ _ _) ?_
        intro oa
        exact noRange_bind (noRange_getLPSummary _ _ _ _ _)
          (fun s => noRange_ok _)
      | some B =>
        dsimp only
        refine noRange_bind (noRange_spotBothAsks _ _ _ _ _ _) ?_
        intro oa
        refine noRange_bind (noRange_spotBothBids _ _ _ _ _ _ _) ?_
        intro ob
        exact noRange_bind (noRange_getLPSummary _ _ _ _ _)
          (fun s => noRange_ok _)
    | none =>
      cases baseL with
      | none =>
        dsimp only
        exact noRange_bind (noRange_getLPSummary _ _ _ _ _)
          (fun s => noRange_ok _)
      | some B =>
        dsimp only
        refine noRange_bind (noRange_reciprocalSumScaled _ _) ?_
        intro rs
        dsimp only
        split
        · simp only [throw, throwThe, MonadExceptOf.throw, jsError_bind]
          exact noRange_error (by decide)
        · refine noRange_bind (noRange_spotBaseAsks _ _ _ _ _ _ _) ?_
          intro oa
          obtain ⟨l, flag⟩ := oa
          cases l with
          | nil =>
            simp only [throw, throwThe, MonadExceptOf.throw]
            exact noRange_error (by decide)
          | cons fa restAsks =>
            dsimp only
            refine noRange_bind (noRange_jsDiv _ _) ?_
            intro qpt
            refine noRange_bind (noRange_spotBaseBids _ _ _ _ _ _) ?_
            intro ob
            exact noRange_bind (noRange_getLPSummary _ _ _ _ _)
              (fun s => noRange_ok _)

/-- Once the pre-check has passed, the curve entry point can no longer fail
with the range error. -/
theorem getCurve_noRange (minFeesBps startPrice endPrice bestAskPrice
    pricePrecision sizePrecision : ℤ) (qd bd : ℕ) (tickSize minSize : ℤ)
    (quoteL baseL : Option ℤ) (mpp : Option ℕ)
    (hpre : priceRangeCheck minFeesBps startPrice endPrice mpp = .ok ()) :
    noRange (getCurveBatchLPDetails minFeesBps startPrice endPrice bestAskPrice
      pricePrecision sizePrecision qd bd tickSize minSize quoteL baseL mpp) := by
  rw [getCurveBatchLPDetails, hpre]
  simp only [jsOk_bind, jsPure_eq_ok]
  split
  · simp only [throw, throwThe, MonadExceptOf.throw, jsError_bind]
    exact noRange_error (by decide)
  · refine noRange_bind (noRange_jsMod _ _) ?_
    intro m
    dsimp only
    cases quoteL with
    | some Q =>
      dsimp only
      split
      · refine noRange_bind (noRange_jsDiv _ _) ?_
        intro u1
        split
        · refine noRange_bind (noRange_jsDiv _ _) ?_
          intro u2
          refine noRange_bind (noRange_curveQuoteBids _ _ _ _ _ _ _) ?_
          intro ob
          refine noRange_bind (noRange_curveQuoteAsks _ _ _ _ _ _ _ _ _) ?_
          intro oa
          exact noRange_bind (noRange_getLPSummary _ _ _ _ _)
            (fun s => noRange_ok _)
        · refine noRange_bind (noRange_curveQuoteBids _ _ _ _ _ _ _) ?_
          intro ob
          refine noRange_bind (noRange_curveQuoteAsks _ _ _ _ _ _ _ _ _) ?_
          intro oa
          exact noRange_bind (noRange_getLPSummary _ _ _ _ _)
            (fun s => noRange_ok _)
      · split
        · refine noRange_bind (noRange_jsDiv _ _) ?_
          intro u2
          refine noRange_bind (noRange_curveQuoteBids _ _ _ _ _ _ _) ?_
          intro ob
          refine noRange_bind (noRange_curveQuoteAsks _ _ _ _ _ _ _ _ _) ?_
          intro oa
          exact noRange_bind (noRange_getLPSummary _ _ _ _ _)
            (fun s => noRange_ok _)
        · refine noRange_bind (noRange_curveQuoteBids _ _ _ _ _ _ _) ?_
          intro ob
          refine noRange_bind (noRange_curveQuoteAsks _ _ _ _ _ _ _ _ _) ?_
          intro oa
          exact noRange_bind (noRange_getLPSummary _ _ _ _ _)
            (fun s => noRange_ok _)
    | none =>
      cases baseL with
      | none =>
        dsimp only
        exact noRange_bind (noRange_getLPSummary _ _ _ _ _)
          (fun s => noRange_ok _)
      | some B =>
        dsimp only
        split
        · simp only [throw, throwThe, MonadExceptOf.throw, jsError_bind]
          exact noRange_error (by decide)
        · split
          · simp only [throw, throwThe, MonadExceptOf.throw]
            exact noRange_error (by decide)
          · refine noRange_bind (noRange_curveWeightedSum _ _ _ _ _) ?_
            intro wsum
            split
            · refine noRange_bind (noRange_jsDiv _ _) ?_
              intro bfa
              refine noRange_bind (noRange_curveBaseAsks _ _ _ _ _ _ _ _ _ _) ?_
              intro oa
              split
              · refine noRange_bind (noRange_jsDiv _ _) ?_
                intro u
                refine noRange_bind (noRange_curveQuoteBids _ _ _ _ _ _ _) ?_
                intro ob
                exact noRange_bind (noRange_getLPSummary _ _ _ _ _)
                  (fun s => noRange_ok _)
              · exact noRange_bind (noRange_getLPSummary _ _ _ _ _)
                  (fun s => noRange_ok _)
            · refine noRange_bind (noRange_curveBaseAsks _ _ _ _ _ _ _ _ _ _) ?_
              intro oa
              split
              · refine noRange_bind (noRange_jsDiv _ _) ?_
                intro u
                refine noRange_bind (noRange_curveQuoteBids _ _ _ _ _ _ _) ?_
                intro ob
                exact noRange_bind (noRange_getLPSummary _ _ _ _ _)
                  (fun s => noRange_ok _)
              · exact noRange_bind (noRange_getLPSummary _ _ _ _ _)
                  (fun s => noRange_ok _)

/-- Once the pre-check has passed, the bid-ask entry point can no longer fail
with the range error. -/
theorem getBidAsk_noRange (minFeesBps startPrice endPrice bestAskPrice
    pricePrecision sizePrecision : ℤ) (qd bd : ℕ) (tickSize minSize : ℤ)
    (quoteL baseL : Option ℤ) (mpp : Option ℕ)
    (hpre : priceRangeCheck minFeesBps startPrice endPrice mpp = .ok ()) :
    noRange (getBidAskBatchLPDetails minFeesBps startPrice endPrice bestAskPrice
      pricePrecision sizePrecision qd bd tickSize minSize quoteL baseL mpp) := by
  rw [getBidAskBatchLPDetails, hpre]
  simp only [jsOk_bind, jsPure_eq_ok]
  split
  · simp only [throw, throwThe, MonadExceptOf.throw, jsError_bind]
    exact noRange_error (by decide)
  · refine noRange_bind (noRange_jsMod _ _) ?_
    intro m
    dsimp only
    cases quoteL with
    | some Q =>
      dsimp only
      split
      · refine noRange_bind (noRange_jsDiv _ _) ?_
        intro u1
        split
        · refine noRange_bind (noRange_jsDiv _ _) ?_
          intro u2
          refine noRange_bind (noRange_bidAskQuoteBids _ _ _ _ _ _ _ _) ?_
          intro ob
          refine noRange_bind (noRange_bidAskQuoteAsks _ _ _ _ _ _ _ _) ?_
          intro oa
          exact noRange_bind (noRange_getLPSummary _ _ _ _ _)
            (fun s => noRange_ok _)
        · refine noRange_bind (noRange_bidAskQuoteBids _ _ _ _ _ _ _ _) ?_
          intro ob
          refine noRange_bind (noRange_bidAskQuoteAsks _ _ _ _ _ _ _ _) ?_
          intro oa
          exact noRange_bind (noRange_getLPSummary _ _ _ _ _)
            (fun s => noRange_ok _)
      · split
        · refine noRange_bind (noRange_jsDiv _ _) ?_
          intro u2
          refine noRange_bind (noRange_bidAskQuoteBids _ _ _ _ _ _ _ _) ?_
          intro ob
          refine noRange_bind (noRange_bidAskQuoteAsks _ _ _ _ _ _ _ _) ?_
          intro oa
          exact noRange_bind (noRange_getLPSummary _ _ _ _ _)
            (fun s => noRange_ok _)
        · refine noRange_bind (noRange_bidAskQuoteBids _ _ _ _ _ _ _ _) ?_
          intro ob
          refine noRange_bind (noRange_bidAskQuoteAsks _ _ _ _ _ _ _ _) ?_
          intro oa
          exact noRange_bind (noRange_getLPSummary _ _ _ _ _)
            (fun s => noRange_ok _)
    | none =>
      cases baseL with
      | none =>
        dsimp only
        exact noRange_bind (noRange_getLPSummary _ _ _ _ _)
          (fun s => noRange_ok _)
      | some B =>
        dsimp only
        split
        · simp only [throw, throwThe, MonadExceptOf.throw, jsError_bind]
          exact noRange_error (by decide)
        · split
          · simp only [throw, throwThe, MonadExceptOf.throw]
            exact noRange_error (by decide)
          · refine noRange_bind (noRange_bidAskWeightedSum _ _ _ _) ?_
            intro wsum
            refine noRange_bind (noRange_jsDiv _ _) ?_
            intro bca
            refine noRange_bind (noRange_bidAskBaseAsks _ _ _ _ _ _ _ _ _) ?_
            intro oa
            split
            · refine noRange_bind (noRange_jsDiv _ _) ?_
              intro u
              refine noRange_bind (noRange_bidAskQuoteBids _ _ _ _ _ _ _ _) ?_
              intro ob
              exact noRange_bind (noRange_getLPSummary _ _ _ _ _)
                (fun s => noRange_ok _)
            · exact noRange_bind (noRange_getLPSummary _ _ _ _ _)
                (fun s => noRange_ok _)

theorem priceRangeCheck_ok_of_not (minFeesBps startPrice endPrice : ℤ)
    (n : ℕ) (hc : ¬ maxReachablePrice minFeesBps startPrice n ≤ endPrice) :
    priceRangeCheck minFeesBps startPrice endPrice (some n) = .ok () := by
  simp only [priceRangeCheck]
  rw [if_neg hc]

theorem priceRangeCheck_error_of (minFeesBps startPrice endPrice : ℤ)
    (n : ℕ) (hc : maxReachablePrice minFeesBps startPrice n ≤ endPrice) :
    priceRangeCheck minFeesBps startPrice endPrice (some n) =
      .error .rangeTooWide := by
  simp only [priceRangeCheck]
  rw [if_pos hc]

theorem getSpot_rangeIff (minFeesBps startPrice endPrice bestAskPrice
    pricePrecision sizePrecision : ℤ) (qd bd : ℕ) (tickSize minSize : ℤ)
    (quoteL baseL : Option ℤ) (n : ℕ) :
    getSpotBatchLPDetails minFeesBps startPrice endPrice bestAskPrice
      pricePrecision sizePrecision qd bd tickSize minSize quoteL baseL
      (some n) = .error .rangeTooWide ↔
    maxReachablePrice minFeesBps startPrice n ≤ endPrice := by
  constructor
  · intro h
    by_contra hc
    exact getSpot_noRange minFeesBps startPrice endPrice bestAskPrice
      pricePrecision sizePrecision qd bd tickSize minSize quoteL baseL
      (some n) (priceRangeCheck_ok_of_not _ _ _ _ hc) h
  · intro hc
    rw [getSpotBatchLPDetails,
      priceRangeCheck_error_of _ _ _ _ hc]
    exact jsError_bind _ _

theorem getCurve_rangeIff (minFeesBps startPrice endPrice bestAskPrice
    pricePrecision sizePrecision : ℤ) (qd bd : ℕ) (tickSize minSize : ℤ)
    (quoteL baseL : Option ℤ) (n : ℕ) :
    getCurveBatchLPDetails minFeesBps startPrice endPrice bestAskPrice
      pricePrecision sizePrecision qd bd tickSize minSize quoteL baseL
      (some n) = .error .rangeTooWide ↔
    maxReachablePrice minFeesBps startPrice n ≤ endPrice := by
  constructor
  · intro h
    by_contra hc
    exact getCurve_noRange minFeesBps startPrice endPrice bestAskPrice
      pricePrecision sizePrecision qd bd tickSize minSize quoteL baseL
      (some n) (priceRangeCheck_ok_of_not _ _ _ _ hc) h
  · intro hc
    rw [getCurveBatchLPDetails,
      priceRangeCheck_error_of _ _ _ _ hc]
    exact jsError_bind _ _

theorem getBidAsk_rangeIff (minFeesBps startPrice endPrice bestAskPrice
    pricePrecision sizePrecision : ℤ) (qd bd : ℕ) (tickSize minSize : ℤ)
    (quoteL baseL : Option ℤ) (n : ℕ) :
    getBidAskBatchLPDetails minFeesBps startPrice endPrice bestAskPrice
      pricePrecision sizePrecision qd bd tickSize minSize quoteL baseL
      (some n) = .error .rangeTooWide ↔
    maxReachablePrice minFeesBps startPrice n ≤ endPrice := by
  constructor
  · intro h
    by_contra hc
    exact getBidAsk_noRange minFeesBps startPrice endPrice bestAskPrice
      pricePrecision sizePrecision qd bd tickSize minSize quoteL baseL
      (some n) (priceRangeCheck_ok_of_not _ _ _ _ hc) h
  · intro hc
    rw [getBidAskBatchLPDetails,
      priceRangeCheck_error_of _ _ _ _ hc]
    exact jsError_bind _ _

/-- C5.  With `maxPricePoints = some n` and nonnegative `minFeesBps` and
`startPrice`, each of the three entry points fails with the range error (and
returns no ladder) exactly when
`floor(startPrice * (10000 + minFeesBps)^n / 10000^n) ≤ endPrice`; the powers
are the source's repeated integer multiplications, and on this domain the
source's truncating bigint division agrees with the floor. -/
theorem claim_C5_rangeTooWide_iff (minFeesBps startPrice endPrice bestAskPrice
    pricePrecision sizePrecision : ℤ) (qd bd : ℕ) (tickSize minSize : ℤ)
    (quoteL baseL : Option ℤ) (n : ℕ) (hfee : 0 ≤ minFeesBps)
    (hstart : 0 ≤ startPrice) :
    (getSpotBatchLPDetails minFeesBps startPrice endPrice bestAskPrice
      pricePrecision sizePrecision qd bd tickSize minSize quoteL baseL
      (some n) = .error .rangeTooWide ↔
      startPrice * (FEE_DENOMINATOR + minFeesBps) ^ n /
        FEE_DENOMINATOR ^ n ≤ endPrice) ∧
    (getCurveBatchLPDetails minFeesBps startPrice endPrice bestAskPrice
      pricePrecision sizePrecision qd bd tickSize minSize quoteL baseL
      (some n) = .error .rangeTooWide ↔
      startPrice * (FEE_DENOMINATOR + minFeesBps) ^ n /
        FEE_DENOMINATOR ^ n ≤ endPrice) ∧
    (getBidAskBatchLPDetails minFeesBps startPrice endPrice bestAskPrice
      pricePrecision sizePrecision qd bd tickSize minSize quoteL baseL
      (some n) = .error .rangeTooWide ↔
      startPrice * (FEE_DENOMINATOR + minFeesBps) ^ n /
        FEE_DENOMINATOR ^ n ≤ endPrice) := by
  have hF : (0 : ℤ) ≤ FEE_DENOMINATOR + minFeesBps := by
    have h1 : (0 : ℤ) ≤ FEE_DENOMINATOR := by decide
    linarith
  have hET : maxReachablePrice minFeesBps startPrice n =
      startPrice * (FEE_DENOMINATOR + minFeesBps) ^ n / FEE_DENOMINATOR ^ n := by
    rw [maxReachablePrice]
    exact Int.tdiv_eq_ediv (mul_nonneg hstart (pow_nonneg hF n))
      (pow_nonneg (by decide) n)
  refine ⟨?_, ?_, ?_⟩ <;> rw [← hET]
  · exact getSpot_rangeIff minFeesBps startPrice endPrice bestAskPrice
      pricePrecision sizePrecision qd bd tickSize minSize quoteL baseL n
  · exact getCurve_rangeIff minFeesBps startPrice endPrice bestAskPrice
      pricePrecision sizePrecision qd bd tickSize minSize quoteL baseL n
  · exact getBidAsk_rangeIff minFeesBps startPrice endPrice bestAskPrice
      pricePrecision sizePrecision qd bd tickSize minSize quoteL baseL n

/-- Witness for C5 at fee 0, `startPrice = 1`, `endPrice = 2`, `n = 1`: the
reachable price 1 is at most 2, so all three entry points fail with the range
error. -/
theorem claim_C5_witness :
    (getSpotBatchLPDetails 0 1 2 2 1 1 0 0 1 0 (some 5) none (some 1) =
        .error .rangeTooWide ↔
      (1 : ℤ) * (FEE_DENOMINATOR + 0) ^ 1 / FEE_DENOMINATOR ^ 1 ≤ 2) ∧
    (getCurveBatchLPDetails 0 1 2 2 1 1 0 0 1 0 (some 5) none (some 1) =
        .error .rangeTooWide ↔
      (1 : ℤ) * (FEE_DENOMINATOR + 0) ^ 1 / FEE_DENOMINATOR ^ 1 ≤ 2) ∧
    (getBidAskBatchLPDetails 0 1 2 2 1 1 0 0 1 0 (some 5) none (some 1) =
        .error .rangeTooWide ↔
      (1 : ℤ) * (FEE_DENOMINATOR + 0) ^ 1 / FEE_DENOMINATOR ^ 1 ≤ 2) :=
  claim_C5_rangeTooWide_iff 0 1 2 2 1 1 0 0 1 0 (some 5) none 1
    (by decide) (by decide)

end Kuru
